import Mathlib

/-!
# Tez UI timeline serializers: the entity normalization layer

A shallow embedding of `tez-ui/src/main/webapp/app/scripts/models/TimelineRestAdapter.js`.

JavaScript values are embedded as the tree type `Json`.  A raw payload comes out of
`JSON.parse`, so it is a tree without sharing; in-place mutation of a nested object is
rendered by rebuilding the parent around the mutated child.  A thrown `TypeError` is
`none`.  A number is given by an integer numeral `n` and stands for the double nearest to
`n`, which is what `JSON.parse` makes of that numeral; numbers with a fraction are not
among the values.  A string stands for its UTF-16 encoding: lengths, indices and `substr`
count code units, so that a character beyond the basic plane counts twice.
-/

namespace Tez

/-- JavaScript values.  An array carries its elements and, being an object, the named
properties assigned to it; `JSON.parse` produces arrays whose named properties are empty. -/
inductive Json where
  | undefined : Json
  | null : Json
  | bool (b : Bool) : Json
  | num (n : Int) : Json
  | str (s : String) : Json
  | arr (items : List Json) (props : List (String × Json)) : Json
  | obj (props : List (String × Json)) : Json

/-- Whether an association list holds the key `k`. -/
def hasKey {α : Type} (k : String) (ps : List (String × α)) : Bool :=
  ps.any (fun p => p.1 == k)

/-! ## Strings as sequences of UTF-16 code units -/

/-- Number of UTF-16 code units of a character. -/
def utf16Size (c : Char) : Nat := if c.toNat < 65536 then 1 else 2

/-- Number of UTF-16 code units of a text: the `length` of the string. -/
def utf16Length (cs : List Char) : Nat := (cs.map utf16Size).sum

/-- The code unit at index `i`, as a character; `none` past the end.  Half of a surrogate
pair is no character: such a unit is rendered as U+FFFD. -/
def unitAt : List Char → Nat → Option Char
  | [], _ => none
  | c :: cs, i =>
      if c.toNat < 65536 then (if i = 0 then some c else unitAt cs (i - 1))
      else if i < 2 then some (Char.ofNat 65533) else unitAt cs (i - 2)

/-- Whether the cut after `n` code units falls inside a surrogate pair of the text. -/
def cutsPair : Nat → List Char → Bool
  | 0, _ => false
  | _, [] => false
  | n + 1, c :: cs =>
      if c.toNat < 65536 then cutsPair n cs
      else match n with
        | 0 => true
        | m + 1 => cutsPair m cs

/-- The text without its first `n` code units, as `substr(n)` returns it.  When the cut
falls inside a surrogate pair the result starts with the second half of the pair, which is
no character; it is rendered as U+FFFD, and `cutsPair` tells that case apart. -/
def dropUnits : Nat → List Char → List Char
  | 0, cs => cs
  | _, [] => []
  | n + 1, c :: cs =>
      if c.toNat < 65536 then dropUnits n cs
      else match n with
        | 0 => Char.ofNat 65533 :: cs
        | m + 1 => dropUnits m cs

/-! ## Numbers as text -/

/-- Number of binary digits of `n`, with `fuel` bounding the recursion. -/
def bitLength : Nat → Nat → Nat
  | 0, _ => 0
  | fuel + 1, n => if n = 0 then 0 else bitLength fuel (n / 2) + 1

/-- The double nearest to the natural number `n`, ties going to the even significand;
`none` when the nearest value is `Infinity`. -/
def nearestDouble (n : Nat) : Option Nat :=
  if n < 2 ^ 53 then some n
  else
    let shift := bitLength n n - 53
    let q := n / 2 ^ shift
    let r := n % 2 ^ shift
    let half := 2 ^ (shift - 1)
    let q2 := if half < r ∨ (r = half ∧ q % 2 = 1) then q + 1 else q
    if bitLength (q2 * 2 ^ shift) (q2 * 2 ^ shift) ≤ 1024 then some (q2 * 2 ^ shift) else none

/-- Whether the decimal `c` reads back as the double `v`, for `v` at least `2 ^ 53`: `c`
lies between the midpoints to the two neighbouring doubles, the midpoints included when the
significand of `v` is even. -/
def readsBackAs (v c : Nat) : Bool :=
  let e := bitLength v v - 53
  let m := v / 2 ^ e
  let below := if m = 2 ^ 52 then 2 ^ (e - 1) else 2 ^ e
  let low := 2 * v - below
  let high := 2 * v + 2 ^ e
  if m % 2 = 0 then decide (low ≤ 2 * c ∧ 2 * c ≤ high)
  else decide (low < 2 * c ∧ 2 * c < high)

/-- The candidates `(s, p)` of `k` digits that read back as `v`: `s` has `k` digits and
`s * 10 ^ p` is one of the two multiples of `10 ^ p` next to `v`. -/
def digitCandidates (v digits k : Nat) : List (Nat × Nat) :=
  ([digits + 1 - k, digits - k, digits - k - 1].flatMap (fun p =>
    [(v / 10 ^ p, p), (v / 10 ^ p + 1, p)])).filter (fun sp =>
      decide (10 ^ (k - 1) ≤ sp.1) && decide (sp.1 < 10 ^ k) &&
        readsBackAs v (sp.1 * 10 ^ sp.2))

/-- Distance between two natural numbers. -/
def natDist (a b : Nat) : Nat := (a - b) + (b - a)

/-- Of two candidates the one nearer to `v`, the even one on a tie. -/
def nearer (v : Nat) (a b : Nat × Nat) : Nat × Nat :=
  let da := natDist (a.1 * 10 ^ a.2) v
  let db := natDist (b.1 * 10 ^ b.2) v
  if da < db then a
  else if db < da then b
  else if a.1 % 2 = 0 then a else b

/-- The shortest decimal `s * 10 ^ p` that reads back as the double `v`, the nearest to
`v` among the shortest ones. -/
def shortestDigits (v : Nat) : Nat × Nat :=
  let digits := (Nat.toDigits 10 v).length
  match (List.range 17).findSome? (fun i =>
      match digitCandidates v digits (i + 1) with
      | [] => none
      | c :: cs => some (cs.foldl (nearer v) c)) with
  | some sp => sp
  | none => (v, 0)

/-- `Number::toString` of a double that is a natural number: plain decimal digits below
`10 ^ 21`, exponent form from there on. -/
def doubleStr (v : Nat) : String :=
  if v < 2 ^ 53 then toString v
  else
    let sp := shortestDigits v
    let ds := Nat.toDigits 10 sp.1
    let n := ds.length + sp.2
    if n ≤ 21 then toString (sp.1 * 10 ^ sp.2)
    else
      match ds with
      | [] => ""
      | [d] => String.mk [d] ++ "e+" ++ toString (n - 1)
      | d :: rest => String.mk (d :: '.' :: rest) ++ "e+" ++ toString (n - 1)

/-- `Number::toString` of the number the integer numeral `n` denotes. -/
def numStr : Int → String
  | Int.ofNat n =>
      match nearestDouble n with
      | some v => doubleStr v
      | none => "Infinity"
  | Int.negSucc n =>
      match nearestDouble (n + 1) with
      | some v => "-" ++ doubleStr v
      | none => "-Infinity"

namespace Json

instance : Inhabited Json := ⟨Json.undefined⟩

/-- `ToBoolean`: the value as seen by `!!v` and by `v || w`. -/
def truthy : Json → Bool
  | undefined => false
  | null => false
  | bool b => b
  | num n => n != 0
  | str s => s != ""
  | arr _ _ => true
  | obj _ => true

/-- `v || w`. -/
def orElse (v w : Json) : Json := if v.truthy then v else w

mutual
/-- `ToString`, the coercion `+` applies to an operand when the other one is a string;
`none` is the `TypeError` of an object whose own `toString` property is not callable. -/
def toStr : Json → Option String
  | undefined => some "undefined"
  | null => some "null"
  | bool b => some (if b then "true" else "false")
  | num n => some (numStr n)
  | str s => some s
  | arr items ps =>
      if hasKey "toString" ps then none
      else if hasKey "join" ps then some "[object Array]"
      else joinStr items
  | obj ps => if hasKey "toString" ps then none else some "[object Object]"
/-- `Array.prototype.join` with the separator `","`, as called by `Array.prototype.toString`. -/
def joinStr : List Json → Option String
  | [] => some ""
  | [x] => elemStr x
  | x :: y :: rest =>
      match elemStr x, joinStr (y :: rest) with
      | some a, some b => some (a ++ "," ++ b)
      | _, _ => none
/-- One element inside `join`: `undefined` and `null` print as the empty string. -/
def elemStr : Json → Option String
  | undefined => some ""
  | null => some ""
  | bool b => some (if b then "true" else "false")
  | num n => some (numStr n)
  | str s => some s
  | arr items ps =>
      if hasKey "toString" ps then none
      else if hasKey "join" ps then some "[object Array]"
      else joinStr items
  | obj ps => if hasKey "toString" ps then none else some "[object Object]"
end

/-- Value of a run of decimal digits, `none` when a character is not a digit. -/
def digitsToNat : List Char → Nat → Option Nat
  | [], acc => some acc
  | c :: cs, acc =>
      if c.isDigit then digitsToNat cs (acc * 10 + (c.toNat - 48)) else none

/-- The number a canonical decimal numeral denotes: no leading zero, digits only. -/
def canonicalNat? (k : String) : Option Nat :=
  match k.data with
  | [] => none
  | [c] => digitsToNat [c] 0
  | c :: cs => if c = '0' then none else digitsToNat (c :: cs) 0

/-- The array index a property key denotes: a canonical decimal numeral below `2^32 - 1`. -/
def arrayIndex? (k : String) : Option Nat :=
  match canonicalNat? k with
  | some n => if n < 4294967295 then some n else none
  | none => none

/-- A key that is neither `length` nor an array index: on arrays and strings such a key
names an ordinary property. -/
def namedKey (k : String) : Bool := k != "length" && (arrayIndex? k).isNone

/-- Value stored under `k` in a property list, `undefined` when there is none. -/
def lookup (k : String) (ps : List (String × Json)) : Json :=
  (List.lookup k ps).getD undefined

/-- Property read `v.k` (own properties; the keys this program reads are none of the
inherited ones).  Reading a property of `undefined` or `null` throws. -/
def getProp : Json → String → Option Json
  | undefined, _ => none
  | null, _ => none
  | bool _, _ => some undefined
  | num _, _ => some undefined
  | str s, k =>
      if k = "length" then some (num (utf16Length s.data))
      else match arrayIndex? k with
        | some i => some (match unitAt s.data i with
            | some c => str (String.singleton c)
            | none => undefined)
        | none => some undefined
  | arr items ps, k =>
      if k = "length" then some (num items.length)
      else match arrayIndex? k with
        | some i => some (items.getD i undefined)
        | none => some (lookup k ps)
  | obj ps, k => some (lookup k ps)

/-- Store `v` under `k`: an existing entry keeps its place, a new one goes last. -/
def setAssoc (k : String) (v : Json) : List (String × Json) → List (String × Json)
  | [] => [(k, v)]
  | p :: ps => if p.1 = k then (k, v) :: ps else p :: setAssoc k v ps

/-- Property write `o.k = v` for a named key `k` (the program assigns `otherinfo`,
`counters`, `counterGroups` and the entity keys only).  A write to a primitive is dropped
without effect. -/
def setProp : Json → String → Json → Json
  | arr items ps, k, v => arr items (setAssoc k v ps)
  | obj ps, k, v => obj (setAssoc k v ps)
  | j, _, _ => j

/-- Drop every entry stored under `k`. -/
def eraseAssoc (k : String) (ps : List (String × Json)) : List (String × Json) :=
  ps.filter (fun p => p.1 != k)

/-- The statement `delete o.k` for a named key `k`. -/
def deleteProp : Json → String → Json
  | arr items ps, k => arr items (eraseAssoc k ps)
  | obj ps, k => obj (eraseAssoc k ps)
  | j, _ => j

/-- Whether `k` is an own property of `v`. -/
def hasOwnProp : Json → String → Bool
  | arr items ps, k =>
      k == "length" || (match arrayIndex? k with
        | some i => decide (i < items.length)
        | none => hasKey k ps)
  | obj ps, k => hasKey k ps
  | str s, k =>
      k == "length" || (match arrayIndex? k with
        | some i => decide (i < utf16Length s.data)
        | none => false)
  | _, _ => false

/-- The elements an `Array.prototype` method `m` iterates when it is invoked as `v.m(...)`:
the call throws unless `v` is an array that does not shadow `m` with an own property. -/
def elems? (v : Json) (m : String) : Option (List Json) :=
  match v with
  | arr items ps => if hasKey m ps then none else some items
  | _ => none

/-- Arrays and plain objects: the values that hold properties. -/
def isObject : Json → Bool
  | arr _ _ => true
  | obj _ => true
  | _ => false

/-- The values on which a property read throws. -/
def nullish : Json → Bool
  | undefined => true
  | null => true
  | _ => false

/-- The named own properties of a value, in insertion order. -/
def namedProps : Json → List (String × Json)
  | arr _ ps => ps
  | obj ps => ps
  | _ => []

end Json

open Json

/-- The object `normalizeCounterGroupsHelper` returns. -/
structure CounterGroupData where
  counterGroups : List Json
  counters : List Json
  counterGroupsIDs : List Json

/-- The inner `counterGroup.counters.map(function(counter) ...)` of
`normalizeCounterGroupsHelper`: every counter record is pushed on `counters`, the callback
returns its id.  The result is the mapped id array and `counters` after the pushes. -/
def mapCounters (cgId : String) : List Json → List Json → Option (List Json × List Json)
  | [], counters => some ([], counters)
  | counter :: rest, counters => do
      let name ← getProp counter "counterName"
      let nameStr ← name.toStr
      let displayName ← getProp counter "counterDisplayName"
      let value ← getProp counter "counterValue"
      let c := obj [("id", str (cgId ++ "/" ++ nameStr)), ("name", name),
        ("displayName", displayName), ("value", value), ("parentID", str cgId)]
      let (ids, counters) ← mapCounters cgId rest (counters ++ [c])
      pure (str (cgId ++ "/" ++ nameStr) :: ids, counters)

/-- The outer `counterGroups.map(function(counterGroup) ...)` of
`normalizeCounterGroupsHelper`, threading the two arrays the callback pushes on.  The result
is the mapped id array, then `counterGroups` and `counters` after the pushes. -/
def mapCounterGroups (parentType parentID : Json) :
    List Json → List Json → List Json → Option (List Json × List Json × List Json)
  | [], counterGroups, counters => some ([], counterGroups, counters)
  | counterGroup :: rest, counterGroups, counters => do
      let parentStr ← parentID.toStr
      let name ← getProp counterGroup "counterGroupName"
      let nameStr ← name.toStr
      let displayName ← getProp counterGroup "counterGroupDisplayName"
      let cgId := parentStr ++ "/" ++ nameStr
      let rawCounters ← getProp counterGroup "counters"
      let items ← rawCounters.elems? "map"
      let (counterIds, counters) ← mapCounters cgId items counters
      let cg := obj [("id", str cgId), ("name", name), ("displayName", displayName),
        ("parentID", obj [("type", parentType), ("id", parentID)]),
        ("counters", arr counterIds [])]
      let (ids, counterGroups, counters) ←
        mapCounterGroups parentType parentID rest (counterGroups ++ [cg]) counters
      pure (str cgId :: ids, counterGroups, counters)

/-- The method `TimelineSerializer.normalizeCounterGroupsHelper(parentType, parentID, entity)`.
Returns the object it builds together with `entity` as the call leaves it. -/
def normalizeCounterGroupsHelper (parentType parentID entity : Json) :
    Option (CounterGroupData × Json) := do
  -- entity.otherinfo.counters = entity.otherinfo.counters || {}
  let otherinfo ← getProp entity "otherinfo"
  let counters ← getProp otherinfo "counters"
  let entity := setProp entity "otherinfo" (setProp otherinfo "counters" (counters.orElse (obj [])))
  -- entity.otherinfo.counters.counterGroups = entity.otherinfo.counters.counterGroups || []
  let otherinfo ← getProp entity "otherinfo"
  let counters ← getProp otherinfo "counters"
  let groups ← getProp counters "counterGroups"
  let entity := setProp entity "otherinfo" (setProp otherinfo "counters"
    (setProp counters "counterGroups" (groups.orElse (arr [] []))))
  -- entity.otherinfo.counters.counterGroups.map(...)
  let otherinfo ← getProp entity "otherinfo"
  let counters ← getProp otherinfo "counters"
  let groups ← getProp counters "counterGroups"
  let items ← groups.elems? "map"
  let (ids, counterGroups, counters) ← mapCounterGroups parentType parentID items [] []
  pure (⟨counterGroups, counters, ids⟩, entity)

/-- The four entity kinds whose serializers hoist counters. -/
inductive EntityKind where
  | dag
  | taskAttempt
  | task
  | vertex
  deriving DecidableEq, Repr

/-- The model's type key: the singular root key of a payload, also the parent type handed
to `normalizeCounterGroupsHelper`. -/
def EntityKind.typeKey : EntityKind → String
  | .dag => "dag"
  | .taskAttempt => "taskAttempt"
  | .task => "task"
  | .vertex => "vertex"

/-- The plural root key that `normalizePayload` tests. -/
def EntityKind.pluralKey : EntityKind → String
  | .dag => "dags"
  | .taskAttempt => "taskAttempts"
  | .task => "tasks"
  | .vertex => "vertices"

/-- The object a single-entity normalizer returns: `record` is the field named after the
kind (`dag`, `taskAttempt`, `task`, `vertex`), which is the raw entity itself, mutated. -/
structure NormalizedEntity where
  record : Json
  counterGroups : List Json
  counters : List Json

/-- The methods `_normalizeSingleDagPayload`, `_normalizeSingleTaskAttemptPayload`,
`_normalizeSingleTaskPayload` and `_normalizeSingleVertexPayload`, which differ in the
parent type and in the name of the record field only. -/
def normalizeSingleEntityPayload (kind : EntityKind) (entity : Json) :
    Option NormalizedEntity := do
  let parentID ← getProp entity "entity"
  let (data, entity) ← normalizeCounterGroupsHelper (str kind.typeKey) parentID entity
  -- dag.counterGroups = normalizedCounterGroupData.counterGroupsIDs
  let entity := setProp entity "counterGroups" (arr data.counterGroupsIDs [])
  -- delete dag.otherinfo.counters: the base `dag.otherinfo` is read, and as for a
  -- property read the reference throws when that base is undefined or null
  let otherinfo ← getProp entity "otherinfo"
  let _ ← getProp otherinfo "counters"
  let entity := setProp entity "otherinfo" (deleteProp otherinfo "counters")
  pure ⟨entity, data.counterGroups, data.counters⟩

/-- The object `normalizePayload` builds on its collection branch: `records` is the array
under the plural key. -/
structure NormalizedCollection where
  records : List Json
  counterGroups : List Json
  counters : List Json

/-- The body of `rawPayload.dags.forEach(function(dag) ...)`, run over the array in order
on the `normalizedPayload` built so far. -/
def forEachEntity (kind : EntityKind) : List Json → NormalizedCollection →
    Option NormalizedCollection
  | [], acc => some acc
  | entity :: rest, acc => do
      let n ← normalizeSingleEntityPayload kind entity
      forEachEntity kind rest
        ⟨acc.records ++ [n.record], acc.counterGroups ++ n.counterGroups,
          acc.counters ++ n.counters⟩

/-- What `normalizePayload` returns: the collection object or the single-entity object. -/
inductive NormalizedPayload where
  | collection (c : NormalizedCollection)
  | single (n : NormalizedEntity)

/-- The method `normalizePayload(rawPayload)` of the Dag, TaskAttempt, Task and Vertex
serializers.  Returns the normalized payload together with `rawPayload` as the call
leaves it. -/
def normalizePayload (kind : EntityKind) (rawPayload : Json) :
    Option (NormalizedPayload × Json) := do
  let plural ← getProp rawPayload kind.pluralKey
  if plural.truthy then
    let items ← plural.elems? "forEach"
    let normalizedPayload ← forEachEntity kind items ⟨[], [], []⟩
    -- delete rawPayload.dags
    pure (.collection normalizedPayload, deleteProp rawPayload kind.pluralKey)
  else
    let entity ← getProp rawPayload kind.typeKey
    let n ← normalizeSingleEntityPayload kind entity
    pure (.single n, setProp rawPayload kind.typeKey n.record)

/-- The method `DagSerializer._normalizeSingleDagPayload`. -/
def DagSerializer._normalizeSingleDagPayload : Json → Option NormalizedEntity :=
  Tez.normalizeSingleEntityPayload EntityKind.dag

/-- The method `DagSerializer.normalizePayload`. -/
def DagSerializer.normalizePayload : Json → Option (NormalizedPayload × Json) :=
  Tez.normalizePayload EntityKind.dag

/-- The method `TaskAttemptSerializer._normalizeSingleTaskAttemptPayload`. -/
def TaskAttemptSerializer._normalizeSingleTaskAttemptPayload :
    Json → Option NormalizedEntity :=
  Tez.normalizeSingleEntityPayload EntityKind.taskAttempt

/-- The method `TaskAttemptSerializer.normalizePayload`. -/
def TaskAttemptSerializer.normalizePayload : Json → Option (NormalizedPayload × Json) :=
  Tez.normalizePayload EntityKind.taskAttempt

/-- The method `TaskSerializer._normalizeSingleTaskPayload`. -/
def TaskSerializer._normalizeSingleTaskPayload : Json → Option NormalizedEntity :=
  Tez.normalizeSingleEntityPayload EntityKind.task

/-- The method `TaskSerializer.normalizePayload`. -/
def TaskSerializer.normalizePayload : Json → Option (NormalizedPayload × Json) :=
  Tez.normalizePayload EntityKind.task

/-- The method `VertexSerializer._normalizeSingleVertexPayload`. -/
def VertexSerializer._normalizeSingleVertexPayload : Json → Option NormalizedEntity :=
  Tez.normalizeSingleEntityPayload EntityKind.vertex

/-- The method `VertexSerializer.normalizePayload`. -/
def VertexSerializer.normalizePayload : Json → Option (NormalizedPayload × Json) :=
  Tez.normalizePayload EntityKind.vertex

/-! ## The older generation of the UI (`tez-ui/app`)

Its `TimelineRestAdapter.js` repeats the Dag, TaskAttempt and Task serializers and the
single-entity normalizers of the newer generation word for word; its
`VertexSerializer.normalizePayload` differs in the key it deletes. -/

/-- The method `VertexSerializer.normalizePayload` of the older generation: after the loop
it runs `delete rawPayload.vertex`. -/
def Older.VertexSerializer.normalizePayload (rawPayload : Json) :
    Option (NormalizedPayload × Json) := do
  let plural ← getProp rawPayload "vertices"
  if plural.truthy then
    let items ← plural.elems? "forEach"
    let normalizedPayload ← forEachEntity EntityKind.vertex items ⟨[], [], []⟩
    -- the loop has mutated the vertices inside `rawPayload.vertices` in place
    let rawPayload := setProp rawPayload "vertices"
      (arr (normalizedPayload.records) plural.namedProps)
    -- delete rawPayload.vertex
    pure (.collection normalizedPayload, deleteProp rawPayload "vertex")
  else
    let entity ← getProp rawPayload "vertex"
    let n ← normalizeSingleEntityPayload EntityKind.vertex entity
    pure (.single n, setProp rawPayload "vertex" n.record)

/-! ## `TezAppSerializer` -/

/-- Keep the first occurrence of every key. -/
def dedupKeys : List String → List String
  | [] => []
  | k :: ks => k :: (dedupKeys ks).filter (fun k2 => k2 != k)

/-- The order in which the own keys of a plain object are enumerated: the keys that are
array indices first, in ascending numeric order, then the other keys in insertion order. -/
def orderedKeys (ps : List (String × Json)) : List String :=
  let ks := dedupKeys (ps.map Prod.fst)
  (ks.filter (fun k => (arrayIndex? k).isSome)).insertionSort
      (fun a b => (arrayIndex? a).getD 0 ≤ (arrayIndex? b).getD 0)
    ++ ks.filter (fun k => (arrayIndex? k).isNone)

/-- The own keys `for (var key in v)` visits: nothing for `undefined`, `null`, numbers and
booleans, the indices for a string, the indices and then the named properties for an
array, the own keys for a plain object.  On a plain object, whose prototype holds nothing
enumerable, these are all the keys of the loop.  On an array or a string the loop goes on
through the enumerable properties a library has added to the prototype, whose values are
functions; those are not among the values here, and every statement about the records of
the loop is for a plain object. -/
def forInKeys : Json → List String
  | str s => (List.range (utf16Length s.data)).map toString
  | arr items ps => (List.range items.length).map toString ++ orderedKeys ps
  | obj ps => orderedKeys ps
  | _ => []

/-- The read `v[key]` inside a `for (key in v)` loop, where `v` holds `key`. -/
def elemOf (v : Json) (key : String) : Json :=
  (getProp v key).getD undefined

/-- The call `s.substr(4)` on a value: only a string has the method; it drops four code
units. -/
def substr4 : Json → Option String
  | str s => some (String.mk (dropUnits 4 s.data))
  | _ => none

/-- The object `TezAppSerializer._normalizeSinglePayload` returns: `tezApp` is the raw
application itself, mutated. -/
structure NormalizedApp where
  tezApp : Json
  kVData : List Json

/-- The `for (var key in configs)` loop of `_normalizeSinglePayload` over the keys still to
visit, threading `rawPayload.configs` and `kVData`, the two arrays it pushes on. -/
def forInConfigs (configs : Json) (appId : String) :
    List String → List Json → List Json → List Json × List Json
  | [], ids, kVData => (ids, kVData)
  | key :: rest, ids, kVData =>
      forInConfigs configs appId rest (ids ++ [str (appId ++ key)])
        (kVData ++ [obj [("id", str (appId ++ key)), ("key", str key),
          ("value", elemOf configs key)]])

/-- The method `TezAppSerializer._normalizeSinglePayload(rawPayload)`. -/
def TezAppSerializer._normalizeSinglePayload (rawPayload : Json) : Option NormalizedApp := do
  -- var configs = rawPayload.otherinfo.config
  let otherinfo ← getProp rawPayload "otherinfo"
  let configs ← getProp otherinfo "config"
  -- appId = rawPayload.entity.substr(4)
  let entity ← getProp rawPayload "entity"
  let appId ← substr4 entity
  -- rawPayload.appId = appId; rawPayload.configs = []
  let rawPayload := setProp rawPayload "appId" (str appId)
  let rawPayload := setProp rawPayload "configs" (arr [] [])
  let (ids, kVData) := forInConfigs configs appId (forInKeys configs) [] []
  pure ⟨setProp rawPayload "configs" (arr ids []), kVData⟩

/-- The `this` of a callback that `forEach` invokes without a `thisArg`: `undefined` in
strict code.  (In sloppy code it is the global object, which has no
`_normalizeSinglePayload`, so that the call below throws there as well.) -/
def callbackThis : Json := undefined

/-- The call `f(arg)` of a value read from data: no such value is a function, the call
throws. -/
def callValue (_f : Json) (_arg : Json) : Option NormalizedApp := none

/-- The object `TezAppSerializer.normalizePayload` builds on its collection branch. -/
structure NormalizedApps where
  tezApps : List Json
  kVData : List Json

/-- The body of `rawPayload.tezApps.forEach(function(app) ...)` of `TezAppSerializer`, which
is passed no `thisArg`: `this._normalizeSinglePayload` is read off `callbackThis`. -/
def TezAppSerializer.forEachApp : List Json → NormalizedApps → Option NormalizedApps
  | [], acc => some acc
  | app :: rest, acc => do
      let method ← getProp callbackThis "_normalizeSinglePayload"
      let n ← callValue method app
      TezAppSerializer.forEachApp rest ⟨acc.tezApps ++ [n.tezApp], acc.kVData ++ n.kVData⟩

/-- What `TezAppSerializer.normalizePayload` returns. -/
inductive NormalizedAppPayload where
  | collection (c : NormalizedApps)
  | single (n : NormalizedApp)

/-- The method `TezAppSerializer.normalizePayload(rawPayload)`, with `rawPayload` as the
call leaves it: the collection branch deletes nothing. -/
def TezAppSerializer.normalizePayload (rawPayload : Json) :
    Option (NormalizedAppPayload × Json) := do
  let plural ← getProp rawPayload "tezApps"
  if plural.truthy then
    let items ← plural.elems? "forEach"
    let normalizedPayload ← TezAppSerializer.forEachApp items ⟨[], []⟩
    pure (.collection normalizedPayload, rawPayload)
  else
    let app ← getProp rawPayload "tezApp"
    let n ← TezAppSerializer._normalizeSinglePayload app
    pure (.single n, setProp rawPayload "tezApp" n.tezApp)

/-- A raw application with two configuration entries. -/
def sampleApp : Json :=
  obj [("entity", str "tez_application_1"), ("entitytype", str "TEZ_APPLICATION"),
    ("otherinfo", obj [("config", obj [("tez.queue", str "default"),
      ("tez.am.memory", num 1024)])])]

/-! ## The two regular expressions of the TaskAttempt field map

A regular expression is a sequence of atoms; matching follows the backtracking semantics
of the language definition, in which every atom is a matcher that takes the state and a
continuation and returns the first success in priority order. -/

/-- The line terminators, which `.` does not match. -/
def isLineTerminator (c : Char) : Bool :=
  c == '\n' || c == '\r' || c == Char.ofNat 0x2028 || c == Char.ofNat 0x2029

/-- The two character classes in use: `.` and `[^\/]`. -/
inductive CharClass where
  | dot
  | notSlash

/-- Whether a character belongs to a class. -/
def CharClass.test : CharClass → Char → Bool
  | .dot, c => !isLineTerminator c
  | .notSlash, c => c != '/'

/-- The atoms in use: a literal, a starred character class (greedy `*` or lazy `*?`), and
the two parentheses of capture group 1. -/
inductive Atom where
  | lit (cs : List Char)
  | star (cls : CharClass) (greedy : Bool)
  | openGroup
  | closeGroup

/-- The state of a match: the input not yet consumed, the input as it was when group 1
opened, and what group 1 has captured. -/
structure MatchState where
  rest : List Char
  groupStart : List Char
  group : Option (List Char)

/-- Strip the literal `cs` off the front of the input. -/
def stripLit : List Char → List Char → Option (List Char)
  | [], input => some input
  | _ :: _, [] => none
  | c :: cs, d :: input => if c = d then stripLit cs input else none

/-- Greedy `cls*` followed by the continuation `k`: consume while possible, then fall back
one character at a time. -/
def starGreedy (cls : CharClass) (k : List Char → Option MatchState) :
    List Char → Option MatchState
  | [] => k []
  | c :: cs =>
      if cls.test c then
        match starGreedy cls k cs with
        | some r => some r
        | none => k (c :: cs)
      else k (c :: cs)

/-- Lazy `cls*?` followed by the continuation `k`: try the continuation first, consume one
more character only when it fails. -/
def starLazy (cls : CharClass) (k : List Char → Option MatchState) :
    List Char → Option MatchState
  | [] => k []
  | c :: cs =>
      match k (c :: cs) with
      | some r => some r
      | none => if cls.test c then starLazy cls k cs else none

/-- The matcher of one atom. -/
def matchAtom (a : Atom) (k : MatchState → Option MatchState) (st : MatchState) :
    Option MatchState :=
  match a with
  | .lit cs =>
      match stripLit cs st.rest with
      | some rest => k { st with rest := rest }
      | none => none
  | .star cls true => starGreedy cls (fun rest => k { st with rest := rest }) st.rest
  | .star cls false => starLazy cls (fun rest => k { st with rest := rest }) st.rest
  | .openGroup => k { st with groupStart := st.rest }
  | .closeGroup =>
      k { st with group := some (st.groupStart.take (st.groupStart.length - st.rest.length)) }

/-- The matcher of a sequence of atoms. -/
def matchAtoms : List Atom → (MatchState → Option MatchState) → MatchState →
    Option MatchState
  | [], k => k
  | a :: as, k => matchAtom a (matchAtoms as k)

/-- The search of `exec` for a non-global pattern: the match is tried at every start
position from the left, the first success wins; `none` is the result `null`. -/
def execFrom (atoms : List Atom) : List Char → Option MatchState
  | [] => matchAtoms atoms some ⟨[], [], none⟩
  | c :: cs =>
      match matchAtoms atoms some ⟨c :: cs, [], none⟩ with
      | some r => some r
      | none => execFrom atoms cs

/-- The pattern `/.*(container_.*?)\/.*/`. -/
def containerIdRegex : List Atom :=
  [.star .dot true, .openGroup, .lit "container_".data, .star .dot false, .closeGroup,
    .lit ['/'], .star .dot true]

/-- The pattern `/([^\/]*)\//`. -/
def nodeIdRegex : List Atom :=
  [.openGroup, .star .notSlash true, .closeGroup, .lit ['/']]

/-- Modelled from the spec: `Em.get(source, path)` is the path getter of the Ember library,
which is not among the sources.  Section 4.1 has path resolution traverse nested objects
in order and resolve a missing intermediate key to undefined rather than failing. -/
def emGet : Json → List String → Json
  | v, [] => v
  | v, k :: ks =>
      match getProp v k with
      | some w => emGet w ks
      | none => undefined

/-- The expression `regex.exec(v)` followed by `match[1]`: the argument is converted to a
string, and reading `[1]` off the result `null` throws. -/
def execGroup1 (regex : List Atom) (v : Json) : Option Json := do
  let input ← v.toStr
  let st ← execFrom regex input.data
  pure (match st.group with
    | some cs => str (String.mk cs)
    | none => undefined)

/-- The `custom` function of `containerId` in `timelineJsonToTaskAttemptMap`. -/
def containerIdCustom (source : Json) : Option Json :=
  execGroup1 containerIdRegex (emGet source ["otherinfo", "inProgressLogsURL"])

/-- The `custom` function of `nodeId` in `timelineJsonToTaskAttemptMap`. -/
def nodeIdCustom (source : Json) : Option Json :=
  execGroup1 nodeIdRegex (emGet source ["otherinfo", "inProgressLogsURL"])

/-- A raw task attempt with the log URL of the specification's example. -/
def sampleAttempt : Json :=
  obj [("entity", str "attempt_1"),
    ("otherinfo", obj [("inProgressLogsURL", str "node123/container_456_01/logs")])]

/-- A raw task attempt without a log URL. -/
def sampleAttemptNoUrl : Json :=
  obj [("entity", str "attempt_2"), ("otherinfo", obj [("status", str "RUNNING")])]

/-- A raw task attempt that has no `otherinfo`. -/
def sampleAttemptBroken : Json :=
  obj [("entity", str "attempt_3")]

/-- The Config record `_normalizeSinglePayload` builds for one key of `configs`. -/
def configRecord (configs : Json) (appId key : String) : Json :=
  obj [("id", str (appId ++ key)), ("key", str key), ("value", elemOf configs key)]

/-- A raw application whose id lacks the `tez_` prefix. -/
def sampleAppNoPrefix : Json :=
  obj [("entity", str "application_1"), ("otherinfo", obj [("config", obj [])])]

/-- Two raw applications, `tez_1` with the key `23` and `tez_12` with the key `3`. -/
def sampleAppCollision1 : Json :=
  obj [("entity", str "tez_1"), ("otherinfo", obj [("config", obj [("23", str "x")])])]

/-- The second of the two applications. -/
def sampleAppCollision2 : Json :=
  obj [("entity", str "tez_12"), ("otherinfo", obj [("config", obj [("3", str "y")])])]

/-- The part `)\/.*` of `containerIdRegex`, after the lazy star. -/
def containerTail : List Atom := [.closeGroup, .lit ['/'], .star .dot true]

/-- The part `.*?)\/.*` of `containerIdRegex`, after the literal. -/
def containerLazy : List Atom := .star .dot false :: containerTail

/-- The part `(container_.*?)\/.*` of `containerIdRegex`, after the leading star. -/
def containerGroup : List Atom := .openGroup :: .lit "container_".data :: containerLazy

/-- The part `)\/` of `nodeIdRegex`, after the star. -/
def nodeTail : List Atom := [.closeGroup, .lit ['/']]

/-! ## The field mapper and the field maps -/

/-- Split a dotted path at its dots, given the segment read so far. -/
def splitDots : List Char → List Char → List String
  | [], seg => [String.mk seg]
  | c :: cs, seg => if c = '.' then String.mk seg :: splitDots cs [] else splitDots cs (seg ++ [c])

/-- The segments of a dotted path such as `primaryfilters.dagName.0`. -/
def splitPath (path : String) : List String := splitDots path.data []

/-- The source of one output field in a field map: a dotted path or a `custom` function. -/
inductive FieldSource where
  | path (p : String)
  | custom (f : Json → Option Json)

/-- Modelled from the spec: `Em.JsonMapper.map(hash, map)`, the Field Mapper of section 4.1,
is not among the sources.  For every entry of the map, in order, a path is resolved against
the hash, and a path that does not exist produces no value for the field; a custom function
is applied to the hash and its failure is the failure of the mapping.  Nothing but the
fields named in the map reaches the output. -/
def jsonMapperFields (hash : Json) : List (String × FieldSource) → Option (List (String × Json))
  | [] => some []
  | (name, .path p) :: rest =>
      match jsonMapperFields hash rest with
      | none => none
      | some fields =>
          match emGet hash (splitPath p) with
          | undefined => some fields
          | v => some ((name, v) :: fields)
  | (name, .custom f) :: rest =>
      match f hash, jsonMapperFields hash rest with
      | some v, some fields => some ((name, v) :: fields)
      | _, _ => none

/-- Modelled from the spec: the record `Em.JsonMapper.map(hash, map)` returns, see
`jsonMapperFields`. -/
def jsonMapperMap (hash : Json) (map : List (String × FieldSource)) : Option Json :=
  (jsonMapperFields hash map).map obj

/-- The table `timelineJsonToDagMap`. -/
def timelineJsonToDagMap : List (String × FieldSource) :=
  [("id", .path "entity"), ("submittedTime", .path "starttime"),
    ("startTime", .path "otherinfo.startTime"), ("endTime", .path "otherinfo.endTime"),
    ("name", .path "primaryfilters.dagName.0"), ("user", .path "primaryfilters.user.0"),
    ("applicationId", .path "otherinfo.applicationId"), ("status", .path "otherinfo.status"),
    ("diagnostics", .path "otherinfo.diagnostics"), ("counterGroups", .path "counterGroups")]

/-- The table `timelineJsonToTaskMap`; the literal names `vertexID` and `dagID` twice, with
the same path, which leaves one entry each at the place of the first. -/
def timelineJsonToTaskMap : List (String × FieldSource) :=
  [("id", .path "entity"), ("dagID", .path "primaryfilters.TEZ_DAG_ID.0"),
    ("startTime", .path "otherinfo.startTime"),
    ("vertexID", .path "primaryfilters.TEZ_VERTEX_ID.0"),
    ("endTime", .path "otherinfo.endTime"), ("status", .path "otherinfo.status"),
    ("diagnostics", .path "otherinfo.diagnostics"), ("counterGroups", .path "counterGroups"),
    ("numAttempts", .path "relatedentities")]

/-- The method `DagSerializer.normalize(type, hash, prop)`. -/
def DagSerializer.normalize (hash : Json) : Option Json :=
  jsonMapperMap hash timelineJsonToDagMap

/-- The method `TaskSerializer.normalize(type, hash, prop)`. -/
def TaskSerializer.normalize (hash : Json) : Option Json :=
  jsonMapperMap hash timelineJsonToTaskMap

/-- A raw task that relates to two task attempts. -/
def sampleTask : Json :=
  obj [("entity", str "task_1"),
    ("relatedentities", obj [("TEZ_TASK_ATTEMPT_ID",
      arr [str "attempt_1", str "attempt_2"] [])]),
    ("primaryfilters", obj [("TEZ_DAG_ID", arr [str "dag_1"] []),
      ("TEZ_VERTEX_ID", arr [str "vertex_1"] [])]),
    ("otherinfo", obj [("status", str "SUCCEEDED")])]

/-! ## `extractArray` -/

/-- Whether `s` ends with `suffix`. -/
def endsWith (s suffix : List Char) : Bool := suffix.isSuffixOf s

/-- Modelled from the spec: `pluralize` is the inflector of the Ember library, which is not
among the sources; the spec has the collection key be the pluralized kind.  Of the
inflector's rules the model keeps those that bear on the type keys: a word in `vertex`,
`matrix` or `index` turns its last two letters into `ices`, a word in `x`, `ch`, `ss` or `sh`
takes `es`, a word in `s` stays, any other word takes `s`. -/
def pluralize (word : String) : String :=
  let w := word.data
  if endsWith w "vertex".data || endsWith w "vertix".data || endsWith w "matrix".data
      || endsWith w "matrex".data || endsWith w "index".data || endsWith w "indix".data then
    String.mk (w.take (w.length - 2) ++ "ices".data)
  else if endsWith w "x".data || endsWith w "ch".data || endsWith w "ss".data
      || endsWith w "sh".data then
    String.mk (w ++ "es".data)
  else if endsWith w "s".data then word
  else String.mk (w ++ "s".data)

/-- The payload `TimelineSerializer.extractArray(store, primaryType, rawPayload)` builds and
hands to the inherited `extractArray`, for `primaryType.typeKey = typeKey`. -/
def extractArray (typeKey : String) (rawPayload : Json) : Option Json := do
  -- var payload = {}; payload[primaryType.typeKey.pluralize()] = rawPayload.entities
  let entities ← getProp rawPayload "entities"
  pure (setProp (obj []) (pluralize typeKey) entities)

/-! ## The records one raw counter and one raw counter group give rise to -/

/-- The `id` field of an emitted record. -/
def recordId (r : Json) : Json := lookup "id" r.namedProps

/-- The object `c` the inner callback builds from one raw counter of the group `cgId`. -/
def counterRecord (cgId : String) (counter : Json) : Option Json :=
  match getProp counter "counterName" with
  | none => none
  | some name =>
    match name.toStr with
    | none => none
    | some nameStr =>
      some (obj [("id", str (cgId ++ "/" ++ nameStr)), ("name", name),
        ("displayName", lookup "counterDisplayName" counter.namedProps),
        ("value", lookup "counterValue" counter.namedProps), ("parentID", str cgId)])

/-- The counter records of a list of raw counters, in order; `none` when one of them makes
the callback throw. -/
def counterRecords (cgId : String) : List Json → Option (List Json)
  | [] => some []
  | c :: cs =>
    match counterRecord cgId c, counterRecords cgId cs with
    | some r, some rs => some (r :: rs)
    | _, _ => none

/-- The object `cg` the outer callback builds from one raw counter group, paired with the
counter records of that group. -/
def groupRecord (parentType parentID : Json) (counterGroup : Json) :
    Option (Json × List Json) :=
  match parentID.toStr, getProp counterGroup "counterGroupName" with
  | some parentStr, some name =>
    match name.toStr, (lookup "counters" counterGroup.namedProps).elems? "map" with
    | some nameStr, some items =>
      match counterRecords (parentStr ++ "/" ++ nameStr) items with
      | some recs =>
        some (obj [("id", str (parentStr ++ "/" ++ nameStr)), ("name", name),
          ("displayName", lookup "counterGroupDisplayName" counterGroup.namedProps),
          ("parentID", obj [("type", parentType), ("id", parentID)]),
          ("counters", arr (recs.map recordId) [])], recs)
      | none => none
    | _, _ => none
  | _, _ => none

/-- The group records of a list of raw counter groups, in order. -/
def groupRecords (parentType parentID : Json) : List Json → Option (List (Json × List Json))
  | [] => some []
  | g :: gs =>
    match groupRecord parentType parentID g, groupRecords parentType parentID gs with
    | some r, some rs => some (r :: rs)
    | _, _ => none

/-- The value of `entity.otherinfo.counters` once the helper has defaulted it. -/
def countersOrDefault (entity : Json) : Json :=
  (lookup "counters" (lookup "otherinfo" entity.namedProps).namedProps).orElse (obj [])

/-- The value of `entity.otherinfo.counters.counterGroups` once the helper has defaulted it. -/
def groupsOrDefault (entity : Json) : Json :=
  (lookup "counterGroups" (countersOrDefault entity).namedProps).orElse (arr [] [])

/-- The entity as the two defaulting assignments of the helper leave it. -/
def withDefaults (entity : Json) : Json :=
  setProp entity "otherinfo"
    (setProp (lookup "otherinfo" entity.namedProps) "counters"
      (setProp (countersOrDefault entity) "counterGroups" (groupsOrDefault entity)))

/-- The shape on which the helper gets as far as its `map` call: the entity, its
`otherinfo` and the defaulted `counters` all hold properties. -/
def helperShape (entity : Json) : Bool :=
  entity.isObject && (lookup "otherinfo" entity.namedProps).isObject &&
    (countersOrDefault entity).isObject

/-- The base record a single-entity normalizer returns for `entity` when the helper
returned the id list `ids`: `counterGroups` holds the ids, `otherinfo` has lost `counters`. -/
def recordOf (entity : Json) (ids : List Json) : Json :=
  setProp
    (setProp entity "otherinfo" (deleteProp (lookup "otherinfo" entity.namedProps) "counters"))
    "counterGroups" (arr ids [])

/-! ## Well-formed raw input -/

/-- Whether a value can be printed by `+`. -/
def Json.printable (v : Json) : Bool := v.toStr.isSome

/-- A raw counter: a value other than `undefined` and `null` whose `counterName`
can be printed. -/
def isRawCounter (c : Json) : Bool :=
  !c.nullish && (lookup "counterName" c.namedProps).printable

/-- The counters of a raw counter group: the elements of its `counters` array. -/
def rawCountersOf (g : Json) : List Json :=
  ((lookup "counters" g.namedProps).elems? "map").getD []

/-- A raw counter group: a value other than `undefined` and `null` whose
`counterGroupName` can be printed and whose `counters` is an array of raw counters. -/
def isRawGroup (g : Json) : Bool :=
  !g.nullish && (lookup "counterGroupName" g.namedProps).printable &&
    ((lookup "counters" g.namedProps).elems? "map").isSome &&
    (rawCountersOf g).all isRawCounter

/-- The counter groups a raw entity holds: the elements of
`otherinfo.counters.counterGroups`, none when `counters` or `counterGroups` is not set. -/
def rawGroupsOf (entity : Json) : List Json :=
  ((groupsOrDefault entity).elems? "map").getD []

/-- A well-formed raw entity: an object with a printable `entity` id and an object
`otherinfo`, whose `counters`, when set, is an object whose `counterGroups`, when set, is an
array of raw counter groups. -/
def isRawEntity (entity : Json) : Bool :=
  helperShape entity && (lookup "entity" entity.namedProps).printable &&
    ((groupsOrDefault entity).elems? "map").isSome &&
    (rawGroupsOf entity).all isRawGroup

/-- The single-entity results of a list of raw entities, in order; `none` when one of them
makes its normalizer throw. -/
def normalizeAll (kind : EntityKind) : List Json → Option (List NormalizedEntity)
  | [] => some []
  | e :: es =>
    match normalizeSingleEntityPayload kind e, normalizeAll kind es with
    | some n, some ns => some (n :: ns)
    | _, _ => none

/-! ## Sample input -/

/-- A raw dag with one counter group `g1` holding one counter `c1`. -/
def sampleDag : Json :=
  obj [("entity", str "dag_1"), ("starttime", num 100),
    ("primaryfilters", obj [("dagName", arr [str "wordcount"] []),
      ("user", arr [str "alice"] [])]),
    ("otherinfo", obj [("startTime", num 100), ("endTime", num 200),
      ("status", str "SUCCEEDED"),
      ("counters", obj [("counterGroups", arr [
        obj [("counterGroupName", str "g1"), ("counterGroupDisplayName", str "G1"),
          ("counters", arr [obj [("counterName", str "c1"),
            ("counterDisplayName", str "C1"), ("counterValue", num 5)]] [])]] [])])])]

/-- The counter groups of `sampleDag`. -/
def sampleGroups : List Json :=
  [obj [("counterGroupName", str "g1"), ("counterGroupDisplayName", str "G1"),
    ("counters", arr [obj [("counterName", str "c1"),
      ("counterDisplayName", str "C1"), ("counterValue", num 5)]] [])]]

/-- A raw vertex that has an `otherinfo` object without `counters`. -/
def sampleVertex : Json :=
  obj [("entity", str "vertex_1"),
    ("otherinfo", obj [("vertexName", str "Map 1"), ("numTasks", num 3)])]

/-! ## The helpers of `misc.js` and the store they read from -/

/-- The comparison `v === s` against a string. -/
def strictEqStr (v : Json) (s : String) : Bool :=
  match v with
  | str t => t == s
  | _ => false

/-- The call `o.get(key)` on a model object or a collection; other values have no `get`
method and the call throws. -/
def emberGet (o : Json) (key : String) : Option Json :=
  if o.isObject then getProp o key else none

/-- The call `coll.findBy(key, value)` of the Ember library on a collection: the first
element whose property `key` is strictly equal to `value`, `undefined` when there is none. -/
def findBy (coll : Json) (key value : String) : Option Json :=
  match coll.elems? "findBy" with
  | none => none
  | some items =>
      some ((items.find? (fun item => strictEqStr (elemOf item key) value)).getD undefined)

/-- The function `getCounterValueForDag(counterGroups, dagID, counterGroupName, counterName)`
of `misc.js`. -/
def getCounterValueForDag (counterGroups dagID counterGroupName counterName : Json) :
    Option Json := do
  if !counterGroups.truthy then
    pure (num 0)
  else
    -- var cgName = dagID + '/' + counterGroupName
    let dagStr ← dagID.toStr
    let groupStr ← counterGroupName.toStr
    let cgName := dagStr ++ "/" ++ groupStr
    let cg ← findBy counterGroups "id" cgName
    if !cg.truthy then
      pure (num 0)
    else
      let counters ← emberGet cg "counters"
      if !counters.truthy then
        pure (num 0)
      else
        let counterStr ← counterName.toStr
        let counter ← findBy counters "id" (cgName ++ "/" ++ counterStr)
        if !counter.truthy then
          pure (num 0)
        else
          emberGet counter "value"

/-- The characters `StringToNumber` strips from both ends: white space and line
terminators. -/
def isStrWhiteSpace (c : Char) : Bool :=
  [9, 10, 11, 12, 13, 32, 160, 5760, 8232, 8233, 8239, 8287, 12288, 65279].contains c.toNat ||
    (decide (8192 ≤ c.toNat) && decide (c.toNat ≤ 8202))

/-- The text with the white space at both ends removed. -/
def trimStr (cs : List Char) : List Char :=
  ((cs.dropWhile isStrWhiteSpace).reverse.dropWhile isStrWhiteSpace).reverse

/-- Value of a digit in a radix up to 16, `none` for any other character. -/
def digitValue (radix : Nat) (c : Char) : Option Nat :=
  let d :=
    if 48 ≤ c.toNat ∧ c.toNat ≤ 57 then c.toNat - 48
    else if 97 ≤ c.toNat ∧ c.toNat ≤ 102 then c.toNat - 87
    else if 65 ≤ c.toNat ∧ c.toNat ≤ 70 then c.toNat - 55
    else 16
  if d < radix then some d else none

/-- Whether a literal body in the given radix, the prefix removed, denotes a number above
zero: it is a non-empty run of digits, one of them not `0`. -/
def radixPositive (radix : Nat) (cs : List Char) : Bool :=
  !cs.isEmpty && cs.all (fun c => (digitValue radix c).isSome) &&
    cs.any (fun c => (digitValue radix c).getD 0 != 0)

/-- Value of a run of decimal digits. -/
def decimalValue (cs : List Char) : Nat :=
  cs.foldl (fun acc c => acc * 10 + (c.toNat - 48)) 0

/-- The exponent part of a decimal literal: empty, or `e` or `E`, an optional sign and at
least one digit; `none` when the text is anything else. -/
def exponentPart : List Char → Option Int
  | [] => some 0
  | c :: cs =>
      if c = 'e' ∨ c = 'E' then
        match cs with
        | '+' :: ds => if !ds.isEmpty && ds.all Char.isDigit then some (decimalValue ds) else none
        | '-' :: ds =>
            if !ds.isEmpty && ds.all Char.isDigit then some (-(decimalValue ds : Int)) else none
        | ds => if !ds.isEmpty && ds.all Char.isDigit then some (decimalValue ds) else none
      else none

/-- Whether the unsigned decimal literal `cs` denotes a number that, rounded to a double,
is above zero; false also when `cs` is no literal.  The value `m * 10 ^ x` rounds to zero
exactly when it is at most `2 ^ (-1075)`, half the least double above zero. -/
def decimalPositive (cs : List Char) : Bool :=
  if cs = "Infinity".data then true
  else
    let intDigits := cs.takeWhile Char.isDigit
    let rest := cs.dropWhile Char.isDigit
    let fracDigits := match rest with
      | '.' :: ds => ds.takeWhile Char.isDigit
      | _ => []
    let rest2 := match rest with
      | '.' :: ds => ds.dropWhile Char.isDigit
      | _ => rest
    if intDigits.isEmpty && fracDigits.isEmpty then false
    else
      match exponentPart rest2 with
      | none => false
      | some e =>
          let m := decimalValue (intDigits ++ fracDigits)
          let x : Int := e - fracDigits.length
          decide (m ≠ 0) &&
            (decide (0 ≤ x) || decide (10 ^ x.natAbs < m * 2 ^ 1075))

/-- Whether `StringToNumber` of the text is a number above zero. -/
def strGtZero (s : String) : Bool :=
  match trimStr s.data with
  | '0' :: 'x' :: cs => radixPositive 16 cs
  | '0' :: 'X' :: cs => radixPositive 16 cs
  | '0' :: 'o' :: cs => radixPositive 8 cs
  | '0' :: 'O' :: cs => radixPositive 8 cs
  | '0' :: 'b' :: cs => radixPositive 2 cs
  | '0' :: 'B' :: cs => radixPositive 2 cs
  | '+' :: cs => decimalPositive cs
  | '-' :: _ => false
  | cs => decimalPositive cs

/-- The comparison `v > 0`: `ToNumber` of the operand is above zero.  `undefined` is not
a number, `null` is zero, a string goes through `StringToNumber`, an array or an object
through its string; `none` is the `TypeError` of an object that has no primitive value. -/
def gtZero (v : Json) : Option Bool :=
  match v with
  | num n => some (decide (0 < n))
  | Json.bool b => some b
  | undefined => some false
  | null => some false
  | str s => some (strGtZero s)
  | v => v.toStr.map strGtZero

/-- The function `getStatusClassForEntity(dag)` of `misc.js`. -/
def getStatusClassForEntity (dag : Json) : Option String := do
  let st ← emberGet dag "status"
  if strictEqStr st "FAILED" then pure "failed"
  else if strictEqStr st "KILLED" then pure "killed"
  else if strictEqStr st "RUNNING" then pure "running"
  else if strictEqStr st "ERROR" then pure "error"
  else if strictEqStr st "SUCCEEDED" then
    let counterGroups ← emberGet dag "counterGroups"
    let id ← emberGet dag "id"
    let numFailedTasks ← getCounterValueForDag counterGroups id
      (str "org.apache.tez.common.counters.DAGCounter") (str "NUM_FAILED_TASKS")
    let positive ← gtZero numFailedTasks
    if positive then pure "warning" else pure "success"
  else pure "submitted"

/-- Modelled from the spec: the object-graph store, which is not among the sources, receives
the normalized records and answers identity-keyed lookups.  It holds one record per id; of
several records pushed with one id the last one is what the id resolves to. -/
def storeFind (records : List Json) (id : String) : Option Json :=
  records.reverse.find? (fun r => strictEqStr (recordId r) id)

/-- Modelled from the spec: a to-many reference, which a record holds as an array of ids,
resolved through the store into the collection of the records the ids stand for. -/
def hasMany (records : List Json) (ids : Json) : Json :=
  arr (((ids.elems? "map").getD []).filterMap (fun id =>
    match id with
    | str s => storeFind records s
    | _ => none)) []

/-- Modelled from the spec: a counter-group record as the store hands it out, its `counters`
resolved among the counter records `counters`. -/
def loadCounterGroup (counters : List Json) (cg : Json) : Json :=
  setProp cg "counters" (hasMany counters (elemOf cg "counters"))

/-- Modelled from the spec: what `dag.get('counterGroups')` answers once the store holds the
result `n` of a single-entity normalizer. -/
def loadedCounterGroups (n : NormalizedEntity) : Json :=
  hasMany (n.counterGroups.map (loadCounterGroup n.counters)) (elemOf n.record "counterGroups")

/-- Modelled from the spec: a counter-group record as the store hands it out when the ids
of its `counters` resolve to the counter records of its own group. -/
def loadedGroup (p : Json × List Json) : Json :=
  setProp p.1 "counters" (arr p.2 [])

/-- The printed `counterGroupName` of a raw counter group. -/
def groupNameStr (g : Json) : Option String :=
  (lookup "counterGroupName" g.namedProps).toStr

/-- The printed `counterName` of a raw counter. -/
def counterNameStr (c : Json) : Option String :=
  (lookup "counterName" c.namedProps).toStr

/-- The counter groups of `sampleDagTwo`: two groups of two counters each, the counter
names of the first group being those of the second. -/
def sampleGroupsTwo : List Json :=
  [obj [("counterGroupName", str "g1"), ("counterGroupDisplayName", str "G1"),
      ("counters", arr [
        obj [("counterName", str "c1"), ("counterDisplayName", str "C1"),
          ("counterValue", num 5)],
        obj [("counterName", str "c2"), ("counterDisplayName", str "C2"),
          ("counterValue", num 7)]] [])],
    obj [("counterGroupName", str "g2"), ("counterGroupDisplayName", str "G2"),
      ("counters", arr [
        obj [("counterName", str "c1"), ("counterDisplayName", str "C1"),
          ("counterValue", num 9)],
        obj [("counterName", str "c2"), ("counterDisplayName", str "C2"),
          ("counterValue", num 11)]] [])]]

/-- A raw dag with the two counter groups `sampleGroupsTwo`. -/
def sampleDagTwo : Json :=
  obj [("entity", str "dag_3"),
    ("otherinfo", obj [("status", str "SUCCEEDED"),
      ("counters", obj [("counterGroups", arr sampleGroupsTwo [])])])]

/-- A succeeded dag model whose counter `NUM_FAILED_TASKS` of the group
`org.apache.tez.common.counters.DAGCounter` holds `value`, next to another group and
another counter. -/
def sampleDagModelCounters (value : Json) : Json :=
  obj [("id", str "dag_1"), ("status", str "SUCCEEDED"),
    ("counterGroups", arr [
      obj [("id", str "dag_1/org.apache.tez.common.counters.TaskCounter"),
        ("counters", arr [
          obj [("id", str "dag_1/org.apache.tez.common.counters.TaskCounter/NUM_FAILED_TASKS"),
            ("value", num 8)]] [])],
      obj [("id", str "dag_1/org.apache.tez.common.counters.DAGCounter"),
        ("counters", arr [
          obj [("id", str "dag_1/org.apache.tez.common.counters.DAGCounter/TOTAL_LAUNCHED_TASKS"),
            ("value", num 4)],
          obj [("id", str "dag_1/org.apache.tez.common.counters.DAGCounter/NUM_FAILED_TASKS"),
            ("value", value)]] [])]] [])]

/-- A raw dag whose groups `a` and `a/b` hold the counters `b/c` and `c`. -/
def sampleDagSlash : Json :=
  obj [("entity", str "dag_2"),
    ("otherinfo", obj [("counters", obj [("counterGroups", arr [
      obj [("counterGroupName", str "a"),
        ("counters", arr [obj [("counterName", str "b/c"), ("counterValue", num 1)]] [])],
      obj [("counterGroupName", str "a/b"),
        ("counters", arr [obj [("counterName", str "c"), ("counterValue", num 2)]] [])]]
      [])])])]

/-- A dag model without counter groups, with the given status. -/
def sampleDagModel (status : Json) : Json :=
  obj [("id", str "dag_1"), ("status", status)]

/-- The id `normalizeCounterGroupsHelper` gives the group `g` under the printed parent id. -/
def groupIdOf (parentStr : String) (g : Json) : String :=
  parentStr ++ "/" ++ (groupNameStr g).getD ""

/-- The id `normalizeCounterGroupsHelper` gives the counter `c` of the group `groupId`. -/
def counterIdOf (groupId : String) (c : Json) : String :=
  groupId ++ "/" ++ (counterNameStr c).getD ""

/-! ## Property reads and writes -/

section PropertyLemmas

theorem namedKey_otherinfo : namedKey "otherinfo" = true := by decide
theorem namedKey_counters : namedKey "counters" = true := by decide
theorem namedKey_counterGroups : namedKey "counterGroups" = true := by decide
theorem namedKey_entity : namedKey "entity" = true := by decide

theorem namedKey_typeKey (kind : EntityKind) : namedKey kind.typeKey = true := by
  cases kind <;> decide

theorem namedKey_pluralKey (kind : EntityKind) : namedKey kind.pluralKey = true := by
  cases kind <;> decide

theorem getProp_named {k : String} (hk : namedKey k = true) (j : Json) :
    getProp j k = if j.nullish then none else some (lookup k j.namedProps) := by
  have h1 : k ≠ "length" := by
    intro h; subst h; revert hk; decide
  have h2 : arrayIndex? k = none := by
    simp only [namedKey, Bool.and_eq_true, Option.isNone_iff_eq_none] at hk
    exact hk.2
  cases j <;> simp [getProp, nullish, namedProps, h1, h2, lookup]

theorem lookup_setAssoc_self (k : String) (v : Json) (ps : List (String × Json)) :
    lookup k (setAssoc k v ps) = v := by
  induction ps with
  | nil => simp [setAssoc, lookup, List.lookup]
  | cons p ps ih =>
    obtain ⟨a, b⟩ := p
    by_cases h : a = k
    · simp [setAssoc, h, lookup, List.lookup]
    · have h2 : (k == a) = false := by simpa using fun e => h e.symm
      simp only [lookup] at ih
      simp [setAssoc, h, lookup, List.lookup, h2, ih]

theorem lookup_setAssoc_ne {k k2 : String} (h : k2 ≠ k) (v : Json)
    (ps : List (String × Json)) : lookup k2 (setAssoc k v ps) = lookup k2 ps := by
  induction ps with
  | nil =>
    have h2 : (k2 == k) = false := by simpa using h
    simp [setAssoc, lookup, List.lookup, h2]
  | cons p ps ih =>
    obtain ⟨a, b⟩ := p
    simp only [lookup] at ih
    by_cases h3 : a = k
    · subst h3
      have h2 : (k2 == a) = false := by simpa using h
      simp [setAssoc, lookup, List.lookup, h2]
    · by_cases h4 : k2 = a
      · subst h4
        simp [setAssoc, h3, lookup, List.lookup]
      · have h5 : (k2 == a) = false := by simpa using h4
        simp [setAssoc, h3, lookup, List.lookup, h5, ih]

theorem setAssoc_setAssoc (k : String) (v w : Json) (ps : List (String × Json)) :
    setAssoc k w (setAssoc k v ps) = setAssoc k w ps := by
  induction ps with
  | nil => simp [setAssoc]
  | cons p ps ih =>
    by_cases h : p.1 = k
    · simp [setAssoc, h]
    · simp [setAssoc, h, ih]

theorem lookup_eraseAssoc_self (k : String) (ps : List (String × Json)) :
    lookup k (eraseAssoc k ps) = undefined := by
  induction ps with
  | nil => simp [eraseAssoc, lookup, List.lookup]
  | cons p ps ih =>
    obtain ⟨a, b⟩ := p
    simp only [lookup, eraseAssoc] at ih
    by_cases h : a = k
    · simp [eraseAssoc, lookup, h, List.filter_cons, ih]
    · have h2 : (k == a) = false := by simpa using fun e => h e.symm
      have h3 : (a != k) = true := by simpa using h
      simp [eraseAssoc, lookup, List.filter_cons, h3, List.lookup, h2, ih]

theorem lookup_eraseAssoc_ne {k k2 : String} (h : k2 ≠ k) (ps : List (String × Json)) :
    lookup k2 (eraseAssoc k ps) = lookup k2 ps := by
  induction ps with
  | nil => simp [eraseAssoc, lookup, List.lookup]
  | cons p ps ih =>
    obtain ⟨a, b⟩ := p
    simp only [lookup, eraseAssoc] at ih
    by_cases h3 : a = k
    · subst h3
      have h2 : (k2 == a) = false := by simpa using h
      simp [eraseAssoc, lookup, List.filter_cons, List.lookup, h2, ih]
    · have h6 : (a != k) = true := by simpa using h3
      by_cases h4 : k2 = a
      · subst h4
        simp [eraseAssoc, lookup, List.filter_cons, List.lookup, h6]
      · have h5 : (k2 == a) = false := by simpa using h4
        simp [eraseAssoc, lookup, List.filter_cons, List.lookup, h6, h5, ih]

theorem hasKey_eraseAssoc_self (k : String) (ps : List (String × Json)) :
    hasKey k (eraseAssoc k ps) = false := by
  simp [hasKey, eraseAssoc]

theorem eraseAssoc_setAssoc_of_not_hasKey {k : String} {ps : List (String × Json)}
    (h : hasKey k ps = false) (v : Json) : eraseAssoc k (setAssoc k v ps) = ps := by
  induction ps with
  | nil => simp [setAssoc, eraseAssoc]
  | cons p ps ih =>
    simp only [hasKey, List.any_cons, Bool.or_eq_false_iff] at h
    have h1 : p.1 ≠ k := by simpa using h.1
    have h2 := ih (by simpa [hasKey] using h.2)
    simp only [eraseAssoc] at h2
    have h3 : (p.1 != k) = true := by simpa using h1
    simp [setAssoc, eraseAssoc, h1, List.filter_cons, h3, h2]

theorem nullish_setProp (j : Json) (k : String) (v : Json) :
    (setProp j k v).nullish = j.nullish := by
  cases j <;> rfl

theorem isObject_setProp (j : Json) (k : String) (v : Json) :
    (setProp j k v).isObject = j.isObject := by
  cases j <;> rfl

theorem isObject_deleteProp (j : Json) (k : String) :
    (deleteProp j k).isObject = j.isObject := by
  cases j <;> rfl

theorem nullish_of_isObject {j : Json} (h : j.isObject = true) : j.nullish = false := by
  cases j <;> simp_all [isObject, nullish]

theorem truthy_of_isObject {j : Json} (h : j.isObject = true) : j.truthy = true := by
  cases j <;> simp_all [isObject, truthy]

theorem namedProps_setProp {j : Json} (h : j.isObject = true) (k : String) (v : Json) :
    (setProp j k v).namedProps = setAssoc k v j.namedProps := by
  cases j <;> simp_all [isObject, setProp, namedProps]

theorem namedProps_deleteProp (j : Json) (k : String) :
    (deleteProp j k).namedProps = eraseAssoc k j.namedProps := by
  cases j <;> simp [deleteProp, namedProps, eraseAssoc]

theorem setProp_of_not_isObject {j : Json} (h : j.isObject = false) (k : String) (v : Json) :
    setProp j k v = j := by
  cases j <;> simp_all [isObject, setProp]

theorem namedProps_of_not_isObject {j : Json} (h : j.isObject = false) :
    j.namedProps = [] := by
  cases j <;> simp_all [isObject, namedProps]

theorem setProp_setProp (j : Json) (k : String) (v w : Json) :
    setProp (setProp j k v) k w = setProp j k w := by
  cases j <;> simp [setProp, setAssoc_setAssoc]

theorem getProp_setProp_ne {k k2 : String} (h : k2 ≠ k) (j : Json) (v : Json) :
    getProp (setProp j k v) k2 = getProp j k2 := by
  cases j <;> simp [setProp, getProp, lookup_setAssoc_ne h]

theorem getProp_deleteProp_ne {k k2 : String} (h : k2 ≠ k) (j : Json) :
    getProp (deleteProp j k) k2 = getProp j k2 := by
  cases j <;> simp [deleteProp, getProp, lookup_eraseAssoc_ne h]

theorem getProp_setProp_self {k : String} (hk : namedKey k = true) {j : Json}
    (h : j.isObject = true) (v : Json) : getProp (setProp j k v) k = some v := by
  rw [getProp_named hk, nullish_setProp, nullish_of_isObject h, namedProps_setProp h,
    lookup_setAssoc_self]
  simp

theorem isObject_of_lookup_ne_undefined {j : Json} (k : String)
    (h : lookup k j.namedProps ≠ undefined) : j.isObject = true := by
  cases j <;> simp_all [namedProps, lookup, isObject]

theorem eraseAssoc_setAssoc (k : String) (v : Json) (ps : List (String × Json)) :
    eraseAssoc k (setAssoc k v ps) = eraseAssoc k ps := by
  induction ps with
  | nil => simp [setAssoc, eraseAssoc]
  | cons p ps ih =>
    simp only [eraseAssoc] at ih
    by_cases h : p.1 = k
    · simp [setAssoc, eraseAssoc, h, List.filter_cons]
    · have h3 : (p.1 != k) = true := by simpa using h
      simp [setAssoc, eraseAssoc, h, List.filter_cons, h3, ih]

theorem setAssoc_swap {a b : String} (hab : a ≠ b) (x y z : Json)
    (ps : List (String × Json)) :
    setAssoc a x (setAssoc b y (setAssoc a z ps)) = setAssoc b y (setAssoc a x ps) := by
  induction ps with
  | nil => simp [setAssoc, hab]
  | cons p ps ih =>
    obtain ⟨k, v⟩ := p
    by_cases h1 : k = a
    · subst h1
      simp [setAssoc, hab]
    · by_cases h2 : k = b
      · subst h2
        simp [setAssoc, h1, setAssoc_setAssoc]
      · simp [setAssoc, h1, h2, ih]

theorem deleteProp_setProp (j : Json) (k : String) (v : Json) :
    deleteProp (setProp j k v) k = deleteProp j k := by
  cases j <;> simp [setProp, deleteProp, eraseAssoc_setAssoc]

theorem setProp_swap {a b : String} (hab : a ≠ b) (j x y z : Json) :
    setProp (setProp (setProp j a z) b y) a x = setProp (setProp j a x) b y := by
  cases j <;> simp [setProp, setAssoc_swap hab]

theorem lookup_nil (k : String) : lookup k [] = undefined := rfl

theorem nullish_undefined : undefined.nullish = true := rfl

theorem elems?_undefined (m : String) : undefined.elems? m = none := rfl

theorem elems?_isObject {v : Json} {m : String} {items : List Json}
    (h : v.elems? m = some items) : v.isObject = true := by
  cases v <;> simp_all [elems?, isObject]

end PropertyLemmas

/-! ## The two `map` loops of `normalizeCounterGroupsHelper` -/

section Loops

theorem namedKey_counterName : namedKey "counterName" = true := by decide
theorem namedKey_counterDisplayName : namedKey "counterDisplayName" = true := by decide
theorem namedKey_counterValue : namedKey "counterValue" = true := by decide
theorem namedKey_counterGroupName : namedKey "counterGroupName" = true := by decide
theorem namedKey_counterGroupDisplayName : namedKey "counterGroupDisplayName" = true := by
  decide

theorem mapCounters_eq (cgId : String) (items acc : List Json) :
    mapCounters cgId items acc =
      (counterRecords cgId items).map (fun recs => (recs.map recordId, acc ++ recs)) := by
  induction items generalizing acc with
  | nil => simp [mapCounters, counterRecords]
  | cons c cs ih =>
    simp only [mapCounters, counterRecords, counterRecord]
    rw [getProp_named namedKey_counterName, getProp_named namedKey_counterDisplayName,
      getProp_named namedKey_counterValue]
    by_cases hn : c.nullish = true
    · simp [hn]
    · simp only [hn, Bool.false_eq_true, if_false, Option.bind_eq_bind, Option.some_bind]
      cases hs : (lookup "counterName" c.namedProps).toStr with
      | none => simp
      | some nameStr =>
        simp only [Option.some_bind, ih]
        cases hr : counterRecords cgId cs with
        | none => simp
        | some rs => simp [recordId, namedProps, lookup, List.lookup]

theorem mapCounterGroups_eq (parentType parentID : Json) (items accG accC : List Json) :
    mapCounterGroups parentType parentID items accG accC =
      (groupRecords parentType parentID items).map (fun per =>
        (per.map (fun p => recordId p.1), accG ++ per.map Prod.fst,
          accC ++ (per.map Prod.snd).flatten)) := by
  induction items generalizing accG accC with
  | nil => simp [mapCounterGroups, groupRecords]
  | cons g gs ih =>
    simp only [mapCounterGroups, groupRecords, groupRecord]
    rw [getProp_named namedKey_counterGroupName,
      getProp_named namedKey_counterGroupDisplayName, getProp_named namedKey_counters]
    cases hp : parentID.toStr with
    | none => simp
    | some parentStr =>
      by_cases hn : g.nullish = true
      · simp [hn]
      · simp only [hn, Bool.false_eq_true, if_false, Option.bind_eq_bind, Option.some_bind]
        cases hs : (lookup "counterGroupName" g.namedProps).toStr with
        | none => simp
        | some nameStr =>
          cases he : (lookup "counters" g.namedProps).elems? "map" with
          | none => simp
          | some cs =>
            simp only [Option.some_bind, mapCounters_eq]
            cases hr : counterRecords (parentStr ++ "/" ++ nameStr) cs with
            | none => simp
            | some recs =>
              simp only [Option.map_some', Option.some_bind, ih]
              cases hg : groupRecords parentType parentID gs with
              | none => simp
              | some rs => simp [recordId, namedProps, lookup, List.lookup]

end Loops

/-! ## `normalizeCounterGroupsHelper` in closed form -/

section Helper

theorem normalizeCounterGroupsHelper_eq (parentType parentID entity : Json) :
    normalizeCounterGroupsHelper parentType parentID entity =
      if helperShape entity then
        match (groupsOrDefault entity).elems? "map" with
        | none => none
        | some items =>
          (groupRecords parentType parentID items).map (fun per =>
            (⟨per.map Prod.fst, (per.map Prod.snd).flatten, per.map (fun p => recordId p.1)⟩,
              withDefaults entity))
      else none := by
  simp only [normalizeCounterGroupsHelper, getProp_named namedKey_otherinfo,
    getProp_named namedKey_counters, getProp_named namedKey_counterGroups,
    helperShape, countersOrDefault, groupsOrDefault, withDefaults, nullish_setProp]
  by_cases he : entity.isObject = true
  · have hen := nullish_of_isObject he
    by_cases ho : (lookup "otherinfo" entity.namedProps).isObject = true
    · have hon := nullish_of_isObject ho
      by_cases hc : ((lookup "counters"
          (lookup "otherinfo" entity.namedProps).namedProps).orElse (obj [])).isObject = true
      · have hcn := nullish_of_isObject hc
        simp only [he, ho, hc, hen, hon, hcn, Option.bind_eq_bind, Option.some_bind,
          Bool.false_eq_true, if_false, namedProps_setProp, lookup_setAssoc_self,
          nullish_setProp, setProp_setProp, isObject_setProp, Bool.and_self, if_true]
        cases hel : ((lookup "counterGroups" ((lookup "counters"
            (lookup "otherinfo" entity.namedProps).namedProps).orElse
              (obj [])).namedProps).orElse (arr [] [])).elems? "map" with
        | none => simp
        | some items =>
          simp only [Option.some_bind, mapCounterGroups_eq]
          cases groupRecords parentType parentID items with
          | none => simp
          | some per => simp
      · have hcf : ((lookup "counters"
            (lookup "otherinfo" entity.namedProps).namedProps).orElse (obj [])).isObject
              = false := by simpa using hc
        have hcn : ((lookup "counters"
            (lookup "otherinfo" entity.namedProps).namedProps).orElse (obj [])).nullish
              = false := by
          unfold orElse
          split
          · rename_i ht
            revert ht
            cases lookup "counters" (lookup "otherinfo" entity.namedProps).namedProps <;>
              simp [truthy, nullish]
          · rfl
        simp only [he, ho, hcf, hen, hon, hcn, Option.bind_eq_bind, Option.some_bind,
          Bool.false_eq_true, if_false, namedProps_setProp, lookup_setAssoc_self,
          nullish_setProp, setProp_setProp, isObject_setProp,
          setProp_of_not_isObject hcf, namedProps_of_not_isObject hcf, lookup_nil,
          elems?_undefined, Option.none_bind, Bool.and_false]
    · have hof : (lookup "otherinfo" entity.namedProps).isObject = false := by simpa using ho
      by_cases hon : (lookup "otherinfo" entity.namedProps).nullish = true
      · simp [he, hof, hen, hon]
      · have hon2 : (lookup "otherinfo" entity.namedProps).nullish = false := by simpa using hon
        simp only [he, hof, hen, hon2, Option.bind_eq_bind, Option.some_bind,
          Bool.false_eq_true, if_false, namedProps_setProp, lookup_setAssoc_self,
          setProp_of_not_isObject hof, namedProps_of_not_isObject hof, lookup_nil,
          nullish_undefined, if_true, Option.none_bind, Bool.and_false, Bool.false_and]
  · have hef : entity.isObject = false := by simpa using he
    by_cases hen : entity.nullish = true
    · simp [hef, hen]
    · have hen2 : entity.nullish = false := by simpa using hen
      simp only [hef, hen2, Option.bind_eq_bind, Option.some_bind, Bool.false_eq_true,
        if_false, namedProps_of_not_isObject hef, lookup_nil, nullish_undefined, if_true,
        Option.none_bind, Bool.false_and]

end Helper

/-! ## The single-entity normalizers in closed form -/

section Single

theorem normalizeSingleEntityPayload_eq (kind : EntityKind) (entity : Json) :
    normalizeSingleEntityPayload kind entity =
      if helperShape entity then
        match (groupsOrDefault entity).elems? "map" with
        | none => none
        | some items =>
          (groupRecords (str kind.typeKey) (lookup "entity" entity.namedProps) items).map
            (fun per => ⟨recordOf entity (per.map (fun p => recordId p.1)),
              per.map Prod.fst, (per.map Prod.snd).flatten⟩)
      else none := by
  simp only [normalizeSingleEntityPayload, getProp_named namedKey_entity,
    getProp_named namedKey_otherinfo, getProp_named namedKey_counters,
    normalizeCounterGroupsHelper_eq]
  by_cases hs : helperShape entity = true
  · have hs2 := hs
    simp only [helperShape, Bool.and_eq_true] at hs2
    obtain ⟨⟨he, ho⟩, hc⟩ := hs2
    have hen := nullish_of_isObject he
    simp only [hs, hen, if_true, Bool.false_eq_true, if_false, Option.bind_eq_bind,
      Option.some_bind]
    cases hel : (groupsOrDefault entity).elems? "map" with
    | none => simp
    | some items =>
      dsimp only
      generalize groupRecords (str kind.typeKey) (lookup "entity" entity.namedProps) items
        = gr
      cases gr with
      | none => simp
      | some per =>
        have h1 : ("otherinfo" : String) ≠ "counterGroups" := by decide
        simp only [Option.map_some', Option.some_bind, withDefaults, nullish_setProp, hen,
          Bool.false_eq_true, if_false, namedProps_setProp, he, isObject_setProp,
          nullish_of_isObject, ho, lookup_setAssoc_self, lookup_setAssoc_ne h1,
          deleteProp_setProp, setProp_swap h1, recordOf]
        rfl
  · have hsf : helperShape entity = false := by simpa using hs
    by_cases hen : entity.nullish = true
    · simp [hsf, hen]
    · simp [hsf, hen]

end Single

/-! ## What the records hold -/

section Records

theorem counterRecord_some {cgId : String} {c r : Json} (h : counterRecord cgId c = some r) :
    ∃ nameStr, c.nullish = false ∧
      (lookup "counterName" c.namedProps).toStr = some nameStr ∧
      r = obj [("id", str (cgId ++ "/" ++ nameStr)),
        ("name", lookup "counterName" c.namedProps),
        ("displayName", lookup "counterDisplayName" c.namedProps),
        ("value", lookup "counterValue" c.namedProps), ("parentID", str cgId)] := by
  unfold counterRecord at h
  rw [getProp_named namedKey_counterName] at h
  by_cases hn : c.nullish = true
  · simp [hn] at h
  · simp only [hn, Bool.false_eq_true, if_false] at h
    cases hs : (lookup "counterName" c.namedProps).toStr with
    | none => simp [hs] at h
    | some nameStr =>
      simp only [hs, Option.some.injEq] at h
      exact ⟨nameStr, by simpa using hn, rfl, h.symm⟩

theorem counterRecords_forall₂ {cgId : String} {cs rs : List Json}
    (h : counterRecords cgId cs = some rs) :
    List.Forall₂ (fun c r => counterRecord cgId c = some r) cs rs := by
  induction cs generalizing rs with
  | nil =>
    simp only [counterRecords, Option.some.injEq] at h
    subst h
    exact List.Forall₂.nil
  | cons c cs ih =>
    simp only [counterRecords] at h
    cases h1 : counterRecord cgId c with
    | none => simp [h1] at h
    | some r =>
      cases h2 : counterRecords cgId cs with
      | none => simp [h1, h2] at h
      | some rs2 =>
        simp only [h1, h2, Option.some.injEq] at h
        subst h
        exact List.Forall₂.cons h1 (ih h2)

theorem counterRecords_of_all (cgId : String) {cs : List Json}
    (h : cs.all isRawCounter = true) : ∃ rs, counterRecords cgId cs = some rs := by
  induction cs with
  | nil => exact ⟨[], rfl⟩
  | cons c cs ih =>
    simp only [List.all_cons, Bool.and_eq_true] at h
    obtain ⟨rs, hrs⟩ := ih h.2
    have hc := h.1
    simp only [isRawCounter, Bool.and_eq_true, Bool.not_eq_true', printable,
      Option.isSome_iff_exists] at hc
    obtain ⟨hn, nameStr, hname⟩ := hc
    simp only [counterRecords, counterRecord, getProp_named namedKey_counterName, hn,
      Bool.false_eq_true, if_false, hname, hrs]
    exact ⟨_, rfl⟩

theorem groupRecord_some {parentType parentID g cg : Json} {recs : List Json}
    (h : groupRecord parentType parentID g = some (cg, recs)) :
    ∃ parentStr nameStr items, parentID.toStr = some parentStr ∧ g.nullish = false ∧
      (lookup "counterGroupName" g.namedProps).toStr = some nameStr ∧
      (lookup "counters" g.namedProps).elems? "map" = some items ∧
      counterRecords (parentStr ++ "/" ++ nameStr) items = some recs ∧
      cg = obj [("id", str (parentStr ++ "/" ++ nameStr)),
        ("name", lookup "counterGroupName" g.namedProps),
        ("displayName", lookup "counterGroupDisplayName" g.namedProps),
        ("parentID", obj [("type", parentType), ("id", parentID)]),
        ("counters", arr (recs.map recordId) [])] := by
  unfold groupRecord at h
  rw [getProp_named namedKey_counterGroupName] at h
  cases hp : parentID.toStr with
  | none => simp [hp] at h
  | some parentStr =>
    by_cases hn : g.nullish = true
    · simp [hp, hn] at h
    · simp only [hp, hn, Bool.false_eq_true, if_false] at h
      cases hs : (lookup "counterGroupName" g.namedProps).toStr with
      | none => simp [hs] at h
      | some nameStr =>
        cases he : (lookup "counters" g.namedProps).elems? "map" with
        | none => simp [hs, he] at h
        | some items =>
          cases hr : counterRecords (parentStr ++ "/" ++ nameStr) items with
          | none => simp [hs, he, hr] at h
          | some rs =>
            simp only [hs, he, hr, Option.some.injEq, Prod.mk.injEq] at h
            obtain ⟨h1, h2⟩ := h
            subst h2
            exact ⟨parentStr, nameStr, items, rfl, by simpa using hn, rfl, rfl, hr, h1.symm⟩

theorem groupRecords_forall₂ {parentType parentID : Json} {gs : List Json}
    {per : List (Json × List Json)} (h : groupRecords parentType parentID gs = some per) :
    List.Forall₂ (fun g r => groupRecord parentType parentID g = some r) gs per := by
  induction gs generalizing per with
  | nil =>
    simp only [groupRecords, Option.some.injEq] at h
    subst h
    exact List.Forall₂.nil
  | cons g gs ih =>
    simp only [groupRecords] at h
    cases h1 : groupRecord parentType parentID g with
    | none => simp [h1] at h
    | some r =>
      cases h2 : groupRecords parentType parentID gs with
      | none => simp [h1, h2] at h
      | some rs2 =>
        simp only [h1, h2, Option.some.injEq] at h
        subst h
        exact List.Forall₂.cons h1 (ih h2)

theorem groupRecords_of_all (parentType : Json) {parentID : Json} {gs : List Json}
    (hp : parentID.printable = true) (h : gs.all isRawGroup = true) :
    ∃ per, groupRecords parentType parentID gs = some per := by
  induction gs with
  | nil => exact ⟨[], rfl⟩
  | cons g gs ih =>
    simp only [List.all_cons, Bool.and_eq_true] at h
    obtain ⟨per, hper⟩ := ih h.2
    have hg := h.1
    simp only [isRawGroup, Bool.and_eq_true, Bool.not_eq_true', printable,
      Option.isSome_iff_exists] at hg
    obtain ⟨⟨⟨hn, nameStr, hname⟩, items, hitems⟩, hall⟩ := hg
    simp only [printable, Option.isSome_iff_exists] at hp
    obtain ⟨parentStr, hps⟩ := hp
    have hraw : rawCountersOf g = items := by simp [rawCountersOf, hitems]
    rw [hraw] at hall
    obtain ⟨rs, hrs⟩ := counterRecords_of_all (parentStr ++ "/" ++ nameStr) hall
    simp only [groupRecords, groupRecord, getProp_named namedKey_counterGroupName, hn,
      Bool.false_eq_true, if_false, hps, hname, hitems, hrs, hper]
    exact ⟨_, rfl⟩

end Records

/-! ## From the fields of the raw entity to the shape the helper needs -/

section Shape

theorem namedKey_id : namedKey "id" = true := by decide
theorem namedKey_name : namedKey "name" = true := by decide
theorem namedKey_displayName : namedKey "displayName" = true := by decide
theorem namedKey_value : namedKey "value" = true := by decide
theorem namedKey_parentID : namedKey "parentID" = true := by decide

theorem getProp_named_some {k : String} (hk : namedKey k = true) {j v : Json}
    (h : getProp j k = some v) : j.nullish = false ∧ lookup k j.namedProps = v := by
  rw [getProp_named hk] at h
  by_cases hn : j.nullish = true
  · simp [hn] at h
  · simp only [hn, Bool.false_eq_true, if_false, Option.some.injEq] at h
    exact ⟨by simpa using hn, h⟩

theorem isObject_of_getProp {k : String} (hk : namedKey k = true) {j v : Json}
    (h : getProp j k = some v) (hv : v.isObject = true) : j.isObject = true := by
  obtain ⟨_, h2⟩ := getProp_named_some hk h
  apply isObject_of_lookup_ne_undefined k
  rw [h2]
  intro hu
  rw [hu] at hv
  exact absurd hv (by decide)

theorem orElse_of_isObject {v : Json} (h : v.isObject = true) (w : Json) :
    v.orElse w = v := by
  simp [orElse, truthy_of_isObject h]

theorem shape_of_path {entity otherinfo counters : Json} {groups : List Json}
    (h1 : getProp entity "otherinfo" = some otherinfo)
    (h2 : getProp otherinfo "counters" = some counters)
    (h3 : getProp counters "counterGroups" = some (arr groups [])) :
    helperShape entity = true ∧ groupsOrDefault entity = arr groups [] := by
  have hc : counters.isObject = true := isObject_of_getProp namedKey_counterGroups h3 rfl
  have ho : otherinfo.isObject = true := isObject_of_getProp namedKey_counters h2 hc
  have he : entity.isObject = true := isObject_of_getProp namedKey_otherinfo h1 ho
  obtain ⟨_, e1⟩ := getProp_named_some namedKey_otherinfo h1
  obtain ⟨_, e2⟩ := getProp_named_some namedKey_counters h2
  obtain ⟨_, e3⟩ := getProp_named_some namedKey_counterGroups h3
  have hcd : countersOrDefault entity = counters := by
    simp only [countersOrDefault, e1, e2, orElse_of_isObject hc]
  constructor
  · simp only [helperShape, he, e1, ho, hcd, hc, Bool.and_self]
  · simp only [groupsOrDefault, hcd, e3]
    rfl

theorem getProp_id_of_groupRecord {parentType parentID g : Json} {r : Json × List Json}
    (h : groupRecord parentType parentID g = some r) :
    getProp r.1 "id" = some (recordId r.1) := by
  obtain ⟨cg, recs⟩ := r
  obtain ⟨parentStr, nameStr, items, -, -, -, -, -, hcg⟩ := groupRecord_some h
  subst hcg
  rfl

theorem length_of_groupRecord {parentType parentID g : Json} {r : Json × List Json}
    (h : groupRecord parentType parentID g = some r) :
    r.2.length = (rawCountersOf g).length := by
  obtain ⟨cg, recs⟩ := r
  obtain ⟨parentStr, nameStr, items, -, -, -, hitems, hrecs, -⟩ := groupRecord_some h
  have := (counterRecords_forall₂ hrecs).length_eq
  simp [rawCountersOf, hitems, this]

theorem counts_of_groupRecords {parentType parentID : Json} {gs : List Json}
    {per : List (Json × List Json)} (h : groupRecords parentType parentID gs = some per) :
    per.length = gs.length ∧
      (per.map Prod.snd).flatten.length = (gs.map (fun g => (rawCountersOf g).length)).sum ∧
      (per.map Prod.fst).map (fun cg => getProp cg "id") =
        (per.map (fun p => recordId p.1)).map some := by
  have hf := groupRecords_forall₂ h
  clear h
  induction hf with
  | nil => simp
  | cons hg _ ih =>
    obtain ⟨i1, i2, i3⟩ := ih
    refine ⟨by simp [i1], ?_, ?_⟩
    · simp only [List.map_cons, List.flatten_cons, List.length_append, List.sum_cons, i2,
        length_of_groupRecord hg]
    · simp only [List.map_cons]
      rw [getProp_id_of_groupRecord hg, i3]

end Shape

/-! ## Entities without counters -/

section Missing

theorem shape_of_missing {entity otherinfo : Json}
    (h1 : getProp entity "otherinfo" = some otherinfo)
    (ho : otherinfo.isObject = true)
    (hc : getProp otherinfo "counters" = some undefined ∨
      ∃ counters, getProp otherinfo "counters" = some counters ∧ counters.isObject = true ∧
        getProp counters "counterGroups" = some undefined) :
    helperShape entity = true ∧ groupsOrDefault entity = arr [] [] := by
  have he : entity.isObject = true := isObject_of_getProp namedKey_otherinfo h1 ho
  obtain ⟨_, e1⟩ := getProp_named_some namedKey_otherinfo h1
  rcases hc with hc | ⟨counters, hc, hco, hcg⟩
  · obtain ⟨_, e2⟩ := getProp_named_some namedKey_counters hc
    have hcd : countersOrDefault entity = obj [] := by
      simp only [countersOrDefault, e1, e2]
      rfl
    constructor
    · simp only [helperShape, he, e1, ho, hcd, Bool.and_self]
      rfl
    · simp only [groupsOrDefault, hcd]
      rfl
  · obtain ⟨_, e2⟩ := getProp_named_some namedKey_counters hc
    obtain ⟨_, e3⟩ := getProp_named_some namedKey_counterGroups hcg
    have hcd : countersOrDefault entity = counters := by
      simp only [countersOrDefault, e1, e2, orElse_of_isObject hco]
    constructor
    · simp only [helperShape, he, e1, ho, hcd, hco, Bool.and_self]
    · simp only [groupsOrDefault, hcd, e3]
      rfl

theorem isObject_of_helperShape {entity : Json} (h : helperShape entity = true) :
    entity.isObject = true ∧ (lookup "otherinfo" entity.namedProps).isObject = true := by
  simp only [helperShape, Bool.and_eq_true] at h
  exact ⟨h.1.1, h.1.2⟩

theorem getProp_of_isObject {k : String} (hk : namedKey k = true) {j : Json}
    (h : j.isObject = true) : getProp j k = some (lookup k j.namedProps) := by
  rw [getProp_named hk, nullish_of_isObject h]
  rfl

theorem hasOwnProp_deleteProp_self {k : String} (hk : namedKey k = true) (j : Json) :
    hasOwnProp (deleteProp j k) k = false := by
  have h1 : k ≠ "length" := by
    intro h; subst h; revert hk; decide
  have h2 : arrayIndex? k = none := by
    simp only [namedKey, Bool.and_eq_true, Option.isNone_iff_eq_none] at hk
    exact hk.2
  cases j <;> simp [deleteProp, hasOwnProp, h1, h2, hasKey_eraseAssoc_self]

theorem isObject_recordOf {entity : Json} (h : entity.isObject = true) (ids : List Json) :
    (recordOf entity ids).isObject = true := by
  simp only [recordOf, isObject_setProp, h]

theorem getProp_recordOf_counterGroups {entity : Json} (h : entity.isObject = true)
    (ids : List Json) : getProp (recordOf entity ids) "counterGroups" = some (arr ids []) := by
  simp only [recordOf]
  rw [getProp_setProp_self namedKey_counterGroups]
  rw [isObject_setProp]
  exact h

theorem getProp_recordOf_otherinfo {entity : Json} (h : entity.isObject = true)
    (ids : List Json) :
    getProp (recordOf entity ids) "otherinfo" =
      some (deleteProp (lookup "otherinfo" entity.namedProps) "counters") := by
  simp only [recordOf]
  rw [getProp_setProp_ne (by decide), getProp_setProp_self namedKey_otherinfo h]

theorem getProp_recordOf_other {k : String} (h1 : k ≠ "counterGroups") (h2 : k ≠ "otherinfo")
    (entity : Json) (ids : List Json) :
    getProp (recordOf entity ids) k = getProp entity k := by
  simp only [recordOf]
  rw [getProp_setProp_ne h1, getProp_setProp_ne h2]

theorem recordOf_recordOf (entity : Json) (ids ids2 : List Json)
    (h : entity.isObject = true) :
    recordOf (recordOf entity ids) ids2 = setProp (recordOf entity ids) "counterGroups"
      (arr ids2 []) := by
  have h0 := getProp_recordOf_otherinfo h ids
  rw [getProp_of_isObject namedKey_otherinfo (isObject_recordOf h ids)] at h0
  have h1 : lookup "otherinfo" (recordOf entity ids).namedProps =
      deleteProp (lookup "otherinfo" entity.namedProps) "counters" := by
    simpa using h0
  have h2 : deleteProp (deleteProp (lookup "otherinfo" entity.namedProps) "counters")
      "counters" = deleteProp (lookup "otherinfo" entity.namedProps) "counters" := by
    cases lookup "otherinfo" entity.namedProps <;> simp [deleteProp, eraseAssoc]
  have e0 : recordOf (recordOf entity ids) ids2 =
      setProp (setProp (recordOf entity ids) "otherinfo"
        (deleteProp (lookup "otherinfo" (recordOf entity ids).namedProps) "counters"))
        "counterGroups" (arr ids2 []) := rfl
  rw [e0, h1, h2]
  congr 1
  unfold recordOf
  exact setProp_swap (by decide) _ _ _ _

end Missing

/-! ## Inverting a successful run -/

section Inversion

theorem forall₂_exists_of_mem_right {α β : Type} {R : α → β → Prop} {xs : List α}
    {ys : List β} (h : List.Forall₂ R xs ys) {y : β} (hy : y ∈ ys) : ∃ x ∈ xs, R x y := by
  induction h with
  | nil => simp at hy
  | cons hr _ ih =>
    rcases List.mem_cons.mp hy with e | e
    · subst e
      exact ⟨_, List.mem_cons_self _ _, hr⟩
    · obtain ⟨x, hx, hxy⟩ := ih e
      exact ⟨x, List.mem_cons_of_mem _ hx, hxy⟩

theorem normalizeCounterGroupsHelper_some {parentType parentID entity entity' : Json}
    {data : CounterGroupData}
    (h : normalizeCounterGroupsHelper parentType parentID entity = some (data, entity')) :
    ∃ per, helperShape entity = true ∧
      (groupsOrDefault entity).elems? "map" = some (rawGroupsOf entity) ∧
      groupRecords parentType parentID (rawGroupsOf entity) = some per ∧
      data.counterGroups = per.map Prod.fst ∧
      data.counters = (per.map Prod.snd).flatten ∧
      data.counterGroupsIDs = per.map (fun p => recordId p.1) ∧
      entity' = withDefaults entity := by
  rw [normalizeCounterGroupsHelper_eq] at h
  by_cases hs : helperShape entity = true
  · simp only [hs, if_true] at h
    cases he : (groupsOrDefault entity).elems? "map" with
    | none => simp [he] at h
    | some items =>
      have hraw : rawGroupsOf entity = items := by simp [rawGroupsOf, he]
      simp only [he] at h
      cases hg : groupRecords parentType parentID items with
      | none => simp [hg] at h
      | some per =>
        simp only [hg, Option.map_some', Option.some.injEq, Prod.mk.injEq] at h
        obtain ⟨hd, hent⟩ := h
        subst hd
        exact ⟨per, hs, by rw [hraw], by rw [hraw, hg], rfl, rfl, rfl, hent.symm⟩
  · simp [hs] at h

theorem normalizeSingleEntityPayload_some {kind : EntityKind} {entity : Json}
    {n : NormalizedEntity} (h : normalizeSingleEntityPayload kind entity = some n) :
    ∃ per, helperShape entity = true ∧
      (groupsOrDefault entity).elems? "map" = some (rawGroupsOf entity) ∧
      groupRecords (str kind.typeKey) (lookup "entity" entity.namedProps)
        (rawGroupsOf entity) = some per ∧
      n.record = recordOf entity (per.map (fun p => recordId p.1)) ∧
      n.counterGroups = per.map Prod.fst ∧
      n.counters = (per.map Prod.snd).flatten := by
  rw [normalizeSingleEntityPayload_eq] at h
  by_cases hs : helperShape entity = true
  · simp only [hs, if_true] at h
    cases he : (groupsOrDefault entity).elems? "map" with
    | none => simp [he] at h
    | some items =>
      have hraw : rawGroupsOf entity = items := by simp [rawGroupsOf, he]
      simp only [he] at h
      cases hg : groupRecords (str kind.typeKey) (lookup "entity" entity.namedProps) items with
      | none => simp [hg] at h
      | some per =>
        simp only [hg, Option.map_some', Option.some.injEq] at h
        subst h
        exact ⟨per, hs, by rw [hraw], by rw [hraw, hg], rfl, rfl, rfl⟩
  · simp [hs] at h

theorem mem_groups_of_groupRecords {parentType parentID : Json} {gs : List Json}
    {per : List (Json × List Json)} (h : groupRecords parentType parentID gs = some per)
    {cg : Json} (hcg : cg ∈ per.map Prod.fst) :
    ∃ g ∈ gs, ∃ recs, groupRecord parentType parentID g = some (cg, recs) := by
  obtain ⟨r, hr, e⟩ := List.mem_map.mp hcg
  obtain ⟨g, hg, hgr⟩ := forall₂_exists_of_mem_right (groupRecords_forall₂ h) hr
  subst e
  exact ⟨g, hg, r.2, hgr⟩

theorem mem_counters_of_groupRecords {parentType parentID : Json} {gs : List Json}
    {per : List (Json × List Json)} (h : groupRecords parentType parentID gs = some per)
    {c : Json} (hc : c ∈ (per.map Prod.snd).flatten) :
    ∃ g ∈ gs, ∃ cg recs, groupRecord parentType parentID g = some (cg, recs) ∧
      (cg, recs) ∈ per ∧ c ∈ recs := by
  obtain ⟨recs, hrecs, hmem⟩ := List.mem_flatten.mp hc
  obtain ⟨r, hr, e⟩ := List.mem_map.mp hrecs
  obtain ⟨g, hg, hgr⟩ := forall₂_exists_of_mem_right (groupRecords_forall₂ h) hr
  subst e
  exact ⟨g, hg, r.1, r.2, hgr, hr, hmem⟩

end Inversion

/-! ## The `forEach` loop of `normalizePayload` -/

section Batch

/-- The collection object assembled from the single-entity results `ns`. -/
theorem forEachEntity_eq (kind : EntityKind) (items : List Json)
    (acc : NormalizedCollection) :
    forEachEntity kind items acc =
      (normalizeAll kind items).map (fun ns =>
        ⟨acc.records ++ ns.map (fun n => n.record),
          acc.counterGroups ++ (ns.map (fun n => n.counterGroups)).flatten,
          acc.counters ++ (ns.map (fun n => n.counters)).flatten⟩) := by
  induction items generalizing acc with
  | nil => simp [forEachEntity, normalizeAll]
  | cons e es ih =>
    simp only [forEachEntity, normalizeAll]
    cases h1 : normalizeSingleEntityPayload kind e with
    | none => simp
    | some n =>
      simp only [Option.bind_eq_bind, Option.some_bind, ih]
      cases h2 : normalizeAll kind es with
      | none => simp
      | some ns => simp

theorem normalizeAll_forall₂ {kind : EntityKind} {es : List Json}
    {ns : List NormalizedEntity} (h : normalizeAll kind es = some ns) :
    List.Forall₂ (fun e n => normalizeSingleEntityPayload kind e = some n) es ns := by
  induction es generalizing ns with
  | nil =>
    simp only [normalizeAll, Option.some.injEq] at h
    subst h
    exact List.Forall₂.nil
  | cons e es ih =>
    simp only [normalizeAll] at h
    cases h1 : normalizeSingleEntityPayload kind e with
    | none => simp [h1] at h
    | some n =>
      cases h2 : normalizeAll kind es with
      | none => simp [h1, h2] at h
      | some ns2 =>
        simp only [h1, h2, Option.some.injEq] at h
        subst h
        exact List.Forall₂.cons h1 (ih h2)

theorem normalizeAll_append (kind : EntityKind) (xs ys : List Json) :
    normalizeAll kind (xs ++ ys) =
      match normalizeAll kind xs, normalizeAll kind ys with
      | some a, some b => some (a ++ b)
      | _, _ => none := by
  induction xs with
  | nil => cases h : normalizeAll kind ys <;> simp [normalizeAll, h]
  | cons x xs ih =>
    simp only [List.cons_append, normalizeAll, List.append_eq]
    rw [ih]
    cases h1 : normalizeSingleEntityPayload kind x <;> cases h2 : normalizeAll kind xs <;>
      cases h3 : normalizeAll kind ys <;> simp

theorem normalizeSingleEntityPayload_of_isRawEntity (kind : EntityKind) {e : Json}
    (h : isRawEntity e = true) : ∃ n, normalizeSingleEntityPayload kind e = some n := by
  simp only [isRawEntity, Bool.and_eq_true, Option.isSome_iff_exists] at h
  obtain ⟨⟨⟨hs, hid⟩, items, hitems⟩, hall⟩ := h
  have hraw : rawGroupsOf e = items := by simp [rawGroupsOf, hitems]
  rw [hraw] at hall
  obtain ⟨per, hper⟩ := groupRecords_of_all (str kind.typeKey) hid hall
  rw [normalizeSingleEntityPayload_eq, hs]
  simp only [if_true, hitems, hper, Option.map_some']
  exact ⟨_, rfl⟩

theorem normalizeAll_of_all (kind : EntityKind) {es : List Json}
    (h : es.all isRawEntity = true) : ∃ ns, normalizeAll kind es = some ns := by
  induction es with
  | nil => exact ⟨[], rfl⟩
  | cons e es ih =>
    simp only [List.all_cons, Bool.and_eq_true] at h
    obtain ⟨ns, hns⟩ := ih h.2
    obtain ⟨n, hn⟩ := normalizeSingleEntityPayload_of_isRawEntity kind h.1
    simp only [normalizeAll, hn, hns]
    exact ⟨_, rfl⟩

theorem normalizePayload_of_plural {kind : EntityKind} {rawPayload : Json}
    {items : List Json}
    (h : getProp rawPayload kind.pluralKey = some (arr items [])) :
    normalizePayload kind rawPayload =
      (normalizeAll kind items).map (fun ns =>
        (.collection ⟨ns.map (fun n => n.record),
          (ns.map (fun n => n.counterGroups)).flatten,
          (ns.map (fun n => n.counters)).flatten⟩,
          deleteProp rawPayload kind.pluralKey)) := by
  simp only [normalizePayload, h, Option.bind_eq_bind, Option.some_bind, truthy, if_true,
    elems?, hasKey, List.any_nil, Bool.false_eq_true, if_false, forEachEntity_eq,
    List.nil_append]
  cases normalizeAll kind items <;> simp

theorem normalizePayload_collection {kind : EntityKind} {rawPayload rawPayload' : Json}
    {c : NormalizedCollection}
    (h : normalizePayload kind rawPayload = some (.collection c, rawPayload')) :
    ∃ plural items ns, getProp rawPayload kind.pluralKey = some plural ∧
      plural.elems? "forEach" = some items ∧ normalizeAll kind items = some ns ∧
      c = ⟨ns.map (fun n => n.record), (ns.map (fun n => n.counterGroups)).flatten,
        (ns.map (fun n => n.counters)).flatten⟩ ∧
      rawPayload' = deleteProp rawPayload kind.pluralKey := by
  simp only [normalizePayload, Option.bind_eq_bind] at h
  cases hp : getProp rawPayload kind.pluralKey with
  | none => simp [hp] at h
  | some plural =>
    simp only [hp, Option.some_bind] at h
    by_cases ht : plural.truthy = true
    · simp only [ht, if_true] at h
      cases he : plural.elems? "forEach" with
      | none => simp [he] at h
      | some items =>
        simp only [he, Option.some_bind, forEachEntity_eq, List.nil_append] at h
        cases hn : normalizeAll kind items with
        | none => simp [hn] at h
        | some ns =>
          simp only [hn, Option.map_some', Option.some_bind, pure, Option.some.injEq,
            Prod.mk.injEq, NormalizedPayload.collection.injEq] at h
          exact ⟨plural, items, ns, rfl, he, hn, h.1.symm, h.2.symm⟩
    · simp only [ht, Bool.false_eq_true, if_false] at h
      cases he : getProp rawPayload kind.typeKey with
      | none => simp [he] at h
      | some e =>
        simp only [he, Option.some_bind] at h
        cases hn : normalizeSingleEntityPayload kind e with
        | none => simp [hn] at h
        | some n => simp [hn] at h

end Batch

/-! ## The claims on `normalizeCounterGroupsHelper` -/

section HelperClaims

/-- C1.  For every parent type, printable parent id and raw entity whose
`otherinfo.counters.counterGroups` is an array of `n` raw counter groups holding `m` raw
counters in total, `normalizeCounterGroupsHelper` returns, with exactly `n` counter-group
records, exactly `m` counter records and exactly `n` ids, the `i`-th id being the `id` of
the `i`-th counter-group record. -/
theorem normalizeCounterGroupsHelper_counts (parentType parentID entity otherinfo counters : Json)
    (groups : List Json)
    (hid : parentID.printable = true)
    (h1 : getProp entity "otherinfo" = some otherinfo)
    (h2 : getProp otherinfo "counters" = some counters)
    (h3 : getProp counters "counterGroups" = some (arr groups []))
    (hg : groups.all isRawGroup = true) :
    ∃ data entity',
      normalizeCounterGroupsHelper parentType parentID entity = some (data, entity') ∧
      data.counterGroups.length = groups.length ∧
      data.counters.length = (groups.map (fun g => (rawCountersOf g).length)).sum ∧
      data.counterGroupsIDs.length = groups.length ∧
      data.counterGroups.map (fun cg => getProp cg "id") =
        data.counterGroupsIDs.map some := by
  obtain ⟨hs, hgd⟩ := shape_of_path h1 h2 h3
  obtain ⟨per, hper⟩ := groupRecords_of_all parentType hid hg
  obtain ⟨c1, c2, c3⟩ := counts_of_groupRecords hper
  have heq : normalizeCounterGroupsHelper parentType parentID entity =
      some (⟨per.map Prod.fst, (per.map Prod.snd).flatten, per.map (fun p => recordId p.1)⟩,
        withDefaults entity) := by
    rw [normalizeCounterGroupsHelper_eq, hs, hgd]
    simp only [if_true, elems?, hasKey, List.any_nil, Bool.false_eq_true, if_false, hper,
      Option.map_some']
  exact ⟨_, _, heq, by simpa using c1, c2, by simpa using c1, c3⟩

/-- C1 at `sampleDag`: one counter group, one counter, one id. -/
theorem normalizeCounterGroupsHelper_counts_witness :
    ∃ data entity',
      normalizeCounterGroupsHelper (str "dag") (str "dag_1") sampleDag
        = some (data, entity') ∧
      data.counterGroups.length = sampleGroups.length ∧
      data.counters.length = (sampleGroups.map (fun g => (rawCountersOf g).length)).sum ∧
      data.counterGroupsIDs.length = sampleGroups.length ∧
      data.counterGroups.map (fun cg => getProp cg "id") =
        data.counterGroupsIDs.map some :=
  normalizeCounterGroupsHelper_counts (str "dag") (str "dag_1") sampleDag _ _ sampleGroups
    rfl rfl rfl rfl rfl

/-- C2.  In every result of `normalizeCounterGroupsHelper` the counter-group records are, in
order, one per raw group, and the counter records are the concatenation of one list per
group, one record per raw counter of that group: the record of a raw group has
`id = parentID + "/" + name`, its `name` being the raw `counterGroupName`, and the record of
each raw counter of that very group has `id = (that group's id) + "/" + name`, its `name`
being the raw `counterName`, and `parentID` equal to that group's id. -/
theorem normalizeCounterGroupsHelper_ids (parentType parentID entity entity' : Json)
    (data : CounterGroupData)
    (h : normalizeCounterGroupsHelper parentType parentID entity = some (data, entity')) :
    ∃ per : List (Json × List Json),
      data.counterGroups = per.map Prod.fst ∧
      data.counters = (per.map Prod.snd).flatten ∧
      List.Forall₂ (fun g p => ∃ parentStr name nameStr,
          parentID.toStr = some parentStr ∧
          getProp g "counterGroupName" = some name ∧ name.toStr = some nameStr ∧
          getProp p.1 "name" = some name ∧
          getProp p.1 "id" = some (str (parentStr ++ "/" ++ nameStr)) ∧
          List.Forall₂ (fun raw c => ∃ cname cnameStr,
              getProp raw "counterName" = some cname ∧ cname.toStr = some cnameStr ∧
              getProp c "name" = some cname ∧
              getProp c "id" = some (str (parentStr ++ "/" ++ nameStr ++ "/" ++ cnameStr)) ∧
              getProp c "parentID" = some (str (parentStr ++ "/" ++ nameStr)))
            (rawCountersOf g) p.2)
        (rawGroupsOf entity) per := by
  obtain ⟨per, -, -, hper, hcg, hcs, -, -⟩ := normalizeCounterGroupsHelper_some h
  refine ⟨per, hcg, hcs, (groupRecords_forall₂ hper).imp ?_⟩
  intro g p hgr
  obtain ⟨cg, recs⟩ := p
  obtain ⟨parentStr, nameStr, items, hp, hn, hname, hitems, hrecs, e⟩ := groupRecord_some hgr
  subst e
  refine ⟨parentStr, lookup "counterGroupName" g.namedProps, nameStr, hp, ?_, hname, rfl, rfl,
    ?_⟩
  · rw [getProp_named namedKey_counterGroupName, hn]
    rfl
  · have hraw : rawCountersOf g = items := by simp [rawCountersOf, hitems]
    rw [hraw]
    refine (counterRecords_forall₂ hrecs).imp ?_
    intro raw c hcr
    obtain ⟨cname, hcn, hcname, ec⟩ := counterRecord_some hcr
    subst ec
    refine ⟨lookup "counterName" raw.namedProps, cname, ?_, hcname, rfl, rfl, rfl⟩
    rw [getProp_named namedKey_counterName, hcn]
    rfl

/-- C2 at `sampleDagTwo`, whose two groups hold two counters each. -/
theorem normalizeCounterGroupsHelper_ids_witness :
    ∃ data entity',
      normalizeCounterGroupsHelper (str "dag") (str "dag_3") sampleDagTwo
        = some (data, entity') ∧
      data.counterGroups.map (fun cg => getProp cg "id")
        = [some (str "dag_3/g1"), some (str "dag_3/g2")] ∧
      data.counters.map (fun c => getProp c "id")
        = [some (str "dag_3/g1/c1"), some (str "dag_3/g1/c2"),
          some (str "dag_3/g2/c1"), some (str "dag_3/g2/c2")] ∧
      data.counters.map (fun c => getProp c "parentID")
        = [some (str "dag_3/g1"), some (str "dag_3/g1"),
          some (str "dag_3/g2"), some (str "dag_3/g2")] ∧
      ∃ per : List (Json × List Json),
        data.counterGroups = per.map Prod.fst ∧
        data.counters = (per.map Prod.snd).flatten ∧
        List.Forall₂ (fun g p => ∃ parentStr name nameStr,
            (str "dag_3").toStr = some parentStr ∧
            getProp g "counterGroupName" = some name ∧ name.toStr = some nameStr ∧
            getProp p.1 "name" = some name ∧
            getProp p.1 "id" = some (str (parentStr ++ "/" ++ nameStr)) ∧
            List.Forall₂ (fun raw c => ∃ cname cnameStr,
                getProp raw "counterName" = some cname ∧ cname.toStr = some cnameStr ∧
                getProp c "name" = some cname ∧
                getProp c "id" = some (str (parentStr ++ "/" ++ nameStr ++ "/" ++ cnameStr)) ∧
                getProp c "parentID" = some (str (parentStr ++ "/" ++ nameStr)))
              (rawCountersOf g) p.2)
          (rawGroupsOf sampleDagTwo) per :=
  ⟨_, _, rfl, rfl, rfl, rfl,
    normalizeCounterGroupsHelper_ids (str "dag") (str "dag_3") sampleDagTwo _ _ rfl⟩

/-- C5.  `normalizeCounterGroupsHelper` preserves source order: on a raw entity whose
`otherinfo.counters.counterGroups` is an array of raw counter groups it returns, the `i`-th
counter-group record carrying the name and display name of the `i`-th raw group, and the
counter records being the concatenation, in group order, of one record per raw counter in
source order, each carrying the raw `counterName`, `counterDisplayName` and `counterValue`. -/
theorem normalizeCounterGroupsHelper_order (parentType parentID entity otherinfo counters : Json)
    (groups : List Json)
    (hid : parentID.printable = true)
    (h1 : getProp entity "otherinfo" = some otherinfo)
    (h2 : getProp otherinfo "counters" = some counters)
    (h3 : getProp counters "counterGroups" = some (arr groups []))
    (hg : groups.all isRawGroup = true) :
    ∃ data entity',
      normalizeCounterGroupsHelper parentType parentID entity = some (data, entity') ∧
      List.Forall₂ (fun g cg =>
          getProp cg "name" = getProp g "counterGroupName" ∧
          getProp cg "displayName" = getProp g "counterGroupDisplayName")
        groups data.counterGroups ∧
      ∃ css : List (List Json), data.counters = css.flatten ∧
        List.Forall₂ (fun g cs =>
            List.Forall₂ (fun raw c =>
                getProp c "name" = getProp raw "counterName" ∧
                getProp c "displayName" = getProp raw "counterDisplayName" ∧
                getProp c "value" = getProp raw "counterValue")
              (rawCountersOf g) cs)
          groups css := by
  obtain ⟨hs, hgd⟩ := shape_of_path h1 h2 h3
  obtain ⟨per, hper⟩ := groupRecords_of_all parentType hid hg
  have heq : normalizeCounterGroupsHelper parentType parentID entity =
      some (⟨per.map Prod.fst, (per.map Prod.snd).flatten, per.map (fun p => recordId p.1)⟩,
        withDefaults entity) := by
    rw [normalizeCounterGroupsHelper_eq, hs, hgd]
    simp only [if_true, elems?, hasKey, List.any_nil, Bool.false_eq_true, if_false, hper,
      Option.map_some']
  have hf := groupRecords_forall₂ hper
  refine ⟨_, _, heq, ?_, per.map Prod.snd, rfl, ?_⟩
  · rw [List.forall₂_map_right_iff]
    refine hf.imp ?_
    intro g r hgr
    obtain ⟨cg, recs⟩ := r
    obtain ⟨parentStr, nameStr, items, -, hn, -, -, -, e⟩ := groupRecord_some hgr
    subst e
    rw [getProp_named namedKey_counterGroupName, getProp_named namedKey_counterGroupDisplayName,
      hn]
    exact ⟨rfl, rfl⟩
  · rw [List.forall₂_map_right_iff]
    refine hf.imp ?_
    intro g r hgr
    obtain ⟨cg, recs⟩ := r
    obtain ⟨parentStr, nameStr, items, -, -, -, hitems, hrecs, -⟩ := groupRecord_some hgr
    have hraw : rawCountersOf g = items := by simp [rawCountersOf, hitems]
    rw [hraw]
    refine (counterRecords_forall₂ hrecs).imp ?_
    intro raw c hcr
    obtain ⟨cname, hcn, -, ec⟩ := counterRecord_some hcr
    subst ec
    rw [getProp_named namedKey_counterName, getProp_named namedKey_counterDisplayName,
      getProp_named namedKey_counterValue, hcn]
    exact ⟨rfl, rfl, rfl⟩

/-- C5 at `sampleDag`. -/
theorem normalizeCounterGroupsHelper_order_witness :
    ∃ data entity',
      normalizeCounterGroupsHelper (str "dag") (str "dag_1") sampleDag
        = some (data, entity') ∧
      List.Forall₂ (fun g cg =>
          getProp cg "name" = getProp g "counterGroupName" ∧
          getProp cg "displayName" = getProp g "counterGroupDisplayName")
        sampleGroups data.counterGroups ∧
      ∃ css : List (List Json), data.counters = css.flatten ∧
        List.Forall₂ (fun g cs =>
            List.Forall₂ (fun raw c =>
                getProp c "name" = getProp raw "counterName" ∧
                getProp c "displayName" = getProp raw "counterDisplayName" ∧
                getProp c "value" = getProp raw "counterValue")
              (rawCountersOf g) cs)
          sampleGroups css :=
  normalizeCounterGroupsHelper_order (str "dag") (str "dag_1") sampleDag _ _ sampleGroups
    rfl rfl rfl rfl rfl

/-- C6.  On a raw entity that has an `otherinfo` object without `counters`, or with a
`counters` object without `counterGroups`, `normalizeCounterGroupsHelper` does not fail: it
returns no counter-group record, no counter record and no id, and each single-entity
normalizer returns with an empty `counterGroups` id list on the record. -/
theorem normalizeCounterGroupsHelper_missing (parentType parentID entity otherinfo : Json)
    (h1 : getProp entity "otherinfo" = some otherinfo)
    (ho : otherinfo.isObject = true)
    (hc : getProp otherinfo "counters" = some undefined ∨
      ∃ counters, getProp otherinfo "counters" = some counters ∧ counters.isObject = true ∧
        getProp counters "counterGroups" = some undefined) :
    (∃ entity', normalizeCounterGroupsHelper parentType parentID entity
        = some (⟨[], [], []⟩, entity')) ∧
    ∀ kind : EntityKind, ∃ n, normalizeSingleEntityPayload kind entity = some n ∧
      n.counterGroups = [] ∧ n.counters = [] ∧
      getProp n.record "counterGroups" = some (arr [] []) := by
  have he : entity.isObject = true := isObject_of_getProp namedKey_otherinfo h1 ho
  have hshape := shape_of_missing h1 ho hc
  obtain ⟨hs, hgd⟩ := hshape
  constructor
  · refine ⟨withDefaults entity, ?_⟩
    rw [normalizeCounterGroupsHelper_eq, hs, hgd]
    rfl
  · intro kind
    refine ⟨⟨recordOf entity [], [], []⟩, ?_, rfl, rfl, ?_⟩
    · rw [normalizeSingleEntityPayload_eq, hs, hgd]
      rfl
    · simp only [recordOf]
      rw [getProp_setProp_self namedKey_counterGroups]
      rw [isObject_setProp]
      exact he

/-- C6 at `sampleVertex`, whose `otherinfo` has no `counters`. -/
theorem normalizeCounterGroupsHelper_missing_witness :
    (∃ entity', normalizeCounterGroupsHelper (str "vertex") (str "vertex_1") sampleVertex
        = some (⟨[], [], []⟩, entity')) ∧
    ∀ kind : EntityKind, ∃ n, normalizeSingleEntityPayload kind sampleVertex = some n ∧
      n.counterGroups = [] ∧ n.counters = [] ∧
      getProp n.record "counterGroups" = some (arr [] []) :=
  normalizeCounterGroupsHelper_missing (str "vertex") (str "vertex_1") sampleVertex
    (obj [("vertexName", str "Map 1"), ("numTasks", num 3)]) rfl rfl (Or.inl rfl)

end HelperClaims

/-! ## The claims on the serializers -/

section SerializerLemmas

theorem ids_of_normalizeSingleEntityPayload {kind : EntityKind} {e : Json}
    {n : NormalizedEntity} (h : normalizeSingleEntityPayload kind e = some n) :
    ∃ ids, getProp n.record "counterGroups" = some (arr ids []) ∧
      n.counterGroups.map (fun cg => getProp cg "id") = ids.map some := by
  obtain ⟨per, hs, -, hper, hrec, hcg, -⟩ := normalizeSingleEntityPayload_some h
  obtain ⟨-, -, c3⟩ := counts_of_groupRecords hper
  refine ⟨per.map (fun p => recordId p.1), ?_, ?_⟩
  · rw [hrec]
    exact getProp_recordOf_counterGroups (isObject_of_helperShape hs).1 _
  · rw [hcg]
    exact c3

theorem ids_of_all {ns : List NormalizedEntity}
    (h : ∀ n ∈ ns, ∃ ids, getProp n.record "counterGroups" = some (arr ids []) ∧
      n.counterGroups.map (fun cg => getProp cg "id") = ids.map some) :
    ∃ idss : List (List Json),
      List.Forall₂ (fun r ids => getProp r "counterGroups" = some (arr ids []))
        (ns.map (fun n => n.record)) idss ∧
      ((ns.map (fun n => n.counterGroups)).flatten).map (fun cg => getProp cg "id") =
        idss.flatten.map some := by
  induction ns with
  | nil => exact ⟨[], List.Forall₂.nil, rfl⟩
  | cons n ns ih =>
    obtain ⟨idss, h1, h2⟩ := ih (fun m hm => h m (List.mem_cons_of_mem _ hm))
    obtain ⟨ids, h3, h4⟩ := h n (List.mem_cons_self _ _)
    refine ⟨ids :: idss, List.Forall₂.cons h3 h1, ?_⟩
    simp only [List.map_cons, List.flatten_cons, List.map_append, h2, h4]

theorem records_of_normalizeAll {kind : EntityKind} {es : List Json}
    {ns : List NormalizedEntity} (h : normalizeAll kind es = some ns) :
    List.Forall₂ (fun e r => ∃ n, normalizeSingleEntityPayload kind e = some n ∧
        r = n.record ∧ getProp r "entity" = getProp e "entity")
      es (ns.map (fun n => n.record)) := by
  rw [List.forall₂_map_right_iff]
  refine (normalizeAll_forall₂ h).imp ?_
  intro e n hn
  refine ⟨n, hn, rfl, ?_⟩
  obtain ⟨per, -, -, -, hrec, -, -⟩ := normalizeSingleEntityPayload_some hn
  rw [hrec]
  exact getProp_recordOf_other (by decide) (by decide) _ _

end SerializerLemmas

section SerializerClaims

/-- C3.  For every collection payload normalized by the Dag, TaskAttempt, Task or Vertex
`normalizePayload`, each returned base record carries a `counterGroups` id array, and the
concatenation of these arrays in record order is exactly the list of the `id`s of the
returned `counterGroups` collection. -/
theorem normalizePayload_referential (kind : EntityKind) (rawPayload rawPayload' : Json)
    (c : NormalizedCollection)
    (h : normalizePayload kind rawPayload = some (.collection c, rawPayload')) :
    ∃ idss : List (List Json),
      List.Forall₂ (fun r ids => getProp r "counterGroups" = some (arr ids []))
        c.records idss ∧
      c.counterGroups.map (fun cg => getProp cg "id") = idss.flatten.map some := by
  obtain ⟨plural, items, ns, -, -, hns, hc, -⟩ := normalizePayload_collection h
  subst hc
  apply ids_of_all
  intro n hn
  obtain ⟨e, -, he⟩ := forall₂_exists_of_mem_right (normalizeAll_forall₂ hns) hn
  exact ids_of_normalizeSingleEntityPayload he

/-- C3 at the payload holding `sampleDag` and `sampleVertex`. -/
theorem normalizePayload_referential_witness :
    ∃ idss : List (List Json),
      List.Forall₂ (fun r ids => getProp r "counterGroups" = some (arr ids []))
        [recordOf sampleDag [str "dag_1/g1"], recordOf sampleVertex []] idss ∧
      [obj [("id", str "dag_1/g1"), ("name", str "g1"), ("displayName", str "G1"),
        ("parentID", obj [("type", str "dag"), ("id", str "dag_1")]),
        ("counters", arr [str "dag_1/g1/c1"] [])]].map (fun cg => getProp cg "id") =
        idss.flatten.map some :=
  normalizePayload_referential .dag (obj [("dags", arr [sampleDag, sampleVertex] [])]) (obj [])
    ⟨[recordOf sampleDag [str "dag_1/g1"], recordOf sampleVertex []],
      [obj [("id", str "dag_1/g1"), ("name", str "g1"), ("displayName", str "G1"),
        ("parentID", obj [("type", str "dag"), ("id", str "dag_1")]),
        ("counters", arr [str "dag_1/g1/c1"] [])]],
      [obj [("id", str "dag_1/g1/c1"), ("name", str "c1"), ("displayName", str "C1"),
        ("value", num 5), ("parentID", str "dag_1/g1")]]⟩ rfl

/-- C4.  For every list `es` of well-formed raw entities, the empty list included, and
every payload holding `es` as an array under the plural key, `normalizePayload` returns a
collection whose base records are as many as `es` and whose `i`-th record is the record
the single-entity normalizer returns for the `i`-th entity, with that entity's `entity` id. -/
theorem normalizePayload_records (kind : EntityKind) (rawPayload : Json) (es : List Json)
    (hp : getProp rawPayload kind.pluralKey = some (arr es []))
    (hes : es.all isRawEntity = true) :
    ∃ c rawPayload', normalizePayload kind rawPayload = some (.collection c, rawPayload') ∧
      c.records.length = es.length ∧
      List.Forall₂ (fun e r => ∃ n, normalizeSingleEntityPayload kind e = some n ∧
          r = n.record ∧ getProp r "entity" = getProp e "entity")
        es c.records := by
  obtain ⟨ns, hns⟩ := normalizeAll_of_all kind hes
  have hf := records_of_normalizeAll hns
  have heq : normalizePayload kind rawPayload =
      some (.collection ⟨ns.map (fun n => n.record),
        (ns.map (fun n => n.counterGroups)).flatten,
        (ns.map (fun n => n.counters)).flatten⟩, deleteProp rawPayload kind.pluralKey) := by
    rw [normalizePayload_of_plural hp, hns]
    rfl
  exact ⟨_, _, heq, hf.length_eq.symm, hf⟩

/-- C4 at the payload `{dags: [sampleDag, sampleVertex]}`. -/
theorem normalizePayload_records_witness :
    ∃ c rawPayload',
      normalizePayload .dag (obj [("dags", arr [sampleDag, sampleVertex] [])])
        = some (.collection c, rawPayload') ∧
      c.records.length = [sampleDag, sampleVertex].length ∧
      List.Forall₂ (fun e r => ∃ n, normalizeSingleEntityPayload .dag e = some n ∧
          r = n.record ∧ getProp r "entity" = getProp e "entity")
        [sampleDag, sampleVertex] c.records :=
  normalizePayload_records .dag (obj [("dags", arr [sampleDag, sampleVertex] [])])
    [sampleDag, sampleVertex] rfl rfl

/-- C7.  Whatever the raw entity held, the base record returned by a single-entity
normalizer has an `otherinfo` without a `counters` field. -/
theorem normalizeSingleEntityPayload_no_counters (kind : EntityKind) (entity : Json)
    (n : NormalizedEntity) (h : normalizeSingleEntityPayload kind entity = some n) :
    ∃ otherinfo, getProp n.record "otherinfo" = some otherinfo ∧
      hasOwnProp otherinfo "counters" = false ∧
      getProp otherinfo "counters" = some undefined := by
  obtain ⟨per, hs, -, -, hrec, -, -⟩ := normalizeSingleEntityPayload_some h
  obtain ⟨he, ho⟩ := isObject_of_helperShape hs
  refine ⟨deleteProp (lookup "otherinfo" entity.namedProps) "counters", ?_, ?_, ?_⟩
  · rw [hrec]
    exact getProp_recordOf_otherinfo he _
  · exact hasOwnProp_deleteProp_self namedKey_counters _
  · rw [getProp_of_isObject namedKey_counters (by rw [isObject_deleteProp]; exact ho),
      namedProps_deleteProp, lookup_eraseAssoc_self]

/-- C7 at `sampleDag`. -/
theorem normalizeSingleEntityPayload_no_counters_witness :
    ∃ otherinfo, getProp (recordOf sampleDag [str "dag_1/g1"]) "otherinfo" = some otherinfo ∧
      hasOwnProp otherinfo "counters" = false ∧
      getProp otherinfo "counters" = some undefined :=
  normalizeSingleEntityPayload_no_counters .dag sampleDag
    ⟨recordOf sampleDag [str "dag_1/g1"],
      [obj [("id", str "dag_1/g1"), ("name", str "g1"), ("displayName", str "G1"),
        ("parentID", obj [("type", str "dag"), ("id", str "dag_1")]),
        ("counters", arr [str "dag_1/g1/c1"] [])]],
      [obj [("id", str "dag_1/g1/c1"), ("name", str "c1"), ("displayName", str "C1"),
        ("value", num 5), ("parentID", str "dag_1/g1")]]⟩ rfl

/-- C8.  Every counter-group record emitted while normalizing a dag, task attempt, task
or vertex carries a `parentID` holding both the parent type, which is the type key of the
serializer (`dag`, `taskAttempt`, `task`, `vertex`), and the parent id, which is the raw
entity's `entity` field. -/
theorem normalizeSingleEntityPayload_parent (kind : EntityKind) (entity : Json)
    (n : NormalizedEntity) (h : normalizeSingleEntityPayload kind entity = some n) :
    ∃ parentID, getProp entity "entity" = some parentID ∧
      ∀ cg ∈ n.counterGroups,
        getProp cg "parentID" = some (obj [("type", str kind.typeKey), ("id", parentID)]) := by
  obtain ⟨per, hs, -, hper, -, hcg, -⟩ := normalizeSingleEntityPayload_some h
  obtain ⟨he, -⟩ := isObject_of_helperShape hs
  refine ⟨lookup "entity" entity.namedProps, getProp_of_isObject namedKey_entity he, ?_⟩
  intro cg hmem
  rw [hcg] at hmem
  obtain ⟨g, -, recs, hgr⟩ := mem_groups_of_groupRecords hper hmem
  obtain ⟨parentStr, nameStr, items, -, -, -, -, -, e⟩ := groupRecord_some hgr
  subst e
  rfl

/-- C8 at `sampleDag`, normalized as a task attempt. -/
theorem normalizeSingleEntityPayload_parent_witness :
    ∃ parentID, getProp sampleDag "entity" = some parentID ∧
      ∀ cg ∈ [obj [("id", str "dag_1/g1"), ("name", str "g1"), ("displayName", str "G1"),
        ("parentID", obj [("type", str "taskAttempt"), ("id", str "dag_1")]),
        ("counters", arr [str "dag_1/g1/c1"] [])]],
        getProp cg "parentID" =
          some (obj [("type", str "taskAttempt"), ("id", parentID)]) :=
  normalizeSingleEntityPayload_parent .taskAttempt sampleDag
    ⟨recordOf sampleDag [str "dag_1/g1"],
      [obj [("id", str "dag_1/g1"), ("name", str "g1"), ("displayName", str "G1"),
        ("parentID", obj [("type", str "taskAttempt"), ("id", str "dag_1")]),
        ("counters", arr [str "dag_1/g1/c1"] [])]],
      [obj [("id", str "dag_1/g1/c1"), ("name", str "c1"), ("displayName", str "C1"),
        ("value", num 5), ("parentID", str "dag_1/g1")]]⟩ rfl

/-- C9, as stated, fails at `sampleDag`: the first run of `_normalizeSingleDagPayload`
deletes `otherinfo.counters`, so the second run, on the entity as the first run left it,
returns another id list, no counter-group record and no counter record. -/
theorem normalizeSingleEntityPayload_twice_counterexample :
    ∃ n1 n2, DagSerializer._normalizeSingleDagPayload sampleDag = some n1 ∧
      DagSerializer._normalizeSingleDagPayload n1.record = some n2 ∧
      getProp n1.record "counterGroups" = some (arr [str "dag_1/g1"] []) ∧
      getProp n2.record "counterGroups" = some (arr [] []) ∧
      n1.counterGroups.length = 1 ∧ n2.counterGroups.length = 0 ∧
      n1.counters.length = 1 ∧ n2.counters.length = 0 ∧
      ¬ (getProp n2.record "counterGroups" = getProp n1.record "counterGroups" ∧
        n2.counterGroups = n1.counterGroups ∧ n2.counters = n1.counters) := by
  refine ⟨⟨recordOf sampleDag [str "dag_1/g1"],
      [obj [("id", str "dag_1/g1"), ("name", str "g1"), ("displayName", str "G1"),
        ("parentID", obj [("type", str "dag"), ("id", str "dag_1")]),
        ("counters", arr [str "dag_1/g1/c1"] [])]],
      [obj [("id", str "dag_1/g1/c1"), ("name", str "c1"), ("displayName", str "C1"),
        ("value", num 5), ("parentID", str "dag_1/g1")]]⟩,
    ⟨recordOf (recordOf sampleDag [str "dag_1/g1"]) [], [], []⟩,
    rfl, rfl, rfl, rfl, rfl, rfl, rfl, rfl, ?_⟩
  intro h
  exact List.cons_ne_nil _ _ h.2.1.symm

/-- C9, amended.  When a single-entity normalizer has returned on a raw entity, a second
run on the entity as the first run left it returns too, with an empty `counterGroups` id
list on the record, which is otherwise unchanged, no counter-group record and no counter
record; its output is that of the first run exactly when the first run emitted no counter
group. -/
theorem normalizeSingleEntityPayload_twice (kind : EntityKind) (entity : Json)
    (n1 : NormalizedEntity) (h : normalizeSingleEntityPayload kind entity = some n1) :
    ∃ n2, normalizeSingleEntityPayload kind n1.record = some n2 ∧
      n2.record = setProp n1.record "counterGroups" (arr [] []) ∧
      getProp n2.record "counterGroups" = some (arr [] []) ∧
      n2.counterGroups = [] ∧ n2.counters = [] ∧
      ((getProp n2.record "counterGroups" = getProp n1.record "counterGroups" ∧
          n2.counterGroups = n1.counterGroups ∧ n2.counters = n1.counters) ↔
        n1.counterGroups = []) := by
  obtain ⟨per, hs, -, -, hrec, hcg, hcs⟩ := normalizeSingleEntityPayload_some h
  obtain ⟨he, ho⟩ := isObject_of_helperShape hs
  have hro : (recordOf entity (per.map (fun p => recordId p.1))).isObject = true :=
    isObject_recordOf he _
  have hshape := shape_of_missing
    (getProp_recordOf_otherinfo he (per.map (fun p => recordId p.1)))
    (by rw [isObject_deleteProp]; exact ho)
    (Or.inl (by
      rw [getProp_of_isObject namedKey_counters (by rw [isObject_deleteProp]; exact ho),
        namedProps_deleteProp, lookup_eraseAssoc_self]))
  have hrun : normalizeSingleEntityPayload kind n1.record =
      some ⟨recordOf n1.record [], [], []⟩ := by
    rw [hrec, normalizeSingleEntityPayload_eq, hshape.1, hshape.2]
    rfl
  have hr2 : recordOf n1.record [] = setProp n1.record "counterGroups" (arr [] []) := by
    rw [hrec]
    exact recordOf_recordOf entity _ [] he
  have hg2 : getProp (recordOf n1.record []) "counterGroups" = some (arr [] []) := by
    rw [hrec]
    exact getProp_recordOf_counterGroups hro []
  refine ⟨_, hrun, hr2, hg2, rfl, rfl, ?_⟩
  constructor
  · intro hsame
    exact hsame.2.1.symm
  · intro hnil
    have hper : per = [] := by
      rw [hcg] at hnil
      exact List.map_eq_nil_iff.mp hnil
    subst hper
    refine ⟨?_, hnil.symm, ?_⟩
    · rw [hg2, hrec]
      exact (getProp_recordOf_counterGroups he []).symm
    · rw [hcs]
      rfl

/-- C9, amended, at `sampleVertex`, which holds no counter group. -/
theorem normalizeSingleEntityPayload_twice_witness :
    ∃ n2, normalizeSingleEntityPayload .vertex (recordOf sampleVertex []) = some n2 ∧
      n2.record = setProp (recordOf sampleVertex []) "counterGroups" (arr [] []) ∧
      getProp n2.record "counterGroups" = some (arr [] []) ∧
      n2.counterGroups = [] ∧ n2.counters = [] ∧
      ((getProp n2.record "counterGroups" =
            getProp (recordOf sampleVertex []) "counterGroups" ∧
          n2.counterGroups = [] ∧ n2.counters = []) ↔
        ([] : List Json) = []) :=
  normalizeSingleEntityPayload_twice .vertex sampleVertex
    ⟨recordOf sampleVertex [], [], []⟩ rfl

/-- C10.  Collection normalization is a concatenation of per-entity results: for all lists
`xs` and `ys` of well-formed raw entities, every entity has a single-entity result,
`normalizePayload` returns on the payloads holding `xs`, `ys` and `xs ++ ys` under the
plural key, the three collections returned for a list are the records of the single-entity
results of its entities, in order, and the concatenations of their counter groups and of
their counters, and each of the three collections returned for `xs ++ ys` is the one
returned for `xs` followed by the one returned for `ys`. -/
theorem normalizePayload_append (kind : EntityKind) (xs ys : List Json)
    (hx : xs.all isRawEntity = true) (hy : ys.all isRawEntity = true) :
    ∃ nx ny cx cy cxy px py pxy,
      List.Forall₂ (fun e n => normalizeSingleEntityPayload kind e = some n) xs nx ∧
      List.Forall₂ (fun e n => normalizeSingleEntityPayload kind e = some n) ys ny ∧
      normalizePayload kind (obj [(kind.pluralKey, arr xs [])]) = some (.collection cx, px) ∧
      normalizePayload kind (obj [(kind.pluralKey, arr ys [])]) = some (.collection cy, py) ∧
      normalizePayload kind (obj [(kind.pluralKey, arr (xs ++ ys) [])])
        = some (.collection cxy, pxy) ∧
      cx.records = nx.map (fun n => n.record) ∧
      cx.counterGroups = (nx.map (fun n => n.counterGroups)).flatten ∧
      cx.counters = (nx.map (fun n => n.counters)).flatten ∧
      cy.records = ny.map (fun n => n.record) ∧
      cy.counterGroups = (ny.map (fun n => n.counterGroups)).flatten ∧
      cy.counters = (ny.map (fun n => n.counters)).flatten ∧
      cxy.records = cx.records ++ cy.records ∧
      cxy.counterGroups = cx.counterGroups ++ cy.counterGroups ∧
      cxy.counters = cx.counters ++ cy.counters := by
  obtain ⟨a, ha⟩ := normalizeAll_of_all kind hx
  obtain ⟨b, hb⟩ := normalizeAll_of_all kind hy
  have hab : normalizeAll kind (xs ++ ys) = some (a ++ b) := by
    rw [normalizeAll_append, ha, hb]
  have hget : ∀ l : List Json,
      getProp (obj [(kind.pluralKey, arr l [])]) kind.pluralKey = some (arr l []) := by
    intro l
    simp [getProp, lookup, List.lookup]
  have run : ∀ (l : List Json) (ns : List NormalizedEntity), normalizeAll kind l = some ns →
      normalizePayload kind (obj [(kind.pluralKey, arr l [])]) =
        some (.collection ⟨ns.map (fun n => n.record),
          (ns.map (fun n => n.counterGroups)).flatten,
          (ns.map (fun n => n.counters)).flatten⟩,
          deleteProp (obj [(kind.pluralKey, arr l [])]) kind.pluralKey) := by
    intro l ns hns
    rw [normalizePayload_of_plural (hget l), hns]
    rfl
  refine ⟨a, b, _, _, _, _, _, _, normalizeAll_forall₂ ha, normalizeAll_forall₂ hb,
    run xs a ha, run ys b hb, run (xs ++ ys) (a ++ b) hab, rfl, rfl, rfl, rfl, rfl, rfl,
    ?_, ?_, ?_⟩
  · simp
  · simp
  · simp

/-- C10 at `xs = [sampleDag, sampleDagTwo]` and `ys = [sampleVertex]`. -/
theorem normalizePayload_append_witness :
    ∃ nx ny cx cy cxy px py pxy,
      List.Forall₂ (fun e n => normalizeSingleEntityPayload .dag e = some n)
        [sampleDag, sampleDagTwo] nx ∧
      List.Forall₂ (fun e n => normalizeSingleEntityPayload .dag e = some n)
        [sampleVertex] ny ∧
      normalizePayload .dag (obj [("dags", arr [sampleDag, sampleDagTwo] [])])
        = some (.collection cx, px) ∧
      normalizePayload .dag (obj [("dags", arr [sampleVertex] [])])
        = some (.collection cy, py) ∧
      normalizePayload .dag
          (obj [("dags", arr ([sampleDag, sampleDagTwo] ++ [sampleVertex]) [])])
        = some (.collection cxy, pxy) ∧
      cx.records = nx.map (fun n => n.record) ∧
      cx.counterGroups = (nx.map (fun n => n.counterGroups)).flatten ∧
      cx.counters = (nx.map (fun n => n.counters)).flatten ∧
      cy.records = ny.map (fun n => n.record) ∧
      cy.counterGroups = (ny.map (fun n => n.counterGroups)).flatten ∧
      cy.counters = (ny.map (fun n => n.counters)).flatten ∧
      cxy.records = cx.records ++ cy.records ∧
      cxy.counterGroups = cx.counterGroups ++ cy.counterGroups ∧
      cxy.counters = cx.counters ++ cy.counters :=
  normalizePayload_append .dag [sampleDag, sampleDagTwo] [sampleVertex] rfl rfl

end SerializerClaims

/-! ## Payload shapes and failing entities -/

section PayloadLemmas

theorem getProp_of_not_hasOwnProp {k : String} (hk : namedKey k = true) {p : Json}
    (h : hasOwnProp p k = false) : getProp p k = none ∨ getProp p k = some undefined := by
  have h1 : k ≠ "length" := by
    intro h; subst h; revert hk; decide
  have h2 : arrayIndex? k = none := by
    simp only [namedKey, Bool.and_eq_true, Option.isNone_iff_eq_none] at hk
    exact hk.2
  have hl : ∀ ps : List (String × Json), hasKey k ps = false → lookup k ps = undefined := by
    intro ps hps
    induction ps with
    | nil => rfl
    | cons q ps ih =>
      obtain ⟨a, b⟩ := q
      simp only [hasKey, List.any_cons, Bool.or_eq_false_iff] at hps
      have hne : (k == a) = false := by
        have : a ≠ k := by simpa using hps.1
        simpa using fun e => this e.symm
      have := ih (by simpa [hasKey] using hps.2)
      simp only [lookup] at this
      simp [lookup, List.lookup, hne, this]
  cases p with
  | undefined => left; rfl
  | null => left; rfl
  | bool b => right; rfl
  | num n => right; rfl
  | str s => right; simp [getProp, h1, h2]
  | arr items ps =>
    right
    simp only [hasOwnProp, h2, Bool.or_eq_false_iff] at h
    simp [getProp, h1, h2, hl ps h.2]
  | obj ps =>
    right
    simp only [hasOwnProp] at h
    simp [getProp, hl ps h]

theorem normalizeSingleEntityPayload_undefined (kind : EntityKind) :
    normalizeSingleEntityPayload kind undefined = none := rfl

theorem normalizeAll_none_of_mem {kind : EntityKind} {es : List Json} {e : Json}
    (he : e ∈ es) (h : normalizeSingleEntityPayload kind e = none) :
    normalizeAll kind es = none := by
  induction es with
  | nil => simp at he
  | cons x xs ih =>
    rcases List.mem_cons.mp he with e1 | e1
    · subst e1
      simp [normalizeAll, h]
    · simp only [normalizeAll, ih e1]
      cases normalizeSingleEntityPayload kind x <;> rfl

end PayloadLemmas

section PayloadClaims

/-- C11 fails in the older generation: its `VertexSerializer.normalizePayload` runs
`delete rawPayload.vertex`, so the raw payload still holds the `vertices` array after the
call, where the newer `VertexSerializer` leaves none; and `TezAppSerializer.normalizePayload`
deletes nothing, the payload it returns on keeps `tezApps`. -/
theorem normalizePayload_keeps_collection :
    (∃ c rawPayload',
      Older.VertexSerializer.normalizePayload (obj [("vertices", arr [sampleVertex] [])])
        = some (.collection c, rawPayload') ∧
      hasOwnProp rawPayload' "vertices" = true ∧
      getProp rawPayload' "vertices" = some (arr [recordOf sampleVertex []] [])) ∧
    (∃ c rawPayload',
      VertexSerializer.normalizePayload (obj [("vertices", arr [sampleVertex] [])])
        = some (.collection c, rawPayload') ∧
      hasOwnProp rawPayload' "vertices" = false) ∧
    (∃ c rawPayload',
      TezAppSerializer.normalizePayload (obj [("tezApps", arr [] [])])
        = some (.collection c, rawPayload') ∧
      hasOwnProp rawPayload' "tezApps" = true) :=
  ⟨⟨_, _, rfl, rfl, rfl⟩, ⟨_, _, rfl, rfl⟩, ⟨_, _, rfl, rfl⟩⟩

/-- C12, as stated, fails at a batch of two task attempts of which the second has no
`otherinfo`: the first one normalizes on its own, but `normalizePayload` throws and
returns nothing. -/
theorem normalizePayload_abort_counterexample :
    (TaskAttemptSerializer._normalizeSingleTaskAttemptPayload sampleAttempt).isSome = true ∧
    TaskAttemptSerializer._normalizeSingleTaskAttemptPayload sampleAttemptBroken = none ∧
    TaskAttemptSerializer.normalizePayload
      (obj [("taskAttempts", arr [sampleAttempt, sampleAttemptBroken] [])]) = none :=
  ⟨rfl, rfl, rfl⟩

/-- C12, amended.  When one raw entity of a collection payload makes its single-entity
normalizer throw, `normalizePayload` throws as a whole: it returns no record, no counter
group and no counter, of any sibling. -/
theorem normalizePayload_abort (kind : EntityKind) (rawPayload plural : Json)
    (items : List Json) (e : Json)
    (hp : getProp rawPayload kind.pluralKey = some plural)
    (ht : plural.truthy = true)
    (hi : plural.elems? "forEach" = some items)
    (he : e ∈ items)
    (hfail : normalizeSingleEntityPayload kind e = none) :
    normalizePayload kind rawPayload = none := by
  simp only [normalizePayload, hp, Option.bind_eq_bind, Option.some_bind, ht, if_true, hi,
    forEachEntity_eq, normalizeAll_none_of_mem he hfail, Option.map_none', Option.none_bind]

/-- C12, amended, at the batch of `sampleAttempt` and `sampleAttemptBroken`. -/
theorem normalizePayload_abort_witness :
    normalizePayload .taskAttempt
      (obj [("taskAttempts", arr [sampleAttempt, sampleAttemptBroken] [])]) = none :=
  normalizePayload_abort .taskAttempt
    (obj [("taskAttempts", arr [sampleAttempt, sampleAttemptBroken] [])])
    (arr [sampleAttempt, sampleAttemptBroken] []) [sampleAttempt, sampleAttemptBroken]
    sampleAttemptBroken rfl rfl rfl (List.mem_cons_of_mem _ (List.mem_cons_self _ _)) rfl

/-- C13.  On a raw payload that has neither the plural key nor the singular key of the
serializer's kind, `normalizePayload` throws: it returns no normalized result.  This holds
for the Dag, TaskAttempt, Task and Vertex serializers and for `TezAppSerializer`. -/
theorem normalizePayload_shape_mismatch :
    (∀ (kind : EntityKind) (rawPayload : Json),
      hasOwnProp rawPayload kind.pluralKey = false →
      hasOwnProp rawPayload kind.typeKey = false →
      normalizePayload kind rawPayload = none) ∧
    (∀ rawPayload : Json,
      hasOwnProp rawPayload "tezApps" = false →
      hasOwnProp rawPayload "tezApp" = false →
      TezAppSerializer.normalizePayload rawPayload = none) := by
  constructor
  · intro kind rawPayload h1 h2
    rcases getProp_of_not_hasOwnProp (namedKey_pluralKey kind) h1 with e1 | e1
    · simp [normalizePayload, e1]
    · rcases getProp_of_not_hasOwnProp (namedKey_typeKey kind) h2 with e2 | e2
      · simp [normalizePayload, e1, e2, truthy]
      · simp [normalizePayload, e1, e2, truthy, normalizeSingleEntityPayload_undefined]
  · intro rawPayload h1 h2
    rcases getProp_of_not_hasOwnProp (by decide : namedKey "tezApps" = true) h1 with e1 | e1
    · simp [TezAppSerializer.normalizePayload, e1]
    · rcases getProp_of_not_hasOwnProp (by decide : namedKey "tezApp" = true) h2 with e2 | e2
      · simp [TezAppSerializer.normalizePayload, e1, e2, truthy]
      · have hu : TezAppSerializer._normalizeSinglePayload undefined = none := rfl
        simp [TezAppSerializer.normalizePayload, e1, e2, truthy, hu]

/-- C13 at the server envelope `{entities: []}`, which holds none of the keys. -/
theorem normalizePayload_shape_mismatch_witness :
    normalizePayload .dag (obj [("entities", arr [] [])]) = none ∧
    TezAppSerializer.normalizePayload (obj [("entities", arr [] [])]) = none :=
  ⟨normalizePayload_shape_mismatch.1 .dag (obj [("entities", arr [] [])]) rfl rfl,
    normalizePayload_shape_mismatch.2 (obj [("entities", arr [] [])]) rfl rfl⟩

end PayloadClaims

/-! ## `TezAppSerializer` -/

section Utf16

theorem utf16Length_cons (c : Char) (cs : List Char) :
    utf16Length (c :: cs) = utf16Size c + utf16Length cs := by
  simp [utf16Length]

theorem cutsPair_basic {c : Char} (hc : c.toNat < 65536) (n : Nat) (cs : List Char) :
    cutsPair (n + 1) (c :: cs) = cutsPair n cs := by
  rw [cutsPair.eq_def]
  simp [hc]

theorem cutsPair_pair {c : Char} (hc : ¬ c.toNat < 65536) (n : Nat) (cs : List Char) :
    cutsPair (n + 2) (c :: cs) = cutsPair n cs := by
  rw [cutsPair.eq_def]
  simp [hc]

theorem cutsPair_half {c : Char} (hc : ¬ c.toNat < 65536) (cs : List Char) :
    cutsPair 1 (c :: cs) = true := by
  rw [cutsPair.eq_def]
  simp [hc]

theorem dropUnits_basic {c : Char} (hc : c.toNat < 65536) (n : Nat) (cs : List Char) :
    dropUnits (n + 1) (c :: cs) = dropUnits n cs := by
  rw [dropUnits.eq_def]
  simp [hc]

theorem dropUnits_pair {c : Char} (hc : ¬ c.toNat < 65536) (n : Nat) (cs : List Char) :
    dropUnits (n + 2) (c :: cs) = dropUnits n cs := by
  rw [dropUnits.eq_def]
  simp [hc]

theorem dropUnits_suffix : ∀ (n : Nat) (cs : List Char), cutsPair n cs = false →
    ∃ pre, cs = pre ++ dropUnits n cs ∧ utf16Length pre = min n (utf16Length cs)
  | 0, cs, _ => ⟨[], by simp [dropUnits], by simp [utf16Length]⟩
  | n + 1, [], _ => ⟨[], by simp [dropUnits], by simp [utf16Length]⟩
  | n + 1, c :: cs, h => by
    by_cases hc : c.toNat < 65536
    · rw [cutsPair_basic hc] at h
      obtain ⟨pre, e1, e2⟩ := dropUnits_suffix n cs h
      refine ⟨c :: pre, ?_, ?_⟩
      · rw [dropUnits_basic hc, List.cons_append, ← e1]
      · rw [utf16Length_cons, utf16Length_cons, e2]
        simp only [utf16Size, hc, if_true]
        omega
    · cases n with
      | zero =>
        rw [cutsPair_half hc] at h
        cases h
      | succ m =>
        rw [cutsPair_pair hc] at h
        obtain ⟨pre, e1, e2⟩ := dropUnits_suffix m cs h
        refine ⟨c :: pre, ?_, ?_⟩
        · rw [dropUnits_pair hc, List.cons_append, ← e1]
        · rw [utf16Length_cons, utf16Length_cons, e2]
          simp only [utf16Size, hc, if_false]
          omega

theorem dropUnits_of_basic : ∀ (n : Nat) (cs : List Char),
    (∀ c ∈ cs.take n, c.toNat < 65536) →
    dropUnits n cs = cs.drop n ∧ cutsPair n cs = false
  | 0, cs, _ => ⟨by simp [dropUnits], by simp [cutsPair]⟩
  | n + 1, [], _ => ⟨by simp [dropUnits], by simp [cutsPair]⟩
  | n + 1, c :: cs, h => by
    have hc : c.toNat < 65536 := h c (by simp)
    obtain ⟨e1, e2⟩ := dropUnits_of_basic n cs (fun d hd => h d (by simp [hd]))
    exact ⟨by rw [dropUnits_basic hc, e1, List.drop_succ_cons],
      by rw [cutsPair_basic hc, e2]⟩

end Utf16

section TezAppLemmas

theorem forInConfigs_eq (configs : Json) (appId : String) (keys : List String)
    (ids kVData : List Json) :
    forInConfigs configs appId keys ids kVData =
      (ids ++ keys.map (fun key => str (appId ++ key)),
        kVData ++ keys.map (configRecord configs appId)) := by
  induction keys generalizing ids kVData with
  | nil => simp [forInConfigs]
  | cons k ks ih => simp [forInConfigs, ih, configRecord]

theorem dedupKeys_of_nodup {ks : List String} (h : ks.Nodup) : dedupKeys ks = ks := by
  induction ks with
  | nil => rfl
  | cons k ks ih =>
    obtain ⟨h1, h2⟩ := List.nodup_cons.mp h
    simp only [dedupKeys, ih h2]
    congr 1
    rw [List.filter_eq_self]
    intro a ha
    have : a ≠ k := fun e => h1 (e ▸ ha)
    simpa using this

theorem orderedKeys_perm {ps : List (String × Json)} (h : (ps.map Prod.fst).Nodup) :
    (orderedKeys ps).Perm (ps.map Prod.fst) := by
  simp only [orderedKeys, dedupKeys_of_nodup h]
  refine ((List.perm_insertionSort _ _).append_right _).trans ?_
  have := List.filter_append_perm (fun k => (arrayIndex? k).isSome) (ps.map Prod.fst)
  simpa using this

theorem normalizeSinglePayload_app_eq {raw otherinfo configs : Json} {s : String}
    (h1 : getProp raw "entity" = some (str s))
    (h2 : getProp raw "otherinfo" = some otherinfo)
    (h3 : getProp otherinfo "config" = some configs) :
    TezAppSerializer._normalizeSinglePayload raw =
      some ⟨setProp (setProp raw "appId" (str (String.mk (dropUnits 4 s.data)))) "configs"
          (arr ((forInKeys configs).map
            (fun key => str (String.mk (dropUnits 4 s.data) ++ key))) []),
        (forInKeys configs).map (configRecord configs (String.mk (dropUnits 4 s.data)))⟩ := by
  simp only [TezAppSerializer._normalizeSinglePayload, h1, h2, h3, Option.bind_eq_bind,
    Option.some_bind, substr4, forInConfigs_eq, List.nil_append, setProp_setProp]
  rfl

theorem isObject_of_entity {raw : Json} {s : String}
    (h1 : getProp raw "entity" = some (str s)) : raw.isObject = true := by
  obtain ⟨_, e⟩ := getProp_named_some namedKey_entity h1
  apply isObject_of_lookup_ne_undefined "entity"
  rw [e]
  intro hu
  cases hu

theorem append_left_injective (a : String) :
    Function.Injective (fun key : String => some (str (a ++ key))) := by
  intro x y hxy
  simp only [Option.some.injEq, str.injEq] at hxy
  have h := congrArg String.data hxy
  simp only [String.data_append] at h
  exact String.ext (List.append_cancel_left h)

end TezAppLemmas

section TezAppClaims

/-- C14.  For every raw application with a string `entity` id whose `otherinfo.config` is a
map of `n` distinct keys, `_normalizeSinglePayload` returns; it sets `appId` to the id
without its first four characters, which are UTF-16 code units: the id is `pre ++ app` with
`pre` of four units (the whole id when it is shorter) and `appId` is `app`, which is the id
without its first four characters when these are of the basic plane; it emits exactly `n`
Config records, one per key, each with `id = appId + key`, `key = key` and
`value = config[key]`, and sets `configs` to the ids of these records in the same order.
Stated for an id in which the cut after four units does not split a surrogate pair. -/
theorem normalizeSinglePayload_configs (raw otherinfo : Json) (s : String)
    (ps : List (String × Json))
    (h1 : getProp raw "entity" = some (str s))
    (h2 : getProp raw "otherinfo" = some otherinfo)
    (h3 : getProp otherinfo "config" = some (obj ps))
    (hnd : (ps.map Prod.fst).Nodup)
    (hcut : cutsPair 4 s.data = false) :
    ∃ (n : NormalizedApp) (keys : List String) (pre app : List Char),
      TezAppSerializer._normalizeSinglePayload raw = some n ∧
      keys.Perm (ps.map Prod.fst) ∧
      s.data = pre ++ app ∧ utf16Length pre = min 4 (utf16Length s.data) ∧
      ((∀ c ∈ s.data.take 4, c.toNat < 65536) → app = s.data.drop 4) ∧
      getProp n.tezApp "appId" = some (str (String.mk app)) ∧
      n.kVData.length = ps.length ∧
      n.kVData = keys.map (fun key =>
        obj [("id", str (String.mk app ++ key)), ("key", str key),
          ("value", lookup key ps)]) ∧
      getProp n.tezApp "configs" =
        some (arr (keys.map (fun key => str (String.mk app ++ key))) []) ∧
      n.kVData.map (fun r => getProp r "id") =
        keys.map (fun key => some (str (String.mk app ++ key))) := by
  have ho := isObject_of_entity h1
  have hperm := orderedKeys_perm hnd
  obtain ⟨pre, e1, e2⟩ := dropUnits_suffix 4 s.data hcut
  refine ⟨_, orderedKeys ps, pre, dropUnits 4 s.data,
    normalizeSinglePayload_app_eq h1 h2 h3, hperm, e1, e2,
    fun hb => (dropUnits_of_basic 4 s.data hb).1, ?_, ?_, ?_, ?_, ?_⟩
  · rw [getProp_setProp_ne (by decide),
      getProp_setProp_self (by decide : namedKey "appId" = true) ho]
  · simp only [forInKeys, List.length_map]
    simpa using hperm.length_eq
  · rfl
  · rw [getProp_setProp_self (by decide : namedKey "configs" = true)
      (by rw [isObject_setProp]; exact ho)]
    rfl
  · simp only [forInKeys, List.map_map]
    rfl

/-- C14 at `sampleApp`. -/
theorem normalizeSinglePayload_configs_witness :
    ∃ (n : NormalizedApp) (keys : List String) (pre app : List Char),
      TezAppSerializer._normalizeSinglePayload sampleApp = some n ∧
      keys.Perm ["tez.queue", "tez.am.memory"] ∧
      "tez_application_1".data = pre ++ app ∧
      utf16Length pre = min 4 (utf16Length "tez_application_1".data) ∧
      ((∀ c ∈ "tez_application_1".data.take 4, c.toNat < 65536) →
        app = "tez_application_1".data.drop 4) ∧
      getProp n.tezApp "appId" = some (str (String.mk app)) ∧
      n.kVData.length = 2 ∧
      n.kVData = keys.map (fun key =>
        obj [("id", str (String.mk app ++ key)), ("key", str key),
          ("value", lookup key [("tez.queue", str "default"),
            ("tez.am.memory", num 1024)])]) ∧
      getProp n.tezApp "configs" =
        some (arr (keys.map (fun key => str (String.mk app ++ key))) []) ∧
      n.kVData.map (fun r => getProp r "id") =
        keys.map (fun key => some (str (String.mk app ++ key))) :=
  normalizeSinglePayload_configs sampleApp
    (obj [("config", obj [("tez.queue", str "default"), ("tez.am.memory", num 1024)])])
    "tez_application_1" [("tez.queue", str "default"), ("tez.am.memory", num 1024)]
    rfl rfl rfl (by decide) (by decide)

/-- C15 fails on every non-empty collection: the `forEach` callback of
`TezAppSerializer.normalizePayload` is passed no `thisArg`, so that
`this._normalizeSinglePayload` is not the serializer's method and the call throws on the
first application, although `_normalizeSinglePayload` itself returns on it. -/
theorem normalizePayload_apps_throws :
    (TezAppSerializer._normalizeSinglePayload sampleApp).isSome = true ∧
    TezAppSerializer.normalizePayload (obj [("tezApps", arr [sampleApp] [])]) = none ∧
    ∀ (rawPayload app : Json) (rest : List Json),
      getProp rawPayload "tezApps" = some (arr (app :: rest) []) →
      TezAppSerializer.normalizePayload rawPayload = none := by
  refine ⟨rfl, rfl, ?_⟩
  intro rawPayload app rest h
  have hthis : ∀ acc, TezAppSerializer.forEachApp (app :: rest) acc = none := fun _ => rfl
  simp [TezAppSerializer.normalizePayload, h, truthy, elems?, hasKey, hthis]

/-- C16, as stated, fails at `sampleAppNoPrefix`, whose id `application_1` does not begin
with `tez_`: normalization returns, with the `appId` `ication_1`. -/
theorem normalizeSinglePayload_prefix_counterexample :
    ∃ n, TezAppSerializer._normalizeSinglePayload sampleAppNoPrefix = some n ∧
      getProp n.tezApp "appId" = some (str "ication_1") :=
  ⟨_, rfl, rfl⟩

/-- C16, amended.  `TezAppSerializer` does not look at the prefix: for every raw application
with a string `entity` id and an `otherinfo`, whatever the id begins with,
`_normalizeSinglePayload` returns, and `appId` is the id without its first four characters,
which are UTF-16 code units: the id is `pre ++ app` with `pre` of four units (the whole id
when it is shorter) and `appId` is `app`; the value of `appId` is stated for an id in which
the cut after four units does not split a surrogate pair. -/
theorem normalizeSinglePayload_prefix (raw otherinfo configs : Json) (s : String)
    (h1 : getProp raw "entity" = some (str s))
    (h2 : getProp raw "otherinfo" = some otherinfo)
    (h3 : getProp otherinfo "config" = some configs) :
    ∃ n, TezAppSerializer._normalizeSinglePayload raw = some n ∧
      (cutsPair 4 s.data = false → ∃ pre app : List Char,
        s.data = pre ++ app ∧ utf16Length pre = min 4 (utf16Length s.data) ∧
        ((∀ c ∈ s.data.take 4, c.toNat < 65536) → app = s.data.drop 4) ∧
        getProp n.tezApp "appId" = some (str (String.mk app))) := by
  have ho := isObject_of_entity h1
  refine ⟨_, normalizeSinglePayload_app_eq h1 h2 h3, ?_⟩
  intro hcut
  obtain ⟨pre, e1, e2⟩ := dropUnits_suffix 4 s.data hcut
  refine ⟨pre, dropUnits 4 s.data, e1, e2,
    fun hb => (dropUnits_of_basic 4 s.data hb).1, ?_⟩
  rw [getProp_setProp_ne (by decide),
    getProp_setProp_self (by decide : namedKey "appId" = true) ho]

/-- C16, amended, at `sampleAppNoPrefix`. -/
theorem normalizeSinglePayload_prefix_witness :
    ∃ n, TezAppSerializer._normalizeSinglePayload sampleAppNoPrefix = some n ∧
      (cutsPair 4 "application_1".data = false → ∃ pre app : List Char,
        "application_1".data = pre ++ app ∧
        utf16Length pre = min 4 (utf16Length "application_1".data) ∧
        ((∀ c ∈ "application_1".data.take 4, c.toNat < 65536) →
          app = "application_1".data.drop 4) ∧
        getProp n.tezApp "appId" = some (str (String.mk app))) :=
  normalizeSinglePayload_prefix sampleAppNoPrefix (obj [("config", obj [])]) (obj [])
    "application_1" rfl rfl rfl

/-- C20, as stated, fails: the application `tez_1` with the key `23` and the application
`tez_12` with the key `3` both get the Config id `123`. -/
theorem configId_collision_counterexample :
    ∃ n1 n2, TezAppSerializer._normalizeSinglePayload sampleAppCollision1 = some n1 ∧
      TezAppSerializer._normalizeSinglePayload sampleAppCollision2 = some n2 ∧
      getProp n1.tezApp "appId" = some (str "1") ∧
      getProp n2.tezApp "appId" = some (str "12") ∧
      n1.kVData.map (fun r => getProp r "key") = [some (str "23")] ∧
      n2.kVData.map (fun r => getProp r "key") = [some (str "3")] ∧
      n1.kVData.map (fun r => getProp r "id") = [some (str "123")] ∧
      n2.kVData.map (fun r => getProp r "id") = [some (str "123")] :=
  ⟨_, _, rfl, rfl, rfl, rfl, rfl, rfl, rfl, rfl⟩

/-- C20, amended.  Config ids are unique within one application: for every raw
application whose `otherinfo.config` is a map of distinct keys, no two of the Config
records `_normalizeSinglePayload` emits share an id. -/
theorem configId_nodup (raw otherinfo : Json) (s : String) (ps : List (String × Json))
    (h1 : getProp raw "entity" = some (str s))
    (h2 : getProp raw "otherinfo" = some otherinfo)
    (h3 : getProp otherinfo "config" = some (obj ps))
    (hnd : (ps.map Prod.fst).Nodup) :
    ∃ n, TezAppSerializer._normalizeSinglePayload raw = some n ∧
      (n.kVData.map (fun r => getProp r "id")).Nodup := by
  refine ⟨_, normalizeSinglePayload_app_eq h1 h2 h3, ?_⟩
  have hk : (orderedKeys ps).Nodup := (orderedKeys_perm hnd).nodup_iff.mpr hnd
  have he : ((forInKeys (obj ps)).map
      (configRecord (obj ps) (String.mk (dropUnits 4 s.data)))).map (fun r => getProp r "id") =
      (orderedKeys ps).map (fun key => some (str (String.mk (dropUnits 4 s.data) ++ key))) := by
    simp only [forInKeys, List.map_map]
    rfl
  rw [he]
  exact hk.map (append_left_injective _)

/-- C20, amended, at `sampleApp`. -/
theorem configId_nodup_witness :
    ∃ n, TezAppSerializer._normalizeSinglePayload sampleApp = some n ∧
      (n.kVData.map (fun r => getProp r "id")).Nodup :=
  configId_nodup sampleApp
    (obj [("config", obj [("tez.queue", str "default"), ("tez.am.memory", num 1024)])])
    "tez_application_1" [("tez.queue", str "default"), ("tez.am.memory", num 1024)]
    rfl rfl rfl (by decide)

end TezAppClaims

/-! ## The backtracking matchers -/

section RegexLemmas

theorem stripLit_eq_some {cs input r : List Char} :
    stripLit cs input = some r ↔ input = cs ++ r := by
  induction cs generalizing input with
  | nil => simp [stripLit, eq_comm]
  | cons c cs ih =>
    cases input with
    | nil => simp [stripLit]
    | cons d input =>
      by_cases h : c = d
      · subst h
        simp [stripLit, ih]
      · have h2 : ¬ d = c := fun e => h e.symm
        simp [stripLit, h, h2]

theorem take_length_sub (u v : List Char) :
    (u ++ v).take ((u ++ v).length - v.length) = u := by
  simp

theorem starGreedy_some_inv {cls : CharClass} {k : List Char → Option MatchState}
    {s : List Char} {r : MatchState} (h : starGreedy cls k s = some r) :
    ∃ a b, s = a ++ b ∧ (∀ ch ∈ a, cls.test ch = true) ∧ k b = some r := by
  induction s with
  | nil => exact ⟨[], [], rfl, by simp, by simpa [starGreedy] using h⟩
  | cons c cs ih =>
    simp only [starGreedy] at h
    by_cases ht : cls.test c = true
    · simp only [ht, if_true] at h
      cases hg : starGreedy cls k cs with
      | some r2 =>
        simp only [hg, Option.some.injEq] at h
        subst h
        obtain ⟨a, b, e, ha, hb⟩ := ih hg
        refine ⟨c :: a, b, by simp [e], ?_, hb⟩
        intro ch hch
        rcases List.mem_cons.mp hch with e1 | e1
        · rw [e1]; exact ht
        · exact ha ch e1
      | none =>
        simp only [hg] at h
        exact ⟨[], c :: cs, rfl, by simp, h⟩
    · simp only [ht, Bool.false_eq_true, if_false] at h
      exact ⟨[], c :: cs, rfl, by simp, h⟩

theorem starGreedy_isSome_of_split {cls : CharClass} {k : List Char → Option MatchState}
    (a b : List Char) (ha : ∀ ch ∈ a, cls.test ch = true) (hb : (k b).isSome = true) :
    (starGreedy cls k (a ++ b)).isSome = true := by
  induction a with
  | nil =>
    cases b with
    | nil => simpa [starGreedy] using hb
    | cons c cs =>
      simp only [List.nil_append, starGreedy]
      by_cases ht : cls.test c = true
      · simp only [ht, if_true]
        cases starGreedy cls k cs with
        | some r => rfl
        | none => exact hb
      · simp only [ht, Bool.false_eq_true, if_false]
        exact hb
  | cons c a ih =>
    have ht : cls.test c = true := ha c (List.mem_cons_self _ _)
    have := ih (fun ch hch => ha ch (List.mem_cons_of_mem _ hch))
    simp only [List.cons_append, starGreedy, ht, if_true]
    cases hg : starGreedy cls k (a ++ b) with
    | some r => rfl
    | none => simp [hg] at this

theorem starGreedy_eq_of_suffixes_fail {cls : CharClass}
    {k : List Char → Option MatchState} {b : List Char}
    (h : ∀ d b2, d ≠ [] → b = d ++ b2 → k b2 = none) : starGreedy cls k b = k b := by
  induction b with
  | nil => rfl
  | cons c cs ih =>
    have hcs : starGreedy cls k cs = k cs :=
      ih (fun d b2 hd e => h (c :: d) b2 (by simp) (by simp [e]))
    have hnone : k cs = none := h [c] cs (by simp) rfl
    simp only [starGreedy, hcs, hnone]
    split <;> rfl

theorem starGreedy_last {cls : CharClass} {k : List Char → Option MatchState}
    (a b : List Char) {r : MatchState} (ha : ∀ ch ∈ a, cls.test ch = true)
    (hb : k b = some r) (h : ∀ d b2, d ≠ [] → b = d ++ b2 → k b2 = none) :
    starGreedy cls k (a ++ b) = some r := by
  induction a with
  | nil => simpa [starGreedy_eq_of_suffixes_fail h] using hb
  | cons c a ih =>
    have ht : cls.test c = true := ha c (List.mem_cons_self _ _)
    have := ih (fun ch hch => ha ch (List.mem_cons_of_mem _ hch))
    simp only [List.cons_append, starGreedy, ht, if_true, List.append_eq, this]

theorem starGreedy_stop {cls : CharClass} {k : List Char → Option MatchState}
    (a : List Char) (c : Char) (cs : List Char) {r : MatchState}
    (ha : ∀ ch ∈ a, cls.test ch = true) (hc : cls.test c = false)
    (hb : k (c :: cs) = some r) : starGreedy cls k (a ++ c :: cs) = some r := by
  induction a with
  | nil => simp [starGreedy, hc, hb]
  | cons d a ih =>
    have ht : cls.test d = true := ha d (List.mem_cons_self _ _)
    have := ih (fun ch hch => ha ch (List.mem_cons_of_mem _ hch))
    simp only [List.cons_append, starGreedy, ht, if_true, List.append_eq, this]

theorem starGreedy_some_total (cls : CharClass) (f : List Char → MatchState)
    (s : List Char) : ∃ r, starGreedy cls (fun rest => some (f rest)) s = some (f r) := by
  induction s with
  | nil => exact ⟨[], rfl⟩
  | cons c cs ih =>
    obtain ⟨r, hr⟩ := ih
    simp only [starGreedy, hr]
    split
    · exact ⟨r, rfl⟩
    · exact ⟨c :: cs, rfl⟩

theorem starLazy_some_inv {cls : CharClass} {k : List Char → Option MatchState}
    {s : List Char} {r : MatchState} (h : starLazy cls k s = some r) :
    ∃ a b, s = a ++ b ∧ (∀ ch ∈ a, cls.test ch = true) ∧ k b = some r ∧
      ∀ a1 a2, a = a1 ++ a2 → a2 ≠ [] → k (a2 ++ b) = none := by
  induction s with
  | nil =>
    refine ⟨[], [], rfl, by simp, by simpa [starLazy] using h, ?_⟩
    intro a1 a2 e hne
    have := List.append_eq_nil.mp e.symm
    exact absurd this.2 hne
  | cons c cs ih =>
    simp only [starLazy] at h
    cases hk : k (c :: cs) with
    | some r2 =>
      simp only [hk, Option.some.injEq] at h
      subst h
      refine ⟨[], c :: cs, rfl, by simp, hk, ?_⟩
      intro a1 a2 e hne
      have := List.append_eq_nil.mp e.symm
      exact absurd this.2 hne
    | none =>
      simp only [hk] at h
      by_cases ht : cls.test c = true
      · simp only [ht, if_true] at h
        obtain ⟨a, b, e, ha, hb, hmin⟩ := ih h
        refine ⟨c :: a, b, by simp [e], ?_, hb, ?_⟩
        · intro ch hch
          rcases List.mem_cons.mp hch with e1 | e1
          · rw [e1]; exact ht
          · exact ha ch e1
        · intro a1 a2 e2 hne
          cases a1 with
          | nil =>
            simp only [List.nil_append] at e2
            rw [← e2, List.cons_append, ← e]
            exact hk
          | cons d a1 =>
            simp only [List.cons_append, List.cons.injEq] at e2
            exact hmin a1 a2 e2.2 hne
      · simp [ht] at h

theorem starLazy_isSome_of_split {cls : CharClass} {k : List Char → Option MatchState}
    (a b : List Char) (ha : ∀ ch ∈ a, cls.test ch = true) (hb : (k b).isSome = true) :
    (starLazy cls k (a ++ b)).isSome = true := by
  induction a with
  | nil =>
    cases b with
    | nil => simpa [starLazy] using hb
    | cons c cs =>
      simp only [List.nil_append, starLazy]
      cases hk : k (c :: cs) with
      | some r => rfl
      | none => simp [hk] at hb
  | cons c a ih =>
    have ht : cls.test c = true := ha c (List.mem_cons_self _ _)
    have := ih (fun ch hch => ha ch (List.mem_cons_of_mem _ hch))
    simp only [List.cons_append, starLazy, ht, if_true]
    cases k (c :: (a ++ b)) with
    | some r => rfl
    | none => exact this

theorem execFrom_some_inv {atoms : List Atom} {s : List Char} {r : MatchState}
    (h : execFrom atoms s = some r) :
    ∃ p t, s = p ++ t ∧ matchAtoms atoms some ⟨t, [], none⟩ = some r := by
  induction s with
  | nil => exact ⟨[], [], rfl, by simpa [execFrom] using h⟩
  | cons c cs ih =>
    simp only [execFrom] at h
    cases hm : matchAtoms atoms some ⟨c :: cs, [], none⟩ with
    | some r2 =>
      simp only [hm, Option.some.injEq] at h
      subst h
      exact ⟨[], c :: cs, rfl, hm⟩
    | none =>
      simp only [hm] at h
      obtain ⟨p, t, e, ht⟩ := ih h
      exact ⟨c :: p, t, by simp [e], ht⟩

theorem execFrom_isSome_of_suffix {atoms : List Atom} (p t : List Char)
    (h : (matchAtoms atoms some ⟨t, [], none⟩).isSome = true) :
    (execFrom atoms (p ++ t)).isSome = true := by
  induction p with
  | nil =>
    cases t with
    | nil => simpa [execFrom] using h
    | cons c cs =>
      simp only [List.nil_append, execFrom]
      cases hm : matchAtoms atoms some ⟨c :: cs, [], none⟩ with
      | some r => rfl
      | none => simp [hm] at h
  | cons c p ih =>
    simp only [List.cons_append, execFrom]
    cases matchAtoms atoms some ⟨c :: (p ++ t), [], none⟩ with
    | some r => rfl
    | none => exact ih

theorem execFrom_head {atoms : List Atom} {s : List Char} {r : MatchState}
    (h : matchAtoms atoms some ⟨s, [], none⟩ = some r) : execFrom atoms s = some r := by
  cases s with
  | nil => simpa [execFrom] using h
  | cons c cs => simp [execFrom, h]

end RegexLemmas

/-! ## The pattern `/.*(container_.*?)\/.*/` -/

section ContainerRegex

theorem containerTail_slash (st : MatchState) (y : List Char) (h : st.rest = '/' :: y) :
    ∃ r, matchAtoms containerTail some st =
      some ⟨r, st.groupStart,
        some (st.groupStart.take (st.groupStart.length - (y.length + 1)))⟩ := by
  obtain ⟨rest, gs, g⟩ := st
  simp only at h
  subst h
  simp only [containerTail, matchAtoms, matchAtom, stripLit, if_true, List.length_cons]
  exact starGreedy_some_total .dot
    (fun rest => ⟨rest, gs, some (gs.take (gs.length - (y.length + 1)))⟩) y

theorem containerTail_some_inv {st st2 : MatchState}
    (h : matchAtoms containerTail some st = some st2) :
    ∃ y, st.rest = '/' :: y ∧
      st2.group = some (st.groupStart.take (st.groupStart.length - (y.length + 1))) := by
  obtain ⟨rest, gs, g⟩ := st
  cases rest with
  | nil => simp [containerTail, matchAtoms, matchAtom, stripLit] at h
  | cons c y =>
    by_cases hc : '/' = c
    · subst hc
      obtain ⟨r, hr⟩ := containerTail_slash ⟨'/' :: y, gs, g⟩ y rfl
      rw [hr] at h
      simp only [Option.some.injEq] at h
      subst h
      exact ⟨y, rfl, rfl⟩
    · simp [containerTail, matchAtoms, matchAtom, stripLit, hc] at h

theorem containerLazy_eq (st : MatchState) :
    matchAtoms containerLazy some st =
      starLazy .dot (fun rest => matchAtoms containerTail some { st with rest := rest })
        st.rest := rfl

theorem containerLazy_isSome (st : MatchState) (x y : List Char)
    (h : st.rest = x ++ '/' :: y) (hx : ∀ ch ∈ x, CharClass.dot.test ch = true) :
    (matchAtoms containerLazy some st).isSome = true := by
  rw [containerLazy_eq, h]
  apply starLazy_isSome_of_split x ('/' :: y) hx
  obtain ⟨r, hr⟩ := containerTail_slash { st with rest := '/' :: y } y rfl
  rw [hr]
  rfl

theorem containerLazy_some_inv {st st2 : MatchState}
    (h : matchAtoms containerLazy some st = some st2) :
    ∃ x y, st.rest = x ++ '/' :: y ∧ (∀ ch ∈ x, CharClass.dot.test ch = true) ∧ '/' ∉ x ∧
      st2.group = some (st.groupStart.take (st.groupStart.length - (y.length + 1))) := by
  rw [containerLazy_eq] at h
  obtain ⟨a, b, e, ha, hb, hmin⟩ := starLazy_some_inv h
  obtain ⟨y, hy, hg⟩ := containerTail_some_inv hb
  simp only at hy hg
  subst hy
  refine ⟨a, y, e, ha, ?_, hg⟩
  intro hmem
  obtain ⟨a1, a2, e2⟩ := List.append_of_mem hmem
  have hnone := hmin a1 ('/' :: a2) e2 (by simp)
  obtain ⟨r, hr⟩ := containerTail_slash { st with rest := '/' :: a2 ++ '/' :: y }
    (a2 ++ '/' :: y) rfl
  simp only [List.cons_append] at hnone hr
  rw [hr] at hnone
  cases hnone

theorem containerGroup_eq (st : MatchState) :
    matchAtoms containerGroup some st =
      match stripLit "container_".data st.rest with
      | some rest => matchAtoms containerLazy some ⟨rest, st.rest, st.group⟩
      | none => none := rfl

theorem containerGroup_isSome (st : MatchState) (x y : List Char)
    (h : st.rest = "container_".data ++ x ++ '/' :: y)
    (hx : ∀ ch ∈ x, CharClass.dot.test ch = true) :
    (matchAtoms containerGroup some st).isSome = true := by
  have hs : stripLit "container_".data st.rest = some (x ++ '/' :: y) := by
    rw [stripLit_eq_some, h, List.append_assoc]
  rw [containerGroup_eq, hs]
  exact containerLazy_isSome _ x y rfl hx

theorem containerGroup_some_inv {st st2 : MatchState}
    (h : matchAtoms containerGroup some st = some st2) :
    ∃ x y, st.rest = "container_".data ++ x ++ '/' :: y ∧
      (∀ ch ∈ x, CharClass.dot.test ch = true) ∧ '/' ∉ x ∧
      st2.group = some ("container_".data ++ x) := by
  rw [containerGroup_eq] at h
  cases hs : stripLit "container_".data st.rest with
  | none => simp [hs] at h
  | some rest =>
    simp only [hs] at h
    obtain ⟨x, y, e, hx, hno, hg⟩ := containerLazy_some_inv h
    simp only at e hg
    have hr := stripLit_eq_some.mp hs
    subst e
    refine ⟨x, y, by rw [hr, List.append_assoc], hx, hno, ?_⟩
    rw [hg, hr]
    have := take_length_sub ("container_".data ++ x) ('/' :: y)
    simpa [List.append_assoc] using this

theorem containerIdRegex_eq (st : MatchState) :
    matchAtoms containerIdRegex some st =
      starGreedy .dot (fun rest => matchAtoms containerGroup some { st with rest := rest })
        st.rest := rfl

theorem containerIdRegex_some_inv {st st2 : MatchState}
    (h : matchAtoms containerIdRegex some st = some st2) :
    ∃ a x y, st.rest = a ++ "container_".data ++ x ++ '/' :: y ∧
      (∀ ch ∈ x, CharClass.dot.test ch = true) ∧ '/' ∉ x ∧
      st2.group = some ("container_".data ++ x) := by
  rw [containerIdRegex_eq] at h
  obtain ⟨a, b, e, -, hb⟩ := starGreedy_some_inv h
  obtain ⟨x, y, e2, hx, hno, hg⟩ := containerGroup_some_inv hb
  simp only at e2
  exact ⟨a, x, y, by rw [e, e2]; simp [List.append_assoc], hx, hno, hg⟩

theorem execFrom_containerIdRegex_some {s : List Char} {r : MatchState}
    (h : execFrom containerIdRegex s = some r) :
    ∃ a x y, s = a ++ "container_".data ++ x ++ '/' :: y ∧
      (∀ ch ∈ x, CharClass.dot.test ch = true) ∧ '/' ∉ x ∧
      r.group = some ("container_".data ++ x) := by
  obtain ⟨p, t, e, ht⟩ := execFrom_some_inv h
  obtain ⟨a, x, y, e2, hx, hno, hg⟩ := containerIdRegex_some_inv ht
  simp only at e2
  exact ⟨p ++ a, x, y, by rw [e, e2]; simp [List.append_assoc], hx, hno, hg⟩

theorem execFrom_containerIdRegex_isSome (a x y : List Char)
    (hx : ∀ ch ∈ x, CharClass.dot.test ch = true) :
    (execFrom containerIdRegex (a ++ "container_".data ++ x ++ '/' :: y)).isSome = true := by
  have e : a ++ "container_".data ++ x ++ '/' :: y =
      a ++ ("container_".data ++ x ++ '/' :: y) := by simp [List.append_assoc]
  rw [e]
  apply execFrom_isSome_of_suffix
  rw [containerIdRegex_eq]
  exact starGreedy_isSome_of_split [] _ (by simp)
    (containerGroup_isSome _ x y rfl hx)

end ContainerRegex

/-! ## Occurrences of `container_` and the pattern `/([^\/]*)\//` -/

section Occurrences

theorem first_slash_unique {a y c rest : List Char}
    (h : a ++ '/' :: y = c ++ '/' :: rest) (ha : '/' ∉ a) (hc : '/' ∉ c) :
    a = c ∧ y = rest := by
  induction a generalizing c with
  | nil =>
    cases c with
    | nil => simpa using h
    | cons d c =>
      simp only [List.nil_append, List.cons_append, List.cons.injEq] at h
      exact absurd (h.1 ▸ List.mem_cons_self _ _) hc
  | cons e a ih =>
    cases c with
    | nil =>
      simp only [List.nil_append, List.cons_append, List.cons.injEq] at h
      exact absurd (h.1 ▸ List.mem_cons_self _ _) ha
    | cons d c =>
      simp only [List.cons_append, List.cons.injEq] at h
      obtain ⟨e1, e2⟩ := ih h.2 (fun hm => ha (List.mem_cons_of_mem _ hm))
        (fun hm => hc (List.mem_cons_of_mem _ hm))
      exact ⟨by rw [h.1, e1], e2⟩

theorem container_overlap {u d z : List Char}
    (h : "container_".data ++ u = d ++ "container_".data ++ z) (hd : d ≠ []) :
    ∃ d2, d = "container_".data ++ d2 := by
  have hl : "container_".data = ['c', 'o', 'n', 't', 'a', 'i', 'n', 'e', 'r', '_'] := rfl
  rw [hl] at h ⊢
  rcases d with _ | ⟨c0, _ | ⟨c1, _ | ⟨c2, _ | ⟨c3, _ | ⟨c4, _ | ⟨c5, _ | ⟨c6, _ | ⟨c7,
    _ | ⟨c8, _ | ⟨c9, d2⟩⟩⟩⟩⟩⟩⟩⟩⟩⟩
  · exact absurd rfl hd
  all_goals simp at h
  obtain ⟨h0, h1, h2, h3, h4, h5, h6, h7, h8, h9, -⟩ := h
  subst h0 h1 h2 h3 h4 h5 h6 h7 h8 h9
  exact ⟨d2, rfl⟩

theorem occurrence_of_split {l u v d z : List Char} {sep : Char}
    (h : u ++ sep :: v = d ++ l ++ z) (hs : sep ∉ l) (hl : l ≠ []) :
    l <:+: u ∨ l <:+: v := by
  rw [List.append_assoc] at h
  rcases List.append_eq_append_iff.mp h with ⟨a2, e1, e2⟩ | ⟨c2, e1, e2⟩
  · -- `d = u ++ a2`, `sep :: v = a2 ++ (l ++ z)`
    cases a2 with
    | nil =>
      cases l with
      | nil => exact absurd rfl hl
      | cons l0 l =>
        simp only [List.nil_append, List.cons_append, List.cons.injEq] at e2
        exact absurd (e2.1 ▸ List.mem_cons_self _ _) hs
    | cons a0 a2 =>
      simp only [List.cons_append, List.cons.injEq] at e2
      right
      exact ⟨a2, z, by rw [e2.2]; simp [List.append_assoc]⟩
  · -- `u = d ++ c2`, `l ++ z = c2 ++ sep :: v`
    rcases List.append_eq_append_iff.mp e2 with ⟨a3, f1, f2⟩ | ⟨c3, f1, f2⟩
    · left
      exact ⟨d, a3, by rw [e1, f1]; simp [List.append_assoc]⟩
    · cases c3 with
      | nil =>
        left
        simp only [List.append_nil] at f1
        exact ⟨d, [], by rw [e1, f1]; simp⟩
      | cons c0 c3 =>
        simp only [List.cons_append, List.cons.injEq] at f2
        have : sep ∈ l := by
          rw [f1, ← f2.1]
          simp
        exact absurd this hs

theorem no_inner_occurrence {c rest d z : List Char}
    (h : "container_".data ++ c ++ '/' :: rest = d ++ "container_".data ++ z) (hd : d ≠ []) :
    "container_".data <:+: c ∨ "container_".data <:+: rest := by
  rw [List.append_assoc] at h
  obtain ⟨d2, e⟩ := container_overlap h hd
  subst e
  have h2 : c ++ '/' :: rest = d2 ++ "container_".data ++ z := by
    have := h
    simp only [List.append_assoc] at this
    simpa [List.append_assoc] using List.append_cancel_left this
  exact occurrence_of_split h2 (by decide) (by decide)

theorem nodeIdRegex_eq (st : MatchState) :
    matchAtoms nodeIdRegex some st =
      starGreedy .notSlash (fun rest => matchAtoms nodeTail some ⟨rest, st.rest, st.group⟩)
        st.rest := rfl

theorem execFrom_nodeIdRegex_prefix (n r : List Char) (hn : '/' ∉ n) :
    ∃ st, execFrom nodeIdRegex (n ++ '/' :: r) = some st ∧ st.group = some n := by
  refine ⟨⟨r, n ++ '/' :: r, some n⟩, ?_, rfl⟩
  apply execFrom_head
  rw [nodeIdRegex_eq]
  apply starGreedy_stop n '/' r
  · intro ch hch
    have : ch ≠ '/' := fun e => hn (e ▸ hch)
    simpa [CharClass.test] using this
  · decide
  · have := take_length_sub n ('/' :: r)
    simp only [List.length_cons] at this
    simp only [nodeTail, matchAtoms, matchAtom, stripLit, if_true, List.length_cons, this]

end Occurrences

/-! ## The claims on the log URL extractors -/

section ExtractorLemmas

theorem execGroup1_str (regex : List Atom) (url : String) :
    execGroup1 regex (str url) =
      (execFrom regex url.data).map (fun st =>
        match st.group with
        | some cs => str (String.mk cs)
        | none => undefined) := by
  simp only [execGroup1, toStr, Option.bind_eq_bind, Option.some_bind]
  cases execFrom regex url.data <;> rfl

theorem dot_of_not_lineTerminator {l : List Char}
    (h : ∀ ch ∈ l, isLineTerminator ch = false) : ∀ ch ∈ l, CharClass.dot.test ch = true := by
  intro ch hch
  simp [CharClass.test, h ch hch]

theorem execFrom_containerIdRegex_exact (n c rest : List Char)
    (hn : ∀ ch ∈ n, isLineTerminator ch = false)
    (hc : ∀ ch ∈ c, isLineTerminator ch = false)
    (hcs : '/' ∉ c)
    (hcc : ¬ "container_".data <:+: c) (hrc : ¬ "container_".data <:+: rest) :
    ∃ st, execFrom containerIdRegex
        (n ++ '/' :: "container_".data ++ c ++ '/' :: rest) = some st ∧
      st.group = some ("container_".data ++ c) := by
  have hsome := containerGroup_isSome
    ⟨"container_".data ++ c ++ '/' :: rest, [], none⟩ c rest rfl
    (dot_of_not_lineTerminator hc)
  obtain ⟨st, hst⟩ := Option.isSome_iff_exists.mp hsome
  obtain ⟨x, y, e, -, hno, hg⟩ := containerGroup_some_inv hst
  simp only [List.append_assoc] at e
  obtain ⟨ex, -⟩ := first_slash_unique (List.append_cancel_left e) hcs hno
  subst ex
  have es : n ++ '/' :: "container_".data ++ c ++ '/' :: rest =
      (n ++ ['/']) ++ ("container_".data ++ c ++ '/' :: rest) := by
    simp [List.append_assoc]
  have hdots : ∀ ch ∈ n ++ ['/'], CharClass.dot.test ch = true := by
    intro ch hch
    rcases List.mem_append.mp hch with h1 | h1
    · exact dot_of_not_lineTerminator hn ch h1
    · have : ch = '/' := by simpa using h1
      subst this
      decide
  have hfail : ∀ d b2, d ≠ [] → "container_".data ++ c ++ '/' :: rest = d ++ b2 →
      matchAtoms containerGroup some ⟨b2, [], none⟩ = none := by
    intro d b2 hd eb
    cases hk : matchAtoms containerGroup some ⟨b2, [], none⟩ with
    | none => rfl
    | some st2 =>
      exfalso
      obtain ⟨x2, y2, e2, -, -, -⟩ := containerGroup_some_inv hk
      have e3 : b2 = "container_".data ++ x2 ++ '/' :: y2 := e2
      have hocc : "container_".data ++ c ++ '/' :: rest =
          d ++ "container_".data ++ (x2 ++ '/' :: y2) := by
        rw [eb, e3]
        simp only [List.append_assoc]
      rcases no_inner_occurrence hocc hd with h1 | h1
      · exact hcc h1
      · exact hrc h1
  have key := @starGreedy_last CharClass.dot
    (fun r => matchAtoms containerGroup some ⟨r, [], none⟩) (n ++ ['/'])
    ("container_".data ++ c ++ '/' :: rest) st hdots hst hfail
  have hm : matchAtoms containerIdRegex some
      ⟨n ++ '/' :: "container_".data ++ c ++ '/' :: rest, [], none⟩ = some st := by
    rw [es]
    exact key
  exact ⟨st, execFrom_head hm, hg⟩

end ExtractorLemmas

section ExtractorClaims

/-- C17.  For all strings `n`, `c` and `rest`, where `n` and `c` hold no line terminator
and no `/` and neither `c` nor `rest` contains `container_`, a task attempt whose
`otherinfo.inProgressLogsURL` is `n ++ "/container_" ++ c ++ "/" ++ rest` maps to the
`nodeId` `n` and to the `containerId` `"container_" ++ c`. -/
theorem logsURL_extractors (n c rest : String) (source : Json)
    (hn : ∀ ch ∈ n.data, isLineTerminator ch = false)
    (hc : ∀ ch ∈ c.data, isLineTerminator ch = false)
    (hns : '/' ∉ n.data) (hcs : '/' ∉ c.data)
    (hcc : ¬ "container_".data <:+: c.data) (hrc : ¬ "container_".data <:+: rest.data)
    (hurl : emGet source ["otherinfo", "inProgressLogsURL"] =
      str (n ++ "/container_" ++ c ++ "/" ++ rest)) :
    nodeIdCustom source = some (str n) ∧
      containerIdCustom source = some (str ("container_" ++ c)) := by
  have hdata : (n ++ "/container_" ++ c ++ "/" ++ rest).data =
      n.data ++ '/' :: "container_".data ++ c.data ++ '/' :: rest.data := by
    simp only [String.data_append]
    simp [List.append_assoc]
  constructor
  · have hdata2 : (n ++ "/container_" ++ c ++ "/" ++ rest).data =
        n.data ++ '/' :: ("container_".data ++ c.data ++ '/' :: rest.data) := by
      rw [hdata]
      simp [List.append_assoc]
    obtain ⟨st, hst, hg⟩ := execFrom_nodeIdRegex_prefix n.data
      ("container_".data ++ c.data ++ '/' :: rest.data) hns
    simp only [nodeIdCustom, hurl, execGroup1_str, hdata2, hst, Option.map_some', hg]
  · obtain ⟨st, hst, hg⟩ := execFrom_containerIdRegex_exact n.data c.data rest.data
      hn hc hcs hcc hrc
    simp only [containerIdCustom, hurl, execGroup1_str, hdata, hst, Option.map_some', hg]
    congr 2

/-- C17 at the URL `node123/container_456_01/logs` of the specification. -/
theorem logsURL_extractors_witness :
    nodeIdCustom sampleAttempt = some (str "node123") ∧
      containerIdCustom sampleAttempt = some (str ("container_" ++ "456_01")) :=
  logsURL_extractors "node123" "456_01" "logs" sampleAttempt (by decide) (by decide)
    (by decide) (by decide) (by decide) (by decide) rfl

/-- C18.  On a log URL that is a string, the `containerId` extractor throws if and only if
the URL has no occurrence of `container_` followed, with no line terminator in between, by
a `/`; it throws on every URL without `container_`; and what it returns starts with
`container_` and holds no `/`. -/
theorem containerIdCustom_fails_iff (url : String) (source : Json)
    (hurl : emGet source ["otherinfo", "inProgressLogsURL"] = str url) :
    (containerIdCustom source = none ↔
      ¬ ∃ a x y, url.data = a ++ "container_".data ++ x ++ '/' :: y ∧
        ∀ ch ∈ x, isLineTerminator ch = false) ∧
    (¬ "container_".data <:+: url.data → containerIdCustom source = none) ∧
    (∀ r, containerIdCustom source = some r →
      ∃ x : List Char, r = str (String.mk ("container_".data ++ x)) ∧ '/' ∉ x) := by
  have hiff : containerIdCustom source = none ↔
      ¬ ∃ a x y, url.data = a ++ "container_".data ++ x ++ '/' :: y ∧
        ∀ ch ∈ x, isLineTerminator ch = false := by
    simp only [containerIdCustom, hurl, execGroup1_str, Option.map_eq_none']
    constructor
    · rintro hnone ⟨a, x, y, e, hx⟩
      have := execFrom_containerIdRegex_isSome a x y (dot_of_not_lineTerminator hx)
      rw [← e, hnone] at this
      cases this
    · intro hno
      cases he : execFrom containerIdRegex url.data with
      | none => rfl
      | some st =>
        exfalso
        obtain ⟨a, x, y, e, hx, -, -⟩ := execFrom_containerIdRegex_some he
        refine hno ⟨a, x, y, e, ?_⟩
        intro ch hch
        simpa [CharClass.test] using hx ch hch
  refine ⟨hiff, ?_, ?_⟩
  · intro hno
    rw [hiff]
    rintro ⟨a, x, y, e, -⟩
    exact hno ⟨a, x ++ '/' :: y, by rw [e]; simp [List.append_assoc]⟩
  · intro r hr
    simp only [containerIdCustom, hurl, execGroup1_str] at hr
    cases he : execFrom containerIdRegex url.data with
    | none => simp [he] at hr
    | some st =>
      obtain ⟨a, x, y, -, -, hno, hg⟩ := execFrom_containerIdRegex_some he
      simp only [he, Option.map_some', hg, Option.some.injEq] at hr
      exact ⟨x, hr.symm, hno⟩

/-- C18 at the URL `node123/container_456_01/logs`. -/
theorem containerIdCustom_fails_iff_witness :
    (containerIdCustom sampleAttempt = none ↔
      ¬ ∃ a x y, "node123/container_456_01/logs".data =
          a ++ "container_".data ++ x ++ '/' :: y ∧
        ∀ ch ∈ x, isLineTerminator ch = false) ∧
    (¬ "container_".data <:+: "node123/container_456_01/logs".data →
      containerIdCustom sampleAttempt = none) ∧
    (∀ r, containerIdCustom sampleAttempt = some r →
      ∃ x : List Char, r = str (String.mk ("container_".data ++ x)) ∧ '/' ∉ x) :=
  containerIdCustom_fails_iff "node123/container_456_01/logs" sampleAttempt rfl

/-- C19, as stated, fails at `sampleAttemptNoUrl`: the path resolves to `undefined`, and
both extractors throw. -/
theorem extractors_absent_url_counterexample :
    emGet sampleAttemptNoUrl ["otherinfo", "inProgressLogsURL"] = undefined ∧
    containerIdCustom sampleAttemptNoUrl = none ∧
    nodeIdCustom sampleAttemptNoUrl = none :=
  ⟨rfl, rfl, rfl⟩

/-- C19, amended.  For every raw task attempt without `otherinfo.inProgressLogsURL`, the
path resolves to `undefined`, which `exec` reads as the string `undefined`; it matches
neither pattern, and both the `containerId` and the `nodeId` extractor throw. -/
theorem extractors_absent_url (source : Json)
    (h : emGet source ["otherinfo", "inProgressLogsURL"] = undefined) :
    containerIdCustom source = none ∧ nodeIdCustom source = none := by
  simp only [containerIdCustom, nodeIdCustom, h]
  exact ⟨rfl, rfl⟩

/-- C19, amended, at `sampleAttemptNoUrl`. -/
theorem extractors_absent_url_witness :
    containerIdCustom sampleAttemptNoUrl = none ∧ nodeIdCustom sampleAttemptNoUrl = none :=
  extractors_absent_url sampleAttemptNoUrl rfl

end ExtractorClaims

/-! ## The worked example, the envelopes and the frame of the normalizers -/

section EnvelopeLemmas

theorem getProp_plural_of_single (kind : EntityKind) (e : Json) :
    getProp (obj [(kind.typeKey, e)]) kind.pluralKey = some undefined := by
  cases kind <;> rfl

theorem getProp_single_of_single (kind : EntityKind) (e : Json) :
    getProp (obj [(kind.typeKey, e)]) kind.typeKey = some e := by
  cases kind <;> rfl

theorem getProp_plural_of_collection (kind : EntityKind) (es : List Json) :
    getProp (obj [(kind.pluralKey, arr es [])]) kind.pluralKey = some (arr es []) := by
  cases kind <;> rfl

theorem pluralize_typeKey (kind : EntityKind) : pluralize kind.typeKey = kind.pluralKey := by
  cases kind <;> rfl

theorem normalizePayload_single_eq (kind : EntityKind) (e : Json) :
    normalizePayload kind (obj [(kind.typeKey, e)]) =
      (normalizeSingleEntityPayload kind e).map (fun n =>
        (.single n, setProp (obj [(kind.typeKey, e)]) kind.typeKey n.record)) := by
  simp only [normalizePayload, getProp_plural_of_single, getProp_single_of_single,
    Option.bind_eq_bind, Option.some_bind, truthy, Bool.false_eq_true, if_false]
  cases normalizeSingleEntityPayload kind e <;> rfl

theorem exists_first_slash {s : List Char} (h : '/' ∈ s) :
    ∃ n r, s = n ++ '/' :: r ∧ '/' ∉ n := by
  induction s with
  | nil => simp at h
  | cons c cs ih =>
    by_cases hc : c = '/'
    · subst hc
      exact ⟨[], cs, rfl, by simp⟩
    · have hmem : '/' ∈ cs := by
        rcases List.mem_cons.mp h with e | e
        · exact absurd e.symm hc
        · exact e
      obtain ⟨n, r, e, hn⟩ := ih hmem
      refine ⟨c :: n, r, by simp [e], ?_⟩
      intro hm
      rcases List.mem_cons.mp hm with e2 | e2
      · exact hc e2.symm
      · exact hn e2

theorem nodeTail_some_inv {st st2 : MatchState}
    (h : matchAtoms nodeTail some st = some st2) : ∃ y, st.rest = '/' :: y := by
  obtain ⟨rest, gs, g⟩ := st
  cases rest with
  | nil => simp [nodeTail, matchAtoms, matchAtom, stripLit] at h
  | cons c y =>
    by_cases hc : '/' = c
    · subst hc
      exact ⟨y, rfl⟩
    · simp [nodeTail, matchAtoms, matchAtom, stripLit, hc] at h

theorem execFrom_nodeIdRegex_none {s : List Char} (h : '/' ∉ s) :
    execFrom nodeIdRegex s = none := by
  cases he : execFrom nodeIdRegex s with
  | none => rfl
  | some st =>
    exfalso
    obtain ⟨p, t, e, ht⟩ := execFrom_some_inv he
    rw [nodeIdRegex_eq] at ht
    obtain ⟨a, b, e2, -, hb⟩ := starGreedy_some_inv ht
    obtain ⟨y, hy⟩ := nodeTail_some_inv hb
    have e3 : t = a ++ b := e2
    have e4 : b = '/' :: y := hy
    apply h
    rw [e, e3, e4]
    simp

end EnvelopeLemmas

section EnvelopeClaims

/-- C21.  The worked Dag example of the specification holds: normalizing the envelope of
the raw dag `dag_1` and mapping the record through `timelineJsonToDagMap` gives the id
`dag_1`, the name `wordcount`, the user `alice`, the start time 100, the end time 200, the
status `SUCCEEDED` and the counter groups `["dag_1/g1"]`, with exactly one counter-group
record `dag_1/g1` of the parent `dag`/`dag_1` and exactly one counter record `dag_1/g1/c1`
of value 5 in the group `dag_1/g1`. -/
theorem dag_example :
    ∃ n rawPayload' record,
      DagSerializer.normalizePayload (obj [("dag", sampleDag)]) = some (.single n, rawPayload') ∧
      DagSerializer.normalize n.record = some record ∧
      getProp record "id" = some (str "dag_1") ∧
      getProp record "name" = some (str "wordcount") ∧
      getProp record "user" = some (str "alice") ∧
      getProp record "startTime" = some (num 100) ∧
      getProp record "endTime" = some (num 200) ∧
      getProp record "status" = some (str "SUCCEEDED") ∧
      getProp record "counterGroups" = some (arr [str "dag_1/g1"] []) ∧
      record = obj [("id", str "dag_1"), ("submittedTime", num 100), ("startTime", num 100),
        ("endTime", num 200), ("name", str "wordcount"), ("user", str "alice"),
        ("status", str "SUCCEEDED"), ("counterGroups", arr [str "dag_1/g1"] [])] ∧
      n.counterGroups = [obj [("id", str "dag_1/g1"), ("name", str "g1"),
        ("displayName", str "G1"),
        ("parentID", obj [("type", str "dag"), ("id", str "dag_1")]),
        ("counters", arr [str "dag_1/g1/c1"] [])]] ∧
      n.counters = [obj [("id", str "dag_1/g1/c1"), ("name", str "c1"),
        ("displayName", str "C1"), ("value", num 5), ("parentID", str "dag_1/g1")]] :=
  ⟨_, _, _, rfl, rfl, rfl, rfl, rfl, rfl, rfl, rfl, rfl, rfl, rfl, rfl⟩

/-- C22.  For each of the kinds dag, vertex, task, taskAttempt and tezApp, `extractArray`
puts the server's `entities` array under the plural key that the kind's `normalizePayload`
tests, so that a server envelope holding an array goes through the collection branch,
never through the single-entity branch. -/
theorem extractArray_routes :
    (pluralize "dag" = "dags" ∧ pluralize "vertex" = "vertices" ∧ pluralize "task" = "tasks" ∧
      pluralize "taskAttempt" = "taskAttempts" ∧ pluralize "tezApp" = "tezApps") ∧
    (∀ (kind : EntityKind) (rawPayload : Json) (es : List Json),
      getProp rawPayload "entities" = some (arr es []) →
      ∃ payload, extractArray kind.typeKey rawPayload = some payload ∧
        getProp payload kind.pluralKey = some (arr es []) ∧
        normalizePayload kind payload =
          (normalizeAll kind es).map (fun ns =>
            (.collection ⟨ns.map (fun n => n.record),
              (ns.map (fun n => n.counterGroups)).flatten,
              (ns.map (fun n => n.counters)).flatten⟩,
              deleteProp payload kind.pluralKey)) ∧
        ∀ n p, normalizePayload kind payload ≠ some (.single n, p)) ∧
    (∀ (rawPayload : Json) (es : List Json),
      getProp rawPayload "entities" = some (arr es []) →
      ∃ payload, extractArray "tezApp" rawPayload = some payload ∧
        getProp payload "tezApps" = some (arr es []) ∧
        ∀ n p, TezAppSerializer.normalizePayload payload ≠ some (.single n, p)) := by
  refine ⟨⟨rfl, rfl, rfl, rfl, rfl⟩, ?_, ?_⟩
  · intro kind rawPayload es h
    have hp : getProp (setProp (obj []) (pluralize kind.typeKey) (arr es [])) kind.pluralKey
        = some (arr es []) := by
      rw [pluralize_typeKey]
      exact getProp_plural_of_collection kind es
    have hrun := normalizePayload_of_plural hp
    refine ⟨_, ?_, hp, hrun, ?_⟩
    · simp only [extractArray, h, Option.bind_eq_bind, Option.some_bind]
      rfl
    · intro n p hn
      rw [hrun] at hn
      cases hall : normalizeAll kind es with
      | none => simp [hall] at hn
      | some ns => simp [hall] at hn
  · intro rawPayload es h
    have hp : getProp (setProp (obj []) (pluralize "tezApp") (arr es [])) "tezApps"
        = some (arr es []) := rfl
    refine ⟨_, ?_, hp, ?_⟩
    · simp only [extractArray, h, Option.bind_eq_bind, Option.some_bind]
      rfl
    · intro n p hn
      simp only [TezAppSerializer.normalizePayload, hp, Option.bind_eq_bind, Option.some_bind,
        truthy, if_true] at hn
      cases hi : (arr es []).elems? "forEach" with
      | none => simp [hi] at hn
      | some items =>
        cases hf : TezAppSerializer.forEachApp items ⟨[], []⟩ with
        | none => simp [hi, hf] at hn
        | some c => simp [hi, hf] at hn

/-- C22 at the server envelope `{entities: [sampleVertex]}`. -/
theorem extractArray_routes_witness :
    (∃ payload, extractArray "vertex" (obj [("entities", arr [sampleVertex] [])])
        = some payload ∧
      getProp payload "vertices" = some (arr [sampleVertex] []) ∧
      normalizePayload .vertex payload =
        (normalizeAll .vertex [sampleVertex]).map (fun ns =>
          (.collection ⟨ns.map (fun n => n.record),
            (ns.map (fun n => n.counterGroups)).flatten,
            (ns.map (fun n => n.counters)).flatten⟩,
            deleteProp payload "vertices")) ∧
      ∀ n p, normalizePayload .vertex payload ≠ some (.single n, p)) ∧
    (∃ payload, extractArray "tezApp" (obj [("entities", arr [sampleApp] [])])
        = some payload ∧
      getProp payload "tezApps" = some (arr [sampleApp] []) ∧
      ∀ n p, TezAppSerializer.normalizePayload payload ≠ some (.single n, p)) :=
  ⟨extractArray_routes.2.1 .vertex (obj [("entities", arr [sampleVertex] [])])
      [sampleVertex] rfl,
    extractArray_routes.2.2 (obj [("entities", arr [sampleApp] [])]) [sampleApp] rfl⟩

/-- C23.  For every well-formed raw entity `e`, the single-entity envelope and the
collection envelope holding only `e` normalize alike: the same counter groups, the same
counters, and the records of the collection are the single record alone. -/
theorem normalizePayload_single_vs_collection (kind : EntityKind) (e : Json)
    (h : isRawEntity e = true) :
    ∃ n c p1 p2,
      normalizePayload kind (obj [(kind.typeKey, e)]) = some (.single n, p1) ∧
      normalizePayload kind (obj [(kind.pluralKey, arr [e] [])]) = some (.collection c, p2) ∧
      c.counterGroups = n.counterGroups ∧ c.counters = n.counters ∧
      c.records = [n.record] := by
  obtain ⟨n, hn⟩ := normalizeSingleEntityPayload_of_isRawEntity kind h
  have h1 : normalizePayload kind (obj [(kind.typeKey, e)]) =
      some (.single n, setProp (obj [(kind.typeKey, e)]) kind.typeKey n.record) := by
    rw [normalizePayload_single_eq, hn]
    rfl
  have hall : normalizeAll kind [e] = some [n] := by
    simp [normalizeAll, hn]
  have h2 := normalizePayload_of_plural (getProp_plural_of_collection kind [e])
  rw [hall] at h2
  exact ⟨_, _, _, _, h1, h2, by simp, by simp, by simp⟩

/-- C23 at `sampleDag`. -/
theorem normalizePayload_single_vs_collection_witness :
    ∃ n c p1 p2,
      normalizePayload .dag (obj [("dag", sampleDag)]) = some (.single n, p1) ∧
      normalizePayload .dag (obj [("dags", arr [sampleDag] [])]) = some (.collection c, p2) ∧
      c.counterGroups = n.counterGroups ∧ c.counters = n.counters ∧
      c.records = [n.record] :=
  normalizePayload_single_vs_collection .dag sampleDag rfl

/-- C24.  On a log URL that is a string, the `nodeId` extractor returns the part of the URL
before its first `/`, possibly empty, whenever the URL holds a `/`, and it throws if and
only if the URL holds no `/`. -/
theorem nodeIdCustom_spec (url : String) (source : Json)
    (hurl : emGet source ["otherinfo", "inProgressLogsURL"] = str url) :
    (∀ n r : List Char, url.data = n ++ '/' :: r → '/' ∉ n →
      nodeIdCustom source = some (str (String.mk n))) ∧
    (nodeIdCustom source = none ↔ '/' ∉ url.data) := by
  have hval : ∀ n r : List Char, url.data = n ++ '/' :: r → '/' ∉ n →
      nodeIdCustom source = some (str (String.mk n)) := by
    intro n r e hn
    obtain ⟨st, hst, hg⟩ := execFrom_nodeIdRegex_prefix n r hn
    simp only [nodeIdCustom, hurl, execGroup1_str, e, hst, Option.map_some', hg]
  refine ⟨hval, ?_, ?_⟩
  · intro hnone hmem
    obtain ⟨n, r, e, hn⟩ := exists_first_slash hmem
    rw [hval n r e hn] at hnone
    cases hnone
  · intro hno
    simp only [nodeIdCustom, hurl, execGroup1_str, execFrom_nodeIdRegex_none hno,
      Option.map_none']

/-- C24 at the URL `node123/container_456_01/logs`. -/
theorem nodeIdCustom_spec_witness :
    (∀ n r : List Char, "node123/container_456_01/logs".data = n ++ '/' :: r → '/' ∉ n →
      nodeIdCustom sampleAttempt = some (str (String.mk n))) ∧
    (nodeIdCustom sampleAttempt = none ↔ '/' ∉ "node123/container_456_01/logs".data) :=
  nodeIdCustom_spec "node123/container_456_01/logs" sampleAttempt rfl

/-- C25 fails at `sampleTask`, which relates to two task attempts: the field map sends
`numAttempts` to the path `relatedentities`, so the Task record holds the whole
`relatedentities` object there, not the number 2. -/
theorem task_numAttempts :
    ∃ n rawPayload' record,
      TaskSerializer.normalizePayload (obj [("task", sampleTask)])
        = some (.single n, rawPayload') ∧
      TaskSerializer.normalize n.record = some record ∧
      getProp record "numAttempts" =
        some (obj [("TEZ_TASK_ATTEMPT_ID", arr [str "attempt_1", str "attempt_2"] [])]) :=
  ⟨_, _, _, rfl, rfl, rfl⟩

/-- C29.  A single-entity normalizer changes the raw entity in two places only: the record
it returns reads like the raw entity at every top-level key other than `counterGroups` and
`otherinfo`, its `otherinfo` reads like the raw one at every key other than `counters`, and
its `counterGroups` is the array of the ids of the emitted counter groups, whatever the raw
entity held there. -/
theorem normalizeSingleEntityPayload_frame (kind : EntityKind) (entity : Json)
    (n : NormalizedEntity) (h : normalizeSingleEntityPayload kind entity = some n) :
    (∀ k : String, k ≠ "counterGroups" → k ≠ "otherinfo" →
      getProp n.record k = getProp entity k) ∧
    (∃ otherinfo otherinfo', getProp entity "otherinfo" = some otherinfo ∧
      getProp n.record "otherinfo" = some otherinfo' ∧
      ∀ k : String, k ≠ "counters" → getProp otherinfo' k = getProp otherinfo k) ∧
    (∃ ids, getProp n.record "counterGroups" = some (arr ids []) ∧
      n.counterGroups.map (fun cg => getProp cg "id") = ids.map some) := by
  obtain ⟨per, hs, -, -, hrec, -, -⟩ := normalizeSingleEntityPayload_some h
  obtain ⟨he, -⟩ := isObject_of_helperShape hs
  refine ⟨?_, ?_, ids_of_normalizeSingleEntityPayload h⟩
  · intro k h1 h2
    rw [hrec]
    exact getProp_recordOf_other h1 h2 _ _
  · refine ⟨lookup "otherinfo" entity.namedProps,
      deleteProp (lookup "otherinfo" entity.namedProps) "counters",
      getProp_of_isObject namedKey_otherinfo he, ?_, ?_⟩
    · rw [hrec]
      exact getProp_recordOf_otherinfo he _
    · intro k hk
      exact getProp_deleteProp_ne hk _

/-- C29 at `sampleDag`. -/
theorem normalizeSingleEntityPayload_frame_witness :
    (∀ k : String, k ≠ "counterGroups" → k ≠ "otherinfo" →
      getProp (recordOf sampleDag [str "dag_1/g1"]) k = getProp sampleDag k) ∧
    (∃ otherinfo otherinfo', getProp sampleDag "otherinfo" = some otherinfo ∧
      getProp (recordOf sampleDag [str "dag_1/g1"]) "otherinfo" = some otherinfo' ∧
      ∀ k : String, k ≠ "counters" → getProp otherinfo' k = getProp otherinfo k) ∧
    (∃ ids, getProp (recordOf sampleDag [str "dag_1/g1"]) "counterGroups"
        = some (arr ids []) ∧
      [obj [("id", str "dag_1/g1"), ("name", str "g1"), ("displayName", str "G1"),
        ("parentID", obj [("type", str "dag"), ("id", str "dag_1")]),
        ("counters", arr [str "dag_1/g1/c1"] [])]].map (fun cg => getProp cg "id")
        = ids.map some) :=
  normalizeSingleEntityPayload_frame .dag sampleDag
    ⟨recordOf sampleDag [str "dag_1/g1"],
      [obj [("id", str "dag_1/g1"), ("name", str "g1"), ("displayName", str "G1"),
        ("parentID", obj [("type", str "dag"), ("id", str "dag_1")]),
        ("counters", arr [str "dag_1/g1/c1"] [])]],
      [obj [("id", str "dag_1/g1/c1"), ("name", str "c1"), ("displayName", str "C1"),
        ("value", num 5), ("parentID", str "dag_1/g1")]]⟩ rfl

end EnvelopeClaims

/-! ## Distinct names give distinct ids -/

section Distinct

theorem string_append_cancel_left {a b c : String} (h : a ++ b = a ++ c) : b = c := by
  have h2 := congrArg String.data h
  simp only [String.data_append] at h2
  exact String.ext (List.append_cancel_left h2)

theorem slash_sep_inj {a b x y : String} (h : a ++ "/" ++ x = b ++ "/" ++ y)
    (ha : '/' ∉ a.data) (hb : '/' ∉ b.data) : a = b ∧ x = y := by
  have h2 := congrArg String.data h
  simp only [String.data_append] at h2
  have h3 : a.data ++ '/' :: x.data = b.data ++ '/' :: y.data := by
    simpa [List.append_assoc] using h2
  obtain ⟨e1, e2⟩ := first_slash_unique h3 ha hb
  exact ⟨String.ext e1, String.ext e2⟩

theorem counterRecord_id {cgId : String} {c r : Json} (h : counterRecord cgId c = some r) :
    recordId r = str (counterIdOf cgId c) ∧ getProp r "id" = some (recordId r) ∧
      (counterNameStr c).isSome = true ∧
      getProp r "value" = some (lookup "counterValue" c.namedProps) := by
  obtain ⟨nameStr, -, hname, e⟩ := counterRecord_some h
  subst e
  refine ⟨?_, rfl, ?_, rfl⟩
  · simp only [counterIdOf, counterNameStr, hname, Option.getD_some]
    rfl
  · simp [counterNameStr, hname]

theorem counterRecords_ids {cgId : String} {cs rs : List Json}
    (h : counterRecords cgId cs = some rs) :
    rs.map recordId = cs.map (fun c => str (counterIdOf cgId c)) := by
  have hf := counterRecords_forall₂ h
  clear h
  induction hf with
  | nil => rfl
  | cons hr _ ih => simp only [List.map_cons, ih, (counterRecord_id hr).1]

theorem groupRecord_id {parentType parentID g : Json} {r : Json × List Json}
    {parentStr : String} (h : groupRecord parentType parentID g = some r)
    (hp : parentID.toStr = some parentStr) :
    recordId r.1 = str (groupIdOf parentStr g) ∧
      r.2.map recordId =
        (rawCountersOf g).map (fun c => str (counterIdOf (groupIdOf parentStr g) c)) ∧
      (groupNameStr g).isSome = true ∧
      counterRecords (groupIdOf parentStr g) (rawCountersOf g) = some r.2 ∧
      getProp r.1 "counters" = some (arr (r.2.map recordId) []) := by
  obtain ⟨cg, recs⟩ := r
  obtain ⟨ps, nameStr, items, hps, -, hname, hitems, hrecs, e⟩ := groupRecord_some h
  rw [hp] at hps
  simp only [Option.some.injEq] at hps
  subst hps e
  have hid : groupIdOf parentStr g = parentStr ++ "/" ++ nameStr := by
    simp only [groupIdOf, groupNameStr, hname, Option.getD_some]
  have hraw : rawCountersOf g = items := by simp [rawCountersOf, hitems]
  refine ⟨?_, ?_, ?_, ?_, rfl⟩
  · rw [hid]
    rfl
  · rw [hid, hraw]
    exact counterRecords_ids hrecs
  · simp [groupNameStr, hname]
  · rw [hid, hraw]
    exact hrecs

theorem groupRecords_ids {parentType parentID : Json} {gs : List Json}
    {per : List (Json × List Json)} {parentStr : String}
    (h : groupRecords parentType parentID gs = some per)
    (hp : parentID.toStr = some parentStr) :
    per.map (fun p => recordId p.1) = gs.map (fun g => str (groupIdOf parentStr g)) ∧
      per.map (fun p => p.2.map recordId) =
        gs.map (fun g => (rawCountersOf g).map
          (fun c => str (counterIdOf (groupIdOf parentStr g) c))) ∧
      ∀ g ∈ gs, (groupNameStr g).isSome = true := by
  have hf := groupRecords_forall₂ h
  clear h
  induction hf with
  | nil => exact ⟨rfl, rfl, by simp⟩
  | cons hr _ ih =>
    obtain ⟨i1, i2, i3⟩ := ih
    obtain ⟨j1, j2, j3, -, -⟩ := groupRecord_id hr hp
    refine ⟨by simp only [List.map_cons, i1, j1], by simp only [List.map_cons, i2, j2], ?_⟩
    intro g hg
    rcases List.mem_cons.mp hg with e | e
    · rw [e]; exact j3
    · exact i3 g e

theorem getD_inj_of_isSome {a b : Option String} (ha : a.isSome = true)
    (hb : b.isSome = true) (h : a.getD "" = b.getD "") : a = b := by
  cases a with
  | none => simp at ha
  | some x =>
    cases b with
    | none => simp at hb
    | some y => simpa using h

theorem nodup_groupIds (parentStr : String) {gs : List Json}
    (hn : (gs.map groupNameStr).Nodup) (hs : ∀ g ∈ gs, (groupNameStr g).isSome = true) :
    (gs.map (fun g => str (groupIdOf parentStr g))).Nodup := by
  unfold List.Nodup at hn ⊢
  rw [List.pairwise_map] at hn ⊢
  refine hn.imp_of_mem ?_
  intro a b ha hb hne heq
  apply hne
  simp only [str.injEq, groupIdOf] at heq
  exact getD_inj_of_isSome (hs a ha) (hs b hb) (string_append_cancel_left heq)

theorem nodup_counterIds (groupId : String) {cs : List Json}
    (hn : (cs.map counterNameStr).Nodup) (hs : ∀ c ∈ cs, (counterNameStr c).isSome = true) :
    (cs.map (fun c => str (counterIdOf groupId c))).Nodup := by
  unfold List.Nodup at hn ⊢
  rw [List.pairwise_map] at hn ⊢
  refine hn.imp_of_mem ?_
  intro a b ha hb hne heq
  apply hne
  simp only [str.injEq, counterIdOf] at heq
  exact getD_inj_of_isSome (hs a ha) (hs b hb) (string_append_cancel_left heq)

theorem isSome_counterNameStr_of_isRawGroup {g c : Json} (hg : isRawGroup g = true)
    (hc : c ∈ rawCountersOf g) : (counterNameStr c).isSome = true := by
  simp only [isRawGroup, Bool.and_eq_true, List.all_eq_true] at hg
  have := hg.2 c hc
  simp only [isRawCounter, Bool.and_eq_true, printable] at this
  exact this.2

theorem nodup_allCounterIds (parentStr : String) {gs : List Json}
    (hraw : gs.all isRawGroup = true)
    (hn : (gs.map groupNameStr).Nodup)
    (hslash : ∀ g ∈ gs, ∀ name, groupNameStr g = some name → '/' ∉ name.data)
    (hcn : ∀ g ∈ gs, ((rawCountersOf g).map counterNameStr).Nodup) :
    ((gs.map (fun g => (rawCountersOf g).map
      (fun c => str (counterIdOf (groupIdOf parentStr g) c)))).flatten).Nodup := by
  have hrawg : ∀ g ∈ gs, isRawGroup g = true := by
    simpa [List.all_eq_true] using hraw
  have hsome : ∀ g ∈ gs, (groupNameStr g).isSome = true := by
    intro g hg
    have := hrawg g hg
    simp only [isRawGroup, Bool.and_eq_true, printable] at this
    exact this.1.1.2
  rw [List.nodup_flatten]
  constructor
  · intro l hl
    obtain ⟨g, hg, e⟩ := List.mem_map.mp hl
    subst e
    exact nodup_counterIds _ (hcn g hg)
      (fun c hc => isSome_counterNameStr_of_isRawGroup (hrawg g hg) hc)
  · unfold List.Nodup at hn
    rw [List.pairwise_map] at hn ⊢
    refine hn.imp_of_mem ?_
    intro a b ha hb hne
    rw [List.disjoint_left]
    intro x hxa hxb
    obtain ⟨c1, -, e1⟩ := List.mem_map.mp hxa
    obtain ⟨c2, -, e2⟩ := List.mem_map.mp hxb
    rw [← e2] at e1
    simp only [str.injEq, counterIdOf, groupIdOf] at e1
    obtain ⟨na, hna⟩ := Option.isSome_iff_exists.mp (hsome a ha)
    obtain ⟨nb, hnb⟩ := Option.isSome_iff_exists.mp (hsome b hb)
    rw [hna, hnb] at e1
    simp only [Option.getD_some] at e1
    have e3 : na ++ "/" ++ (counterNameStr c1).getD "" =
        nb ++ "/" ++ (counterNameStr c2).getD "" := by
      have : parentStr ++ ("/" ++ (na ++ "/" ++ (counterNameStr c1).getD "")) =
          parentStr ++ ("/" ++ (nb ++ "/" ++ (counterNameStr c2).getD "")) := by
        simpa [String.append_assoc] using e1
      exact string_append_cancel_left (string_append_cancel_left this)
    obtain ⟨e4, -⟩ := slash_sep_inj e3 (hslash a ha na hna) (hslash b hb nb hnb)
    apply hne
    rw [hna, hnb, e4]

end Distinct

section DistinctClaims

theorem getProp_id_of_counters {parentType parentID : Json} {gs : List Json}
    {per : List (Json × List Json)} (h : groupRecords parentType parentID gs = some per) :
    ∀ r ∈ (per.map Prod.snd).flatten, getProp r "id" = some (recordId r) := by
  intro r hr
  obtain ⟨g, -, cg, recs, hgr, -, hmem⟩ := mem_counters_of_groupRecords h hr
  obtain ⟨ps, nameStr, items, -, -, -, -, hrecs, -⟩ := groupRecord_some hgr
  obtain ⟨c, -, hc⟩ := forall₂_exists_of_mem_right (counterRecords_forall₂ hrecs) hmem
  exact (counterRecord_id hc).2.1

theorem counter_ids_of_groupRecords {parentType parentID : Json} {gs : List Json}
    {per : List (Json × List Json)} {parentStr : String}
    (h : groupRecords parentType parentID gs = some per)
    (hp : parentID.toStr = some parentStr) :
    ((per.map Prod.snd).flatten).map (fun r => getProp r "id") =
      ((gs.map (fun g => (rawCountersOf g).map
        (fun c => str (counterIdOf (groupIdOf parentStr g) c)))).flatten).map some := by
  have e1 : ((per.map Prod.snd).flatten).map (fun r => getProp r "id") =
      (((per.map Prod.snd).flatten).map recordId).map some := by
    rw [List.map_map]
    apply List.map_congr_left
    intro r hr
    exact getProp_id_of_counters h r hr
  rw [e1, List.map_flatten, List.map_map]
  have e2 := (groupRecords_ids h hp).2.1
  have e3 : List.map (List.map recordId ∘ Prod.snd) per =
      per.map (fun p => p.2.map recordId) := rfl
  rw [e3, e2]

/-- C26.  For every printable parent id and raw entity whose counter-group names are
pairwise distinct and hold no `/`, and whose counter names are pairwise distinct within
each group, no two counter-group records that `normalizeCounterGroupsHelper` emits share an
id, and no two counter records do. -/
theorem normalizeCounterGroupsHelper_distinct
    (parentType parentID entity otherinfo counters : Json) (groups : List Json)
    (hid : parentID.printable = true)
    (h1 : getProp entity "otherinfo" = some otherinfo)
    (h2 : getProp otherinfo "counters" = some counters)
    (h3 : getProp counters "counterGroups" = some (arr groups []))
    (hg : groups.all isRawGroup = true)
    (hn : (groups.map groupNameStr).Nodup)
    (hslash : ∀ g ∈ groups, ∀ name, groupNameStr g = some name → '/' ∉ name.data)
    (hcn : ∀ g ∈ groups, ((rawCountersOf g).map counterNameStr).Nodup) :
    ∃ data entity',
      normalizeCounterGroupsHelper parentType parentID entity = some (data, entity') ∧
      (data.counterGroups.map (fun cg => getProp cg "id")).Nodup ∧
      (data.counters.map (fun c => getProp c "id")).Nodup := by
  obtain ⟨hs, hgd⟩ := shape_of_path h1 h2 h3
  obtain ⟨per, hper⟩ := groupRecords_of_all parentType hid hg
  obtain ⟨parentStr, hps⟩ := Option.isSome_iff_exists.mp hid
  have heq : normalizeCounterGroupsHelper parentType parentID entity =
      some (⟨per.map Prod.fst, (per.map Prod.snd).flatten, per.map (fun p => recordId p.1)⟩,
        withDefaults entity) := by
    rw [normalizeCounterGroupsHelper_eq, hs, hgd]
    simp only [if_true, elems?, hasKey, List.any_nil, Bool.false_eq_true, if_false, hper,
      Option.map_some']
  obtain ⟨i1, -, i3⟩ := groupRecords_ids hper hps
  obtain ⟨-, -, c3⟩ := counts_of_groupRecords hper
  refine ⟨_, _, heq, ?_, ?_⟩
  · show ((per.map Prod.fst).map (fun cg => getProp cg "id")).Nodup
    rw [c3, i1]
    exact (nodup_groupIds parentStr hn i3).map (Option.some_injective _)
  · show (((per.map Prod.snd).flatten).map (fun c => getProp c "id")).Nodup
    rw [counter_ids_of_groupRecords hper hps]
    exact (nodup_allCounterIds parentStr hg hn hslash hcn).map (Option.some_injective _)

/-- C26 at `sampleDagTwo`, whose two groups hold two counters each, with the same counter
names in both groups. -/
theorem normalizeCounterGroupsHelper_distinct_witness :
    ∃ data entity',
      normalizeCounterGroupsHelper (str "dag") (str "dag_3") sampleDagTwo
        = some (data, entity') ∧
      (data.counterGroups.map (fun cg => getProp cg "id")).Nodup ∧
      (data.counters.map (fun c => getProp c "id")).Nodup :=
  normalizeCounterGroupsHelper_distinct (str "dag") (str "dag_3") sampleDagTwo _ _
    sampleGroupsTwo rfl rfl rfl rfl rfl (by decide) (by decide) (by decide)

end DistinctClaims

section Store

theorem strictEqStr_iff (v : Json) (s : String) : strictEqStr v s = true ↔ v = str s := by
  cases v <;> simp [strictEqStr]

theorem find?_of_unique {α : Type} (p : α → Bool) {l : List α} {r : α} (hr : r ∈ l)
    (hp : p r = true) (hu : ∀ x ∈ l, p x = true → x = r) : l.find? p = some r := by
  induction l with
  | nil => simp at hr
  | cons a t ih =>
    by_cases ha : p a = true
    · rw [List.find?_cons_of_pos _ ha, hu a (List.mem_cons_self _ _) ha]
    · rw [List.find?_cons_of_neg _ ha]
      have hne : r ≠ a := fun e => ha (e ▸ hp)
      exact ih ((List.mem_cons.mp hr).resolve_left hne)
        (fun x hx => hu x (List.mem_cons_of_mem _ hx))

theorem storeFind_of_nodup {records : List Json} (hn : (records.map recordId).Nodup)
    {r : Json} (hr : r ∈ records) {s : String} (hs : recordId r = str s) :
    storeFind records s = some r := by
  unfold storeFind
  apply find?_of_unique _ (List.mem_reverse.mpr hr) ((strictEqStr_iff _ _).mpr hs)
  intro x hx hp
  exact List.inj_on_of_nodup_map hn (List.mem_reverse.mp hx) hr
    (((strictEqStr_iff _ _).mp hp).trans hs.symm)

theorem hasMany_of_sub {all sub : List Json} (hn : (all.map recordId).Nodup)
    (hsub : ∀ r ∈ sub, r ∈ all) (hstr : ∀ r ∈ sub, ∃ s, recordId r = str s) :
    hasMany all (arr (sub.map recordId) []) = arr sub [] := by
  induction sub with
  | nil => rfl
  | cons a t ih =>
    have ih2 := ih (fun r hr => hsub r (List.mem_cons_of_mem _ hr))
      (fun r hr => hstr r (List.mem_cons_of_mem _ hr))
    obtain ⟨s, hs⟩ := hstr a (List.mem_cons_self _ _)
    have hf := storeFind_of_nodup hn (hsub a (List.mem_cons_self _ _)) hs
    simp only [hasMany, elems?, hasKey, List.any_nil, Bool.false_eq_true, if_false,
      Option.getD_some, arr.injEq, and_true] at ih2 ⊢
    rw [List.map_cons, hs]
    simp only [List.filterMap_cons, hf]
    rw [ih2]

theorem toStr_str (s : String) : (str s).toStr = some s := by
  simp [Json.toStr]

theorem truthy_arr (items : List Json) (props : List (String × Json)) :
    (arr items props).truthy = true := rfl

theorem truthy_undefined : undefined.truthy = false := rfl

theorem findBy_arr (items : List Json) (key value : String) :
    findBy (arr items []) key value =
      some ((items.find? (fun item => strictEqStr (elemOf item key) value)).getD undefined) := by
  simp [findBy, elems?, hasKey]

theorem getCounterValueForDag_no_group {groups : List Json} {dagID : Json}
    {dagStr : String} (gname cname : String) (hd : dagID.toStr = some dagStr)
    (hg : groups.find? (fun item => strictEqStr (elemOf item "id") (dagStr ++ "/" ++ gname))
      = none) :
    getCounterValueForDag (arr groups []) dagID (str gname) (str cname) = some (num 0) := by
  simp [getCounterValueForDag, truthy_arr, truthy_undefined, hd, toStr_str, findBy_arr, hg]

theorem getCounterValueForDag_no_counter {groups counters : List Json} {dagID cg : Json}
    {dagStr : String} (gname cname : String) (hd : dagID.toStr = some dagStr)
    (hg : groups.find? (fun item => strictEqStr (elemOf item "id") (dagStr ++ "/" ++ gname))
      = some cg)
    (hcg : cg.isObject = true) (hc : getProp cg "counters" = some (arr counters []))
    (hf : counters.find? (fun item =>
      strictEqStr (elemOf item "id") (dagStr ++ "/" ++ gname ++ "/" ++ cname)) = none) :
    getCounterValueForDag (arr groups []) dagID (str gname) (str cname) = some (num 0) := by
  simp [getCounterValueForDag, truthy_arr, truthy_undefined, hd, toStr_str, findBy_arr, hg,
    truthy_of_isObject hcg, emberGet, hcg, hc, hf]

theorem getCounterValueForDag_found {groups counters : List Json} {dagID cg counter v : Json}
    {dagStr : String} (gname cname : String) (hd : dagID.toStr = some dagStr)
    (hg : groups.find? (fun item => strictEqStr (elemOf item "id") (dagStr ++ "/" ++ gname))
      = some cg)
    (hcg : cg.isObject = true) (hc : getProp cg "counters" = some (arr counters []))
    (hf : counters.find? (fun item =>
      strictEqStr (elemOf item "id") (dagStr ++ "/" ++ gname ++ "/" ++ cname)) = some counter)
    (hco : counter.isObject = true) (hv : getProp counter "value" = some v) :
    getCounterValueForDag (arr groups []) dagID (str gname) (str cname) = some v := by
  simp [getCounterValueForDag, truthy_arr, truthy_undefined, hd, toStr_str, findBy_arr, hg,
    truthy_of_isObject hcg, emberGet, hcg, hc, hf, truthy_of_isObject hco, hco, hv]

theorem forall₂_exists_of_mem_left {α β : Type} {R : α → β → Prop} {xs : List α}
    {ys : List β} (h : List.Forall₂ R xs ys) {x : α} (hx : x ∈ xs) : ∃ y ∈ ys, R x y := by
  induction h with
  | nil => simp at hx
  | cons hr _ ih =>
    rcases List.mem_cons.mp hx with e | e
    · subst e
      exact ⟨_, List.mem_cons_self _ _, hr⟩
    · obtain ⟨y, hy, hxy⟩ := ih e
      exact ⟨y, List.mem_cons_of_mem _ hy, hxy⟩

theorem elemOf_id {x : Json} (h : getProp x "id" = some (recordId x)) :
    elemOf x "id" = recordId x := by
  simp [elemOf, h]

theorem isObject_of_counterRecord {cgId : String} {c r : Json}
    (h : counterRecord cgId c = some r) : r.isObject = true := by
  obtain ⟨nameStr, -, -, e⟩ := counterRecord_some h
  subst e
  rfl

theorem isObject_of_groupRecord {parentType parentID g : Json} {p : Json × List Json}
    (h : groupRecord parentType parentID g = some p) : p.1.isObject = true := by
  obtain ⟨cg, recs⟩ := p
  obtain ⟨ps, nameStr, items, -, -, -, -, -, e⟩ := groupRecord_some h
  subst e
  rfl

theorem loadedGroup_facts {p : Json × List Json} (h : p.1.isObject = true) :
    (loadedGroup p).isObject = true ∧ recordId (loadedGroup p) = recordId p.1 ∧
      getProp (loadedGroup p) "id" = some (recordId (loadedGroup p)) ∧
      getProp (loadedGroup p) "counters" = some (arr p.2 []) := by
  have ho : (loadedGroup p).isObject = true := by
    rw [loadedGroup, isObject_setProp]
    exact h
  refine ⟨ho, ?_, ?_, ?_⟩
  · rw [recordId, recordId, loadedGroup, namedProps_setProp h,
      lookup_setAssoc_ne (by decide)]
  · exact getProp_of_isObject (by decide) ho
  · exact getProp_setProp_self namedKey_counters h _

theorem counter_recordIds_of_groupRecords {parentType parentID : Json} {gs : List Json}
    {per : List (Json × List Json)} {parentStr : String}
    (h : groupRecords parentType parentID gs = some per)
    (hp : parentID.toStr = some parentStr) :
    ((per.map Prod.snd).flatten).map recordId =
      (gs.map (fun g => (rawCountersOf g).map
        (fun c => str (counterIdOf (groupIdOf parentStr g) c)))).flatten := by
  rw [List.map_flatten, List.map_map]
  have e2 := (groupRecords_ids h hp).2.1
  have e3 : List.map (List.map recordId ∘ Prod.snd) per =
      per.map (fun p => p.2.map recordId) := rfl
  rw [e3, e2]

/-- Under distinct names without `/` the store hands out every counter-group record with
exactly the counter records of its own group. -/
theorem loadCounterGroup_of_mem {parentType parentID : Json} {gs : List Json}
    {per : List (Json × List Json)} {parentStr : String}
    (h : groupRecords parentType parentID gs = some per)
    (hp : parentID.toStr = some parentStr)
    (hraw : gs.all isRawGroup = true)
    (hn : (gs.map groupNameStr).Nodup)
    (hslash : ∀ g ∈ gs, ∀ name, groupNameStr g = some name → '/' ∉ name.data)
    (hcn : ∀ g ∈ gs, ((rawCountersOf g).map counterNameStr).Nodup)
    {p : Json × List Json} (hmem : p ∈ per) :
    loadCounterGroup (per.map Prod.snd).flatten p.1 = loadedGroup p := by
  obtain ⟨g, -, hgr⟩ := forall₂_exists_of_mem_right (groupRecords_forall₂ h) hmem
  obtain ⟨-, -, -, hrecs, hc⟩ := groupRecord_id hgr hp
  have hall : (((per.map Prod.snd).flatten).map recordId).Nodup := by
    rw [counter_recordIds_of_groupRecords h hp]
    exact nodup_allCounterIds parentStr hraw hn hslash hcn
  have hsub : ∀ r ∈ p.2, r ∈ (per.map Prod.snd).flatten := fun r hr =>
    List.mem_flatten.mpr ⟨p.2, List.mem_map.mpr ⟨p, hmem, rfl⟩, hr⟩
  have hstr : ∀ r ∈ p.2, ∃ s, recordId r = str s := by
    intro r hr
    obtain ⟨c, -, hcr⟩ := forall₂_exists_of_mem_right (counterRecords_forall₂ hrecs) hr
    exact ⟨_, (counterRecord_id hcr).1⟩
  have he : elemOf p.1 "counters" = arr (p.2.map recordId) [] := by
    simp [elemOf, hc]
  rw [loadCounterGroup, he, hasMany_of_sub hall hsub hstr]
  rfl

theorem loadedGroups_ids {parentType parentID : Json} {gs : List Json}
    {per : List (Json × List Json)}
    (h : groupRecords parentType parentID gs = some per) :
    (per.map loadedGroup).map recordId = per.map (fun p => recordId p.1) := by
  rw [List.map_map]
  apply List.map_congr_left
  intro p hp
  obtain ⟨g, -, hgr⟩ := forall₂_exists_of_mem_right (groupRecords_forall₂ h) hp
  exact (loadedGroup_facts (isObject_of_groupRecord hgr)).2.1

theorem nodup_loadedGroups {parentType parentID : Json} {gs : List Json}
    {per : List (Json × List Json)} {parentStr : String}
    (h : groupRecords parentType parentID gs = some per)
    (hp : parentID.toStr = some parentStr)
    (hn : (gs.map groupNameStr).Nodup) :
    ((per.map loadedGroup).map recordId).Nodup := by
  obtain ⟨i1, -, i3⟩ := groupRecords_ids h hp
  rw [loadedGroups_ids h, i1]
  exact nodup_groupIds parentStr hn i3

/-- What `dag.get('counterGroups')` answers for a normalized entity whose names are distinct
and whose group names hold no `/`: the counter-group records in order, each with its own
counter records. -/
theorem loadedCounterGroups_eq {kind : EntityKind} {e : Json} {n : NormalizedEntity}
    {per : List (Json × List Json)} {parentStr : String}
    (hs : helperShape e = true)
    (h : groupRecords (str kind.typeKey) (lookup "entity" e.namedProps) (rawGroupsOf e)
      = some per)
    (hrec : n.record = recordOf e (per.map (fun p => recordId p.1)))
    (hcg : n.counterGroups = per.map Prod.fst)
    (hco : n.counters = (per.map Prod.snd).flatten)
    (hp : (lookup "entity" e.namedProps).toStr = some parentStr)
    (hraw : (rawGroupsOf e).all isRawGroup = true)
    (hn : ((rawGroupsOf e).map groupNameStr).Nodup)
    (hslash : ∀ g ∈ rawGroupsOf e, ∀ name, groupNameStr g = some name → '/' ∉ name.data)
    (hcn : ∀ g ∈ rawGroupsOf e, ((rawCountersOf g).map counterNameStr).Nodup) :
    loadedCounterGroups n = arr (per.map loadedGroup) [] := by
  have e1 : n.counterGroups.map (loadCounterGroup n.counters) = per.map loadedGroup := by
    rw [hcg, hco, List.map_map]
    apply List.map_congr_left
    intro p hmem
    exact loadCounterGroup_of_mem h hp hraw hn hslash hcn hmem
  have e2 : elemOf n.record "counterGroups" = arr ((per.map loadedGroup).map recordId) [] := by
    rw [hrec, loadedGroups_ids h]
    simp [elemOf, getProp_recordOf_counterGroups (isObject_of_helperShape hs).1]
  have hstr : ∀ r ∈ per.map loadedGroup, ∃ s, recordId r = str s := by
    intro r hr
    obtain ⟨p, hmem, e⟩ := List.mem_map.mp hr
    obtain ⟨g, -, hgr⟩ := forall₂_exists_of_mem_right (groupRecords_forall₂ h) hmem
    subst e
    rw [(loadedGroup_facts (isObject_of_groupRecord hgr)).2.1]
    exact ⟨_, (groupRecord_id hgr hp).1⟩
  rw [loadedCounterGroups, e1, e2]
  exact hasMany_of_sub (nodup_loadedGroups h hp hn) (fun _ hr => hr) hstr

theorem find?_counter {cgId : String} {cs recs : List Json}
    (h : counterRecords cgId cs = some recs) (hcn : (cs.map counterNameStr).Nodup)
    {c : Json} (hc : c ∈ cs) {cname : String} (hname : counterNameStr c = some cname) :
    ∃ r, counterRecord cgId c = some r ∧
      recs.find? (fun item => strictEqStr (elemOf item "id") (cgId ++ "/" ++ cname))
        = some r := by
  have hf := counterRecords_forall₂ h
  obtain ⟨r, hr, hcr⟩ := forall₂_exists_of_mem_left hf hc
  have hsome : ∀ c ∈ cs, (counterNameStr c).isSome = true := by
    intro c2 hc2
    obtain ⟨r2, -, hcr2⟩ := forall₂_exists_of_mem_left hf hc2
    exact (counterRecord_id hcr2).2.2.1
  have hnd : (recs.map recordId).Nodup := by
    rw [counterRecords_ids h]
    exact nodup_counterIds cgId hcn hsome
  have hid : recordId r = str (cgId ++ "/" ++ cname) := by
    rw [(counterRecord_id hcr).1, counterIdOf, hname]
    rfl
  refine ⟨r, hcr, find?_of_unique _ hr ?_ ?_⟩
  · rw [strictEqStr_iff, elemOf_id (counterRecord_id hcr).2.1, hid]
  · intro x hx hpx
    obtain ⟨c2, -, hcr2⟩ := forall₂_exists_of_mem_right hf hx
    rw [strictEqStr_iff, elemOf_id (counterRecord_id hcr2).2.1] at hpx
    exact List.inj_on_of_nodup_map hnd hx hr (hpx.trans hid.symm)

theorem find?_counter_none {cgId : String} {cs recs : List Json}
    (h : counterRecords cgId cs = some recs) {cname : String}
    (habs : ∀ c ∈ cs, counterNameStr c ≠ some cname) :
    recs.find? (fun item => strictEqStr (elemOf item "id") (cgId ++ "/" ++ cname))
      = none := by
  rw [List.find?_eq_none]
  intro x hx hpx
  obtain ⟨c2, hc2, hcr2⟩ := forall₂_exists_of_mem_right (counterRecords_forall₂ h) hx
  obtain ⟨i1, i2, i3, -⟩ := counterRecord_id hcr2
  rw [strictEqStr_iff, elemOf_id i2, i1] at hpx
  obtain ⟨name2, hname2⟩ := Option.isSome_iff_exists.mp i3
  apply habs c2 hc2
  simp only [counterIdOf, hname2, Option.getD_some, str.injEq] at hpx
  rw [hname2, string_append_cancel_left hpx]

theorem find?_group {parentType parentID : Json} {gs : List Json}
    {per : List (Json × List Json)} {parentStr : String}
    (h : groupRecords parentType parentID gs = some per)
    (hp : parentID.toStr = some parentStr)
    (hn : (gs.map groupNameStr).Nodup)
    {g : Json} (hg : g ∈ gs) {gname : String} (hname : groupNameStr g = some gname) :
    ∃ p, groupRecord parentType parentID g = some p ∧
      (per.map loadedGroup).find?
        (fun item => strictEqStr (elemOf item "id") (parentStr ++ "/" ++ gname))
        = some (loadedGroup p) := by
  have hf := groupRecords_forall₂ h
  obtain ⟨p, hmem, hgr⟩ := forall₂_exists_of_mem_left hf hg
  have facts := loadedGroup_facts (isObject_of_groupRecord hgr)
  have hid : recordId (loadedGroup p) = str (parentStr ++ "/" ++ gname) := by
    rw [facts.2.1, (groupRecord_id hgr hp).1, groupIdOf, hname]
    rfl
  refine ⟨p, hgr, find?_of_unique _ (List.mem_map.mpr ⟨p, hmem, rfl⟩) ?_ ?_⟩
  · rw [strictEqStr_iff, elemOf_id facts.2.2.1, hid]
  · intro x hx hpx
    obtain ⟨p2, hmem2, e⟩ := List.mem_map.mp hx
    obtain ⟨g2, -, hgr2⟩ := forall₂_exists_of_mem_right hf hmem2
    have facts2 := loadedGroup_facts (isObject_of_groupRecord hgr2)
    rw [e] at facts2
    rw [strictEqStr_iff, elemOf_id facts2.2.2.1] at hpx
    exact List.inj_on_of_nodup_map (nodup_loadedGroups h hp hn) hx
      (List.mem_map.mpr ⟨p, hmem, rfl⟩) (hpx.trans hid.symm)

theorem find?_group_none {parentType parentID : Json} {gs : List Json}
    {per : List (Json × List Json)} {parentStr : String}
    (h : groupRecords parentType parentID gs = some per)
    (hp : parentID.toStr = some parentStr) {gname : String}
    (habs : ∀ g ∈ gs, groupNameStr g ≠ some gname) :
    (per.map loadedGroup).find?
      (fun item => strictEqStr (elemOf item "id") (parentStr ++ "/" ++ gname)) = none := by
  rw [List.find?_eq_none]
  intro x hx hpx
  obtain ⟨p2, hmem2, e⟩ := List.mem_map.mp hx
  obtain ⟨g2, hg2, hgr2⟩ := forall₂_exists_of_mem_right (groupRecords_forall₂ h) hmem2
  have facts2 := loadedGroup_facts (isObject_of_groupRecord hgr2)
  obtain ⟨i1, -, i3, -⟩ := groupRecord_id hgr2 hp
  rw [e] at facts2
  rw [strictEqStr_iff, elemOf_id facts2.2.2.1, facts2.2.1, i1] at hpx
  obtain ⟨name2, hname2⟩ := Option.isSome_iff_exists.mp i3
  apply habs g2 hg2
  simp only [groupIdOf, hname2, Option.getD_some, str.injEq] at hpx
  rw [hname2, string_append_cancel_left hpx]

end Store

section LookupClaims

/-- C27, as stated, fails at `sampleDagSlash`: the group names `a` and `a/b` are distinct
and each group holds one counter, yet both counter records get the id `dag_2/a/b/c`, and
the lookup of counter `b/c` in group `a`, whose raw value is 1, returns 2. -/
theorem getCounterValueForDag_agrees_counterexample :
    ∃ n g c, DagSerializer._normalizeSingleDagPayload sampleDagSlash = some n ∧
      ((rawGroupsOf sampleDagSlash).map groupNameStr).Nodup ∧
      (∀ g2 ∈ rawGroupsOf sampleDagSlash, ((rawCountersOf g2).map counterNameStr).Nodup) ∧
      g ∈ rawGroupsOf sampleDagSlash ∧ c ∈ rawCountersOf g ∧
      groupNameStr g = some "a" ∧ counterNameStr c = some "b/c" ∧
      lookup "counterValue" c.namedProps = num 1 ∧
      n.counters.map recordId = [str "dag_2/a/b/c", str "dag_2/a/b/c"] ∧
      getCounterValueForDag (loadedCounterGroups n) (lookup "entity" sampleDagSlash.namedProps)
        (str "a") (str "b/c") = some (num 2) :=
  ⟨_, obj [("counterGroupName", str "a"),
      ("counters", arr [obj [("counterName", str "b/c"), ("counterValue", num 1)]] [])],
    obj [("counterName", str "b/c"), ("counterValue", num 1)],
    rfl, by decide, by decide, List.mem_cons_self _ _, List.mem_cons_self _ _,
    rfl, rfl, rfl, rfl, rfl⟩

/-- C27, amended.  For every well-formed raw dag whose counter-group names are pairwise
distinct and hold no `/`, and whose counter names are pairwise distinct within each group,
`DagSerializer._normalizeSingleDagPayload` returns a result `n`, and on the counter groups
the store hands out for `n`, with the dag id `entity`, `getCounterValueForDag` returns the
raw `counterValue` of every counter of every group, 0 for a group name no group has, and 0
for a counter name no counter of the named group has; on counter groups that are not set it
returns 0. -/
theorem getCounterValueForDag_agrees (e : Json)
    (hraw : isRawEntity e = true)
    (hn : ((rawGroupsOf e).map groupNameStr).Nodup)
    (hslash : ∀ g ∈ rawGroupsOf e, ∀ name, groupNameStr g = some name → '/' ∉ name.data)
    (hcn : ∀ g ∈ rawGroupsOf e, ((rawCountersOf g).map counterNameStr).Nodup) :
    ∃ n, DagSerializer._normalizeSingleDagPayload e = some n ∧
      (∀ g ∈ rawGroupsOf e, ∀ c ∈ rawCountersOf g, ∀ gname cname : String,
        groupNameStr g = some gname → counterNameStr c = some cname →
        getCounterValueForDag (loadedCounterGroups n) (lookup "entity" e.namedProps)
          (str gname) (str cname) = some (lookup "counterValue" c.namedProps)) ∧
      (∀ gname cname : String, (∀ g ∈ rawGroupsOf e, groupNameStr g ≠ some gname) →
        getCounterValueForDag (loadedCounterGroups n) (lookup "entity" e.namedProps)
          (str gname) (str cname) = some (num 0)) ∧
      (∀ g ∈ rawGroupsOf e, ∀ gname cname : String, groupNameStr g = some gname →
        (∀ c ∈ rawCountersOf g, counterNameStr c ≠ some cname) →
        getCounterValueForDag (loadedCounterGroups n) (lookup "entity" e.namedProps)
          (str gname) (str cname) = some (num 0)) ∧
      (∀ counterGroups dagID gname cname : Json, counterGroups.truthy = false →
        getCounterValueForDag counterGroups dagID gname cname = some (num 0)) := by
  obtain ⟨n, hnorm⟩ := normalizeSingleEntityPayload_of_isRawEntity EntityKind.dag hraw
  obtain ⟨per, hs, -, hper, hrec, hcg, hco⟩ := normalizeSingleEntityPayload_some hnorm
  simp only [isRawEntity, Bool.and_eq_true, printable] at hraw
  obtain ⟨⟨⟨-, hid⟩, -⟩, hall⟩ := hraw
  obtain ⟨parentStr, hp⟩ := Option.isSome_iff_exists.mp hid
  have hload := loadedCounterGroups_eq hs hper hrec hcg hco hp hall hn hslash hcn
  refine ⟨n, hnorm, ?_, ?_, ?_, ?_⟩
  · intro g hg c hc gname cname hgn hcname
    obtain ⟨p, hgr, hfind⟩ := find?_group hper hp hn hg hgn
    obtain ⟨-, -, -, hrecs, -⟩ := groupRecord_id hgr hp
    have hgid : groupIdOf parentStr g = parentStr ++ "/" ++ gname := by
      rw [groupIdOf, hgn]
      rfl
    rw [hgid] at hrecs
    obtain ⟨r, hcr, hfc⟩ := find?_counter hrecs (hcn g hg) hc hcname
    have facts := loadedGroup_facts (isObject_of_groupRecord hgr)
    rw [hload]
    exact getCounterValueForDag_found gname cname hp hfind facts.1 facts.2.2.2 hfc
      (isObject_of_counterRecord hcr) (counterRecord_id hcr).2.2.2
  · intro gname cname habs
    rw [hload]
    exact getCounterValueForDag_no_group gname cname hp (find?_group_none hper hp habs)
  · intro g hg gname cname hgn habs
    obtain ⟨p, hgr, hfind⟩ := find?_group hper hp hn hg hgn
    obtain ⟨-, -, -, hrecs, -⟩ := groupRecord_id hgr hp
    have hgid : groupIdOf parentStr g = parentStr ++ "/" ++ gname := by
      rw [groupIdOf, hgn]
      rfl
    rw [hgid] at hrecs
    have facts := loadedGroup_facts (isObject_of_groupRecord hgr)
    rw [hload]
    exact getCounterValueForDag_no_counter gname cname hp hfind facts.1 facts.2.2.2
      (find?_counter_none hrecs habs)
  · intro counterGroups dagID gname cname hf
    simp [getCounterValueForDag, hf]

/-- C27, amended, at `sampleDagTwo`, whose two groups hold two counters each, with the same
counter names in both groups. -/
theorem getCounterValueForDag_agrees_witness :
    ∃ n, DagSerializer._normalizeSingleDagPayload sampleDagTwo = some n ∧
      (∀ g ∈ rawGroupsOf sampleDagTwo, ∀ c ∈ rawCountersOf g, ∀ gname cname : String,
        groupNameStr g = some gname → counterNameStr c = some cname →
        getCounterValueForDag (loadedCounterGroups n) (lookup "entity" sampleDagTwo.namedProps)
          (str gname) (str cname) = some (lookup "counterValue" c.namedProps)) ∧
      (∀ gname cname : String, (∀ g ∈ rawGroupsOf sampleDagTwo, groupNameStr g ≠ some gname) →
        getCounterValueForDag (loadedCounterGroups n) (lookup "entity" sampleDagTwo.namedProps)
          (str gname) (str cname) = some (num 0)) ∧
      (∀ g ∈ rawGroupsOf sampleDagTwo, ∀ gname cname : String, groupNameStr g = some gname →
        (∀ c ∈ rawCountersOf g, counterNameStr c ≠ some cname) →
        getCounterValueForDag (loadedCounterGroups n) (lookup "entity" sampleDagTwo.namedProps)
          (str gname) (str cname) = some (num 0)) ∧
      (∀ counterGroups dagID gname cname : Json, counterGroups.truthy = false →
        getCounterValueForDag counterGroups dagID gname cname = some (num 0)) :=
  getCounterValueForDag_agrees sampleDagTwo rfl (by decide) (by decide) (by decide)

end LookupClaims

section StatusLemmas

theorem emberGet_of_isObject {k : String} (hk : namedKey k = true) {j : Json}
    (h : j.isObject = true) : emberGet j k = some (lookup k j.namedProps) := by
  rw [emberGet, if_pos h, getProp_of_isObject hk h]

theorem isObject_of_strictEqStr_id {x : Json} {v : String}
    (h : strictEqStr (elemOf x "id") v = true) : x.isObject = true := by
  cases x <;> first | rfl | (revert h; simp [elemOf, getProp, strictEqStr, arrayIndex?,
    canonicalNat?, digitsToNat])

theorem isObject_of_find? {items : List Json} {v : String} {x : Json}
    (h : items.find? (fun item => strictEqStr (elemOf item "id") v) = some x) :
    x.isObject = true := by
  have h2 := List.find?_some h
  exact isObject_of_strictEqStr_id h2

theorem getCounterValueForDag_no_counters {groups : List Json} {dagID cg : Json}
    {dagStr : String} (gname cname : String) (hd : dagID.toStr = some dagStr)
    (hg : groups.find? (fun item => strictEqStr (elemOf item "id") (dagStr ++ "/" ++ gname))
      = some cg)
    (hc : (lookup "counters" cg.namedProps).truthy = false) :
    getCounterValueForDag (arr groups []) dagID (str gname) (str cname) = some (num 0) := by
  have hcg := isObject_of_find? hg
  simp [getCounterValueForDag, truthy_arr, truthy_undefined, hd, toStr_str, findBy_arr, hg,
    truthy_of_isObject hcg, emberGet, hcg, getProp_of_isObject namedKey_counters hcg, hc]

theorem getStatusClassForEntity_succeeded {dag v : Json} {b : Bool}
    (hobj : dag.isObject = true)
    (hst : lookup "status" dag.namedProps = str "SUCCEEDED")
    (hv : getCounterValueForDag (lookup "counterGroups" dag.namedProps)
      (lookup "id" dag.namedProps) (str "org.apache.tez.common.counters.DAGCounter")
      (str "NUM_FAILED_TASKS") = some v)
    (hb : gtZero v = some b) :
    getStatusClassForEntity dag = some (if b then "warning" else "success") := by
  have h1 : emberGet dag "status" = some (str "SUCCEEDED") := by
    rw [emberGet_of_isObject (by decide : namedKey "status" = true) hobj, hst]
  have h2 := emberGet_of_isObject (by decide : namedKey "counterGroups" = true) hobj
  have h3 := emberGet_of_isObject (by decide : namedKey "id" = true) hobj
  cases b <;> simp [getStatusClassForEntity, h1, h2, h3, strictEqStr, hv, hb]

end StatusLemmas

section StatusClaims

/-- C28.  For every entity object, `getStatusClassForEntity` maps the status `FAILED` to
`failed`, `KILLED` to `killed`, `RUNNING` to `running` and `ERROR` to `error`.  For
`SUCCEEDED` it looks up the entity's counter: the first of the entity's counter groups
whose id is the entity id, `/` and `org.apache.tez.common.counters.DAGCounter`, and the
first of that group's counters whose id is the group id, `/` and `NUM_FAILED_TASKS`; it
gives `warning` when the `value` of that counter is greater than 0 and `success` when it is
not, and `success` when the counter groups are not set, when no group has that id, when the
group's counters are not set and when no counter has that id.  Every status that is none of
the five strings gives `submitted`. -/
theorem getStatusClassForEntity_spec (dag : Json) (hobj : dag.isObject = true) :
    (lookup "status" dag.namedProps = str "FAILED" →
      getStatusClassForEntity dag = some "failed") ∧
    (lookup "status" dag.namedProps = str "KILLED" →
      getStatusClassForEntity dag = some "killed") ∧
    (lookup "status" dag.namedProps = str "RUNNING" →
      getStatusClassForEntity dag = some "running") ∧
    (lookup "status" dag.namedProps = str "ERROR" →
      getStatusClassForEntity dag = some "error") ∧
    (lookup "status" dag.namedProps = str "SUCCEEDED" →
      ∀ (groups counters : List Json) (idStr : String) (cg counter : Json) (b : Bool),
      lookup "counterGroups" dag.namedProps = arr groups [] →
      (lookup "id" dag.namedProps).toStr = some idStr →
      groups.find? (fun item => strictEqStr (elemOf item "id")
        (idStr ++ "/" ++ "org.apache.tez.common.counters.DAGCounter")) = some cg →
      lookup "counters" cg.namedProps = arr counters [] →
      counters.find? (fun item => strictEqStr (elemOf item "id")
        (idStr ++ "/" ++ "org.apache.tez.common.counters.DAGCounter" ++ "/" ++
          "NUM_FAILED_TASKS")) = some counter →
      gtZero (lookup "value" counter.namedProps) = some b →
      getStatusClassForEntity dag = some (if b then "warning" else "success")) ∧
    (lookup "status" dag.namedProps = str "SUCCEEDED" →
      (lookup "counterGroups" dag.namedProps).truthy = false →
      getStatusClassForEntity dag = some "success") ∧
    (lookup "status" dag.namedProps = str "SUCCEEDED" →
      ∀ (groups : List Json) (idStr : String),
      lookup "counterGroups" dag.namedProps = arr groups [] →
      (lookup "id" dag.namedProps).toStr = some idStr →
      groups.find? (fun item => strictEqStr (elemOf item "id")
        (idStr ++ "/" ++ "org.apache.tez.common.counters.DAGCounter")) = none →
      getStatusClassForEntity dag = some "success") ∧
    (lookup "status" dag.namedProps = str "SUCCEEDED" →
      ∀ (groups : List Json) (idStr : String) (cg : Json),
      lookup "counterGroups" dag.namedProps = arr groups [] →
      (lookup "id" dag.namedProps).toStr = some idStr →
      groups.find? (fun item => strictEqStr (elemOf item "id")
        (idStr ++ "/" ++ "org.apache.tez.common.counters.DAGCounter")) = some cg →
      (lookup "counters" cg.namedProps).truthy = false →
      getStatusClassForEntity dag = some "success") ∧
    (lookup "status" dag.namedProps = str "SUCCEEDED" →
      ∀ (groups counters : List Json) (idStr : String) (cg : Json),
      lookup "counterGroups" dag.namedProps = arr groups [] →
      (lookup "id" dag.namedProps).toStr = some idStr →
      groups.find? (fun item => strictEqStr (elemOf item "id")
        (idStr ++ "/" ++ "org.apache.tez.common.counters.DAGCounter")) = some cg →
      lookup "counters" cg.namedProps = arr counters [] →
      counters.find? (fun item => strictEqStr (elemOf item "id")
        (idStr ++ "/" ++ "org.apache.tez.common.counters.DAGCounter" ++ "/" ++
          "NUM_FAILED_TASKS")) = none →
      getStatusClassForEntity dag = some "success") ∧
    (lookup "status" dag.namedProps ≠ str "FAILED" →
      lookup "status" dag.namedProps ≠ str "KILLED" →
      lookup "status" dag.namedProps ≠ str "RUNNING" →
      lookup "status" dag.namedProps ≠ str "ERROR" →
      lookup "status" dag.namedProps ≠ str "SUCCEEDED" →
      getStatusClassForEntity dag = some "submitted") := by
  have hget : emberGet dag "status" = some (lookup "status" dag.namedProps) :=
    emberGet_of_isObject (by decide : namedKey "status" = true) hobj
  have zero : gtZero (num 0) = some false := rfl
  refine ⟨?_, ?_, ?_, ?_, ?_, ?_, ?_, ?_, ?_, ?_⟩
  · intro h
    simp [getStatusClassForEntity, hget, h, strictEqStr]
  · intro h
    simp [getStatusClassForEntity, hget, h, strictEqStr]
  · intro h
    simp [getStatusClassForEntity, hget, h, strictEqStr]
  · intro h
    simp [getStatusClassForEntity, hget, h, strictEqStr]
  · intro h groups counters idStr cg counter b hg hid hfg hc hfc hb
    have hcg := isObject_of_find? hfg
    have hco := isObject_of_find? hfc
    have hv := @getCounterValueForDag_found groups counters (lookup "id" dag.namedProps)
      cg counter _ idStr "org.apache.tez.common.counters.DAGCounter" "NUM_FAILED_TASKS" hid hfg hcg
      ((getProp_of_isObject namedKey_counters hcg).trans (congrArg some hc)) hfc hco
      (getProp_of_isObject namedKey_value hco)
    rw [← hg] at hv
    exact getStatusClassForEntity_succeeded hobj h hv hb
  · intro h hf
    have hv : getCounterValueForDag (lookup "counterGroups" dag.namedProps)
        (lookup "id" dag.namedProps) (str "org.apache.tez.common.counters.DAGCounter")
        (str "NUM_FAILED_TASKS") = some (num 0) := by
      simp [getCounterValueForDag, hf]
    exact getStatusClassForEntity_succeeded hobj h hv zero
  · intro h groups idStr hg hid hnone
    have hv := @getCounterValueForDag_no_group groups (lookup "id" dag.namedProps) idStr
      "org.apache.tez.common.counters.DAGCounter" "NUM_FAILED_TASKS" hid hnone
    rw [← hg] at hv
    exact getStatusClassForEntity_succeeded hobj h hv zero
  · intro h groups idStr cg hg hid hfg hc
    have hv := @getCounterValueForDag_no_counters groups (lookup "id" dag.namedProps) cg
      idStr "org.apache.tez.common.counters.DAGCounter" "NUM_FAILED_TASKS" hid hfg hc
    rw [← hg] at hv
    exact getStatusClassForEntity_succeeded hobj h hv zero
  · intro h groups counters idStr cg hg hid hfg hc hfc
    have hcg := isObject_of_find? hfg
    have hv := @getCounterValueForDag_no_counter groups counters
      (lookup "id" dag.namedProps) cg idStr
      "org.apache.tez.common.counters.DAGCounter" "NUM_FAILED_TASKS" hid hfg hcg
      ((getProp_of_isObject namedKey_counters hcg).trans (congrArg some hc)) hfc
    rw [← hg] at hv
    exact getStatusClassForEntity_succeeded hobj h hv zero
  · intro h1 h2 h3 h4 h5
    have e : ∀ s, lookup "status" dag.namedProps ≠ str s →
        strictEqStr (lookup "status" dag.namedProps) s = false := by
      intro s hs
      rw [← Bool.not_eq_true, strictEqStr_iff]
      exact hs
    simp [getStatusClassForEntity, hget, e _ h1, e _ h2, e _ h3, e _ h4, e _ h5]

/-- C28 at dag models: a succeeded one whose counter holds 2, one whose counter holds 0,
one whose counter holds the string `3`, one without counter groups, and one whose status is
`INITING`. -/
theorem getStatusClassForEntity_spec_witness :
    (sampleDagModelCounters (num 2)).isObject = true ∧
      getStatusClassForEntity (sampleDagModelCounters (num 2)) = some "warning" ∧
      getStatusClassForEntity (sampleDagModelCounters (num 0)) = some "success" ∧
      getStatusClassForEntity (sampleDagModelCounters (str "3")) = some "warning" ∧
      getStatusClassForEntity (sampleDagModel (str "SUCCEEDED")) = some "success" ∧
      getStatusClassForEntity (sampleDagModel (str "INITING")) = some "submitted" :=
  ⟨rfl,
    (getStatusClassForEntity_spec (sampleDagModelCounters (num 2)) rfl).2.2.2.2.1
      rfl _ _ _ _ _ true rfl rfl rfl rfl rfl rfl,
    (getStatusClassForEntity_spec (sampleDagModelCounters (num 0)) rfl).2.2.2.2.1
      rfl _ _ _ _ _ false rfl rfl rfl rfl rfl rfl,
    (getStatusClassForEntity_spec (sampleDagModelCounters (str "3")) rfl).2.2.2.2.1
      rfl _ _ _ _ _ true rfl rfl rfl rfl rfl rfl,
    (getStatusClassForEntity_spec (sampleDagModel (str "SUCCEEDED")) rfl).2.2.2.2.2.1
      rfl rfl,
    (getStatusClassForEntity_spec (sampleDagModel (str "INITING")) rfl).2.2.2.2.2.2.2.2.2
      (fun h => absurd (str.inj h) (by decide))
      (fun h => absurd (str.inj h) (by decide))
      (fun h => absurd (str.inj h) (by decide))
      (fun h => absurd (str.inj h) (by decide))
      (fun h => absurd (str.inj h) (by decide))⟩

end StatusClaims

end Tez
